import Mathlib

/-!
Verification development for the CSV → Obsidian contact synchronisation
engine (`csv_vault/csv_to_obsidian_contacts.py`).

The Python source is shallowly embedded: each Python helper becomes an
executable Lean definition over `String` / `List Char`, metadata
dictionaries become insertion-ordered association lists, and the
per-record pipeline becomes explicit state passing.  Machine text is
modelled exactly (character lists); Python `dict` semantics are modelled
by `dictInsert` / `dictGet?` below.
-/

/-! ## Python string primitives -/

/-- The characters Python `str.strip()` removes (also the match set of
the regex class `\s`): ASCII whitespace, the information separators
U+001C-U+001F, and the Unicode whitespace characters. -/
def pyWsChars : List Char :=
  ['\t', '\n', Char.ofNat 11, Char.ofNat 12, '\r',
   Char.ofNat 28, Char.ofNat 29, Char.ofNat 30, Char.ofNat 31, ' ',
   Char.ofNat 133, Char.ofNat 160, Char.ofNat 5760,
   Char.ofNat 8192, Char.ofNat 8193, Char.ofNat 8194, Char.ofNat 8195,
   Char.ofNat 8196, Char.ofNat 8197, Char.ofNat 8198, Char.ofNat 8199,
   Char.ofNat 8200, Char.ofNat 8201, Char.ofNat 8202,
   Char.ofNat 8232, Char.ofNat 8233, Char.ofNat 8239, Char.ofNat 8287,
   Char.ofNat 12288]

/-- Whether a character is whitespace to Python `str.strip()`. -/
def pyWs (c : Char) : Bool := pyWsChars.contains c

/-- Drop characters satisfying `p` from both ends of a character list. -/
def stripCore (p : Char → Bool) (cs : List Char) : List Char :=
  ((cs.dropWhile p).reverse.dropWhile p).reverse

/-- Python `s.strip()`. -/
def pyStrip (s : String) : String := ⟨stripCore pyWs s.data⟩

/-- Python `s.lstrip()`. -/
def pyLstrip (s : String) : String := ⟨s.data.dropWhile pyWs⟩

/-- Python `s.strip(c)` for a single-character strip set `c`. -/
def pyStripChar (c : Char) (s : String) : String := ⟨stripCore (fun x => x = c) s.data⟩

/-- Python `c in s` for a character `c`. -/
def strHas (c : Char) (s : String) : Bool := s.data.contains c

/-- Python `s.startswith(pre)`. -/
def startsW (s pre : String) : Bool := pre.data.isPrefixOf s.data

/-- Python `s.endswith(suf)`. -/
def endsW (s suf : String) : Bool := suf.data.isSuffixOf s.data

/-- Python `s[1:-1]`. -/
def slice1m1 (s : String) : String := ⟨(s.data.drop 1).dropLast⟩

/-- Python `s[n:]`. -/
def strDrop (n : Nat) (s : String) : String := ⟨s.data.drop n⟩

/-- Split a character list at the first occurrence of character `c`:
returns the part before and, when `c` occurs, the part after. -/
def breakAtChar (c : Char) : List Char → (List Char × Option (List Char))
  | [] => ([], none)
  | x :: xs =>
    if x = c then ([], some xs)
    else
      let r := breakAtChar c xs
      (x :: r.1, r.2)

/-- Python `s.split(c)` (single-character separator, no maxsplit):
always returns at least one part. -/
def splitCharAux (c : Char) : List Char → List Char → List String
  | [], acc => [⟨acc.reverse⟩]
  | x :: xs, acc =>
    if x = c then ⟨acc.reverse⟩ :: splitCharAux c xs []
    else splitCharAux c xs (x :: acc)

def pySplitChar (c : Char) (s : String) : List String := splitCharAux c s.data []

/-- First occurrence of a (non-empty) separator inside a character list:
returns the part strictly before the separator and the part after it. -/
def subOnce (sep : List Char) : List Char → Option (List Char × List Char)
  | [] => none
  | c :: cs =>
    if sep.isPrefixOf (c :: cs) then some ([], (c :: cs).drop sep.length)
    else
      match subOnce sep cs with
      | none => none
      | some r => some (c :: r.1, r.2)

/-- Whether `sep` occurs as a contiguous substring of `cs`. -/
def hasSub (sep : List Char) : List Char → Bool
  | [] => sep.isPrefixOf []
  | c :: cs => sep.isPrefixOf (c :: cs) || hasSub sep cs

/-- Python `s.split(sep, 2)` (maxsplit 2, non-empty separator). -/
def pySplit2 (sep s : String) : List String :=
  match subOnce sep.data s.data with
  | none => [s]
  | some (a, r1) =>
    match subOnce sep.data r1 with
    | none => [⟨a⟩, ⟨r1⟩]
    | some (b, r2) => [⟨a⟩, ⟨b⟩, ⟨r2⟩]

/-- The line-break characters of Python `str.splitlines()`: ASCII line
breaks, the file/group/record separators U+001C-U+001E, next line
U+0085, and the Unicode line and paragraph separators (`\r\n` is
consumed as a single break by `splitlinesAux`). -/
def isLbChars : List Char :=
  ['\n', Char.ofNat 11, Char.ofNat 12, '\r',
   Char.ofNat 28, Char.ofNat 29, Char.ofNat 30,
   Char.ofNat 133, Char.ofNat 8232, Char.ofNat 8233]

def isLb (c : Char) : Bool := isLbChars.contains c

def splitlinesAux : List Char → List Char → List String
  | [], acc => if acc.isEmpty then [] else [⟨acc.reverse⟩]
  | '\r' :: '\n' :: rest, acc => ⟨acc.reverse⟩ :: splitlinesAux rest []
  | c :: rest, acc =>
    if isLb c then ⟨acc.reverse⟩ :: splitlinesAux rest []
    else splitlinesAux rest (c :: acc)

/-- Python `s.splitlines()` (on the line breaks of `isLb`). -/
def pySplitlines (s : String) : List String := splitlinesAux s.data []

/-- Python `s.isdigit()` restricted to ASCII digits. -/
def pyIsDigitS (s : String) : Bool := !s.data.isEmpty && s.data.all Char.isDigit

/-- The `SAFE_RE` pattern `^[A-Za-z0-9_-]+$` of the source. -/
def safeReB (s : String) : Bool :=
  !s.data.isEmpty && s.data.all (fun c => c.isAlphanum || c = '_' || c = '-')

/-- The single-quote character, as a one-character string. -/
def sq1 : String := ⟨[Char.ofNat 39]⟩

/-! ## The Value model and Python-dict association lists -/

/-- A metadata value: a scalar string, a list of strings, or a boolean
(the only shapes the program ever stores in frontmatter). -/
inductive Val
  | s (x : String)
  | l (xs : List String)
  | b (x : Bool)
deriving DecidableEq, Repr

/-- Insertion-ordered dictionary (Python `dict`) with `String` keys. -/
abbrev Fm := List (String × Val)

/-- Python `d.get(k)`: value at the first matching key. -/
def dictGet? {α : Type} : List (String × α) → String → Option α
  | [], _ => none
  | e :: m, k => if e.1 = k then some e.2 else dictGet? m k

/-- Python `k in d`. -/
def dictHas {α : Type} : List (String × α) → String → Bool
  | [], _ => false
  | e :: m, k => e.1 = k || dictHas m k

/-- Python `d[k] = v`: replace in place when the key exists (position
kept), append otherwise.  All dictionaries built by the program have
distinct keys, on which this agrees with Python `dict` semantics. -/
def dictInsert {α : Type} : List (String × α) → String → α → List (String × α)
  | [], k, v => [(k, v)]
  | e :: m, k, v => if e.1 = k then (k, v) :: m else e :: dictInsert m k v

/-- Python `repr` of a string, for strings without control characters:
single-quoted unless the string holds a single quote and no double
quote, with backslash and quote escaping. -/
def pyReprStr (s : String) : String :=
  let sq := Char.ofNat 39
  let q : Char := if s.data.contains sq && !s.data.contains '"' then '"' else sq
  let esc := s.data.flatMap (fun c =>
    if c = '\\' || c = q then ['\\', c]
    else if c = '\n' then ['\\', 'n']
    else if c = '\r' then ['\\', 'r']
    else if c = '\t' then ['\\', 't']
    else [c])
  ⟨q :: esc ++ [q]⟩

/-- Python `str(v)` for the value shapes of `Val`. -/
def valPyStr : Val → String
  | .s x => x
  | .b x => if x then "True" else "False"
  | .l xs => "[" ++ String.intercalate ", " (xs.map pyReprStr) ++ "]"

/-- Python truthiness of a `Val` (`bool(v)`). -/
def valTruthy : Val → Bool
  | .s x => x ≠ ""
  | .l xs => !xs.isEmpty
  | .b x => x

/-! ## Frontmatter codec -/

/-- The string-quoting tail of `quote_scalar`: quote digit-only, `+`- or
`0`-leading strings, emit `SAFE_RE` matches bare, and quote everything
else with inner double quotes escaped. -/
def quoteStr (s : String) : String :=
  if pyIsDigitS s || startsW s "+" || (s.data.length > 1 && s.data.head? = some '0') then
    "\"" ++ s ++ "\""
  else if safeReB s then s
  else
    "\"" ++ String.mk (s.data.flatMap (fun c => if c = '"' then ['\\', '"'] else [c])) ++ "\""

/-- `quote_scalar` of the source: YAML-safe scalar serialisation (an
empty or `None` scalar becomes an empty quoted string; booleans their
literal forms; any other value is serialised from its `str()` form). -/
def quote_scalar (v : Val) : String :=
  match v with
  | .b x => if x then "true" else "false"
  | .s x => if x = "" then "\"\"" else quoteStr x
  | .l xs => quoteStr (valPyStr (.l xs))

/-- The lines emitted by `dump_frontmatter` for one `key, value` entry. -/
def dumpEntryLines (e : String × Val) : List String :=
  match e.2 with
  | .l xs =>
    if xs.isEmpty then [e.1 ++ ": []"]
    else (e.1 ++ ":") :: xs.map (fun it => "  - " ++ quote_scalar (.s it))
  | v => [e.1 ++ ": " ++ quote_scalar v]

/-- Python `chr(10).join(lines)`. -/
def joinWithNl : List String → String
  | [] => ""
  | [a] => a
  | a :: rest => a ++ "\n" ++ joinWithNl rest

/-- `dump_frontmatter` of the source. -/
def dump_frontmatter (data : Fm) : String :=
  joinWithNl (["---"] ++ data.flatMap dumpEntryLines ++ ["---"]) ++ "\n"

/-- The item-cleaning chain `.strip().strip(chr(34)).strip(chr(39))` used on
parsed list items and quoted inline values. -/
def stripChain (s : String) : String :=
  pyStripChar (Char.ofNat 39) (pyStripChar '"' (pyStrip s))

/-- The inner loop of `read_frontmatter` collecting block-list items
(`  - item` lines, tolerating missing indentation). -/
def takeItems : List String → (List String × List String)
  | [] => ([], [])
  | nxt :: rest =>
    if startsW nxt "  - " then
      let r := takeItems rest
      (stripChain (strDrop 4 nxt) :: r.1, r.2)
    else if startsW (pyStrip nxt) "- " then
      let r := takeItems rest
      (stripChain (strDrop 2 (pyStrip nxt)) :: r.1, r.2)
    else ([], nxt :: rest)

theorem takeItems_len (ls : List String) : (takeItems ls).2.length ≤ ls.length := by
  induction ls with
  | nil => simp [takeItems]
  | cons x xs ih =>
    simp only [takeItems]
    split
    · exact Nat.le_succ_of_le ih
    · split
      · exact Nat.le_succ_of_le ih
      · simp

/-- The `key: value` line loop of `read_frontmatter`, with an explicit
fuel argument (the loop consumes at least one line per step, so any fuel
of at least the number of lines computes the loop exactly). -/
def parseGo : Nat → List String → Fm → Fm
  | 0, _, d => d
  | _ + 1, [], d => d
  | fuel + 1, line :: rest, d =>
    if pyStrip line = "" then parseGo fuel rest d
    else if strHas ':' line && !startsW (pyLstrip line) "- " then
      match breakAtChar ':' line.data with
      | (kcs, some vcs) =>
        let key := pyStrip ⟨kcs⟩
        let val := pyStrip ⟨vcs⟩
        if val = "" then
          let ti := takeItems rest
          if ti.1 ≠ [] then parseGo fuel ti.2 (dictInsert d key (.l ti.1))
          else parseGo fuel rest (dictInsert d key (.s ""))
        else if startsW val "[" && endsW val "]" then
          let inner := pyStrip (slice1m1 val)
          if inner = "" then parseGo fuel rest (dictInsert d key (.l []))
          else parseGo fuel rest (dictInsert d key (.l ((pySplitChar ',' inner).map stripChain)))
        else
          let v2 :=
            if (startsW val "\"" && endsW val "\"") || (startsW val sq1 && endsW val sq1) then
              slice1m1 val
            else val
          parseGo fuel rest (dictInsert d key (.s v2))
      | (_, none) => parseGo fuel rest d
    else parseGo fuel rest d

/-- The `key: value` line loop of `read_frontmatter`. -/
def parseLines (ls : List String) (d : Fm) : Fm := parseGo ls.length ls d

/-- `read_frontmatter` of the source: decode a document into its
metadata dictionary and body. -/
def read_frontmatter (text : String) : Fm × String :=
  if !startsW text "---" then ([], text)
  else
    match pySplit2 "---" text with
    | [_, yb, body] => (parseLines (pySplitlines yb) [], body)
    | _ => ([], text)

example : read_frontmatter "no frontmatter" = ([], "no frontmatter") := by decide
example :
    read_frontmatter "---\nNom: DUPONT\ngroupes:\n  - \"a b\"\n  - c\n---\nbody" =
      ([("Nom", .s "DUPONT"), ("groupes", .l ["a b", "c"])], "\nbody") := by decide
example : dump_frontmatter [("k", .s "0123")] = "---\nk: \"0123\"\n---\n" := by decide
example : dump_frontmatter [("k", .s "Paris")] = "---\nk: Paris\n---\n" := by decide
example :
    read_frontmatter (dump_frontmatter [("a", .s "x y"), ("b", .l ["p", "q r"]), ("c", .l [])]) =
      ([("a", .s "x y"), ("b", .l ["p", "q r"]), ("c", .l [])], "\n") := by decide

/-! ## Merge engine -/

/-- The `is_empty` helper inside `merge_frontmatter` applied to
`existing.get(k)` (`None` when the key is absent). -/
def is_empty_opt : Option Val → Bool
  | none => true
  | some (.s v) => pyStrip v = ""
  | some (.l xs) => xs.isEmpty
  | some (.b _) => false

/-- The body of the `for k, v in newdata.items()` loop of
`merge_frontmatter`. -/
def mergeStep (existing : Fm) (preserve_keys overwrite_keys : List String)
    (out : Fm) (e : String × Val) : Fm :=
  if preserve_keys.contains e.1 && dictHas existing e.1 then out
  else if overwrite_keys.contains e.1 || !dictHas existing e.1
      || is_empty_opt (dictGet? existing e.1) then
    dictInsert out e.1 e.2
  else out

/-- `merge_frontmatter` of the source: field-ownership merge of the
existing metadata with the incoming metadata. -/
def merge_frontmatter (existing newdata : Fm)
    (preserve_keys overwrite_keys : List String) : Fm :=
  newdata.foldl (mergeStep existing preserve_keys overwrite_keys) existing

example :
    merge_frontmatter [("notes", .s "mine"), ("Nom", .s "OLD")]
      [("notes", .s "new"), ("Nom", .s "NEW")] ["notes"] ["Nom"] =
      [("notes", .s "mine"), ("Nom", .s "NEW")] := by decide

/-! ## Dictionary lemmas -/

theorem dictGet?_insert_self {α : Type} (m : List (String × α)) (k : String) (v : α) :
    dictGet? (dictInsert m k v) k = some v := by
  induction m with
  | nil => simp [dictInsert, dictGet?]
  | cons e tl ih =>
    by_cases h : e.1 = k
    · simp [dictInsert, h, dictGet?]
    · simp [dictInsert, h, dictGet?, ih]

theorem dictGet?_insert_ne {α : Type} (m : List (String × α)) {k1 k : String} (v : α)
    (h : k1 ≠ k) : dictGet? (dictInsert m k1 v) k = dictGet? m k := by
  induction m with
  | nil => simp only [dictInsert, dictGet?]; rw [if_neg h]
  | cons e tl ih =>
    simp only [dictInsert]
    by_cases he : e.1 = k1
    · rw [if_pos he]
      have hek : ¬ e.1 = k := fun hh => h (he.symm.trans hh)
      simp only [dictGet?]
      rw [if_neg h, if_neg hek]
    · rw [if_neg he]
      simp only [dictGet?]
      by_cases hk : e.1 = k
      · rw [if_pos hk, if_pos hk]
      · rw [if_neg hk, if_neg hk, ih]

theorem dictHas_insert_self {α : Type} (m : List (String × α)) (k : String) (v : α) :
    dictHas (dictInsert m k v) k = true := by
  induction m with
  | nil => simp [dictInsert, dictHas]
  | cons e tl ih =>
    by_cases h : e.1 = k
    · simp [dictInsert, h, dictHas]
    · simp [dictInsert, h, dictHas, ih]

theorem dictHas_insert_ne {α : Type} (m : List (String × α)) {k1 k : String} (v : α)
    (h : k1 ≠ k) : dictHas (dictInsert m k1 v) k = dictHas m k := by
  induction m with
  | nil => simp [dictInsert, dictHas, h]
  | cons e tl ih =>
    simp only [dictInsert]
    by_cases he : e.1 = k1
    · rw [if_pos he]
      have hek : ¬ e.1 = k := fun hh => h (he.symm.trans hh)
      simp [dictHas, h, hek]
    · rw [if_neg he]
      simp [dictHas, ih]

/-! ## Merge-engine lemmas -/

/-- A merge fold over incoming entries none of which has key `k` leaves
the value at `k` untouched. -/
theorem mergeFold_get_of_no_key (existing : Fm) (pk ok : List String) (nd : Fm)
    (k : String) (acc : Fm) (h : ∀ e ∈ nd, e.1 ≠ k) :
    dictGet? (nd.foldl (mergeStep existing pk ok) acc) k = dictGet? acc k := by
  induction nd generalizing acc with
  | nil => rfl
  | cons e tl ih =>
    have he : e.1 ≠ k := h e (List.mem_cons_self e tl)
    have htl : ∀ x ∈ tl, x.1 ≠ k := fun x hx => h x (List.mem_cons_of_mem e hx)
    simp only [List.foldl_cons]
    rw [ih _ htl]
    unfold mergeStep
    split
    · rfl
    · split
      · exact dictGet?_insert_ne acc e.2 he
      · rfl

/-- Preserved keys present in the existing metadata keep the existing
value through the merge, whatever the incoming entries hold. -/
theorem merge_get_preserved (existing nd : Fm) (pk ok : List String) (k : String)
    (h1 : pk.contains k = true) (h2 : dictHas existing k = true) :
    dictGet? (merge_frontmatter existing nd pk ok) k = dictGet? existing k := by
  unfold merge_frontmatter
  suffices h : ∀ acc, dictGet? acc k = dictGet? existing k →
      dictGet? (nd.foldl (mergeStep existing pk ok) acc) k = dictGet? existing k from
    h existing rfl
  induction nd with
  | nil => intro acc hacc; exact hacc
  | cons e tl ih =>
    intro acc hacc
    simp only [List.foldl_cons]
    apply ih
    unfold mergeStep
    by_cases he : e.1 = k
    · rw [he, h1, h2]
      simp [hacc]
    · split
      · exact hacc
      · split
        · rw [dictGet?_insert_ne acc e.2 he]; exact hacc
        · exact hacc

/-- A default-policy key (neither preserved nor overwritten) that is
absent from the existing metadata or empty there is filled with the
incoming value. -/
theorem merge_get_fill (existing : Fm) (pk ok : List String) (nd : Fm)
    (k : String) (v : Val) (hpk : pk.contains k = false)
    (hce : dictHas existing k = false ∨ is_empty_opt (dictGet? existing k) = true)
    (hmem : (k, v) ∈ nd) (hnd : (nd.map Prod.fst).Nodup) :
    dictGet? (merge_frontmatter existing nd pk ok) k = some v := by
  unfold merge_frontmatter
  suffices h : ∀ acc, dictGet? (nd.foldl (mergeStep existing pk ok) acc) k = some v from
    h existing
  induction nd with
  | nil => cases hmem
  | cons e tl ih =>
    intro acc
    have hkey : e.1 ∉ tl.map Prod.fst := (List.nodup_cons.mp hnd).1
    have htlnd : (tl.map Prod.fst).Nodup := (List.nodup_cons.mp hnd).2
    simp only [List.foldl_cons]
    by_cases he : e.1 = k
    · have hek : e = (k, v) := by
        rcases List.mem_cons.mp hmem with h' | h'
        · exact h'.symm
        · exact absurd (he ▸ List.mem_map_of_mem Prod.fst h') hkey
      have hstep : mergeStep existing pk ok acc e = dictInsert acc k v := by
        unfold mergeStep
        rw [hek]
        simp only
        rw [hpk]
        simp only [Bool.false_and, Bool.false_eq_true, if_false]
        rcases hce with h' | h'
        · rw [h']; simp
        · rw [h']; simp
      rw [hstep]
      have hno : ∀ x ∈ tl, x.1 ≠ k := by
        intro x hx hxk
        exact hkey (he ▸ hxk ▸ List.mem_map_of_mem Prod.fst hx)
      rw [mergeFold_get_of_no_key existing pk ok tl k _ hno]
      exact dictGet?_insert_self acc k v
    · have hmem' : (k, v) ∈ tl := by
        rcases List.mem_cons.mp hmem with h' | h'
        · exact absurd (congrArg Prod.fst h'.symm) he
        · exact h'
      exact ih hmem' htlnd _

/-- A default-policy key that is present and non-empty in the existing
metadata keeps its existing value through the merge. -/
theorem merge_get_untouched (existing nd : Fm) (pk ok : List String) (k : String)
    (hpk : pk.contains k = false) (hok : ok.contains k = false)
    (hhas : dictHas existing k = true)
    (hne : is_empty_opt (dictGet? existing k) = false) :
    dictGet? (merge_frontmatter existing nd pk ok) k = dictGet? existing k := by
  unfold merge_frontmatter
  suffices h : ∀ acc, dictGet? acc k = dictGet? existing k →
      dictGet? (nd.foldl (mergeStep existing pk ok) acc) k = dictGet? existing k from
    h existing rfl
  induction nd with
  | nil => intro acc hacc; exact hacc
  | cons e tl ih =>
    intro acc hacc
    simp only [List.foldl_cons]
    apply ih
    unfold mergeStep
    by_cases he : e.1 = k
    · rw [he, hpk, hok, hhas, hne]
      simp [hacc]
    · split
      · exact hacc
      · split
        · rw [dictGet?_insert_ne acc e.2 he]; exact hacc
        · exact hacc

/-! ## Claim C3 -/

/-- C3: for every key `k` in `preserve_keys` that is present in the
existing metadata, `merge_frontmatter` returns the existing value for
`k` unchanged, for every incoming metadata (in particular also when `k`
is in `overwrite_keys`, so preserve deterministically takes precedence
over overwrite); and every key `k2` present only in the existing
metadata and absent from the incoming metadata keeps its existing
value. -/
theorem claim_C3 (existing nd : Fm) (pk ok : List String) (k k2 : String)
    (h1 : pk.contains k = true) (h2 : dictHas existing k = true)
    (h3 : ∀ e ∈ nd, e.1 ≠ k2) :
    dictGet? (merge_frontmatter existing nd pk ok) k = dictGet? existing k ∧
    dictGet? (merge_frontmatter existing nd pk ok) k2 = dictGet? existing k2 :=
  ⟨merge_get_preserved existing nd pk ok k h1 h2,
   mergeFold_get_of_no_key existing pk ok nd k2 existing h3⟩

theorem claim_C3_witness :
    dictGet? (merge_frontmatter [("notes", Val.s "mine"), ("keep", Val.s "x")]
        [("notes", Val.s "other"), ("Nom", Val.s "N")] ["notes"] ["notes", "Nom"])
        "notes" =
      dictGet? [("notes", Val.s "mine"), ("keep", Val.s "x")] "notes" ∧
    dictGet? (merge_frontmatter [("notes", Val.s "mine"), ("keep", Val.s "x")]
        [("notes", Val.s "other"), ("Nom", Val.s "N")] ["notes"] ["notes", "Nom"])
        "keep" =
      dictGet? [("notes", Val.s "mine"), ("keep", Val.s "x")] "keep" :=
  claim_C3 [("notes", Val.s "mine"), ("keep", Val.s "x")]
    [("notes", Val.s "other"), ("Nom", Val.s "N")] ["notes"] ["notes", "Nom"]
    "notes" "keep" (by decide) (by decide) (by decide)

/-! ## Claim C4 -/

/-- C4: for an incoming key `k` that is neither in `preserve_keys` nor
in `overwrite_keys`, the merge takes the incoming value exactly when `k`
is absent from the existing metadata or the existing value is empty
(blank string or empty list, as decided by `is_empty_opt`); otherwise
the existing value is left untouched. -/
theorem claim_C4 (existing nd : Fm) (pk ok : List String) (k : String) (v : Val)
    (hpk : pk.contains k = false) (hok : ok.contains k = false)
    (hmem : (k, v) ∈ nd) (hnd : (nd.map Prod.fst).Nodup) :
    ((dictHas existing k = false ∨ is_empty_opt (dictGet? existing k) = true) →
      dictGet? (merge_frontmatter existing nd pk ok) k = some v) ∧
    (dictHas existing k = true → is_empty_opt (dictGet? existing k) = false →
      dictGet? (merge_frontmatter existing nd pk ok) k = dictGet? existing k) :=
  ⟨fun hce => merge_get_fill existing pk ok nd k v hpk hce hmem hnd,
   fun hhas hne => merge_get_untouched existing nd pk ok k hpk hok hhas hne⟩

theorem claim_C4_witness :
    (dictGet? (merge_frontmatter [("extra", Val.s "  ")] [("extra", Val.s "filled")]
        ["notes"] ["Nom"]) "extra" = some (Val.s "filled")) ∧
    (dictGet? (merge_frontmatter [("other", Val.s "kept")] [("other", Val.s "new")]
        ["notes"] ["Nom"]) "other" = dictGet? [("other", Val.s "kept")] "other") :=
  ⟨(claim_C4 [("extra", Val.s "  ")] [("extra", Val.s "filled")] ["notes"] ["Nom"]
      "extra" (Val.s "filled") (by decide) (by decide) (by decide) (by decide)).1
      (by decide),
   (claim_C4 [("other", Val.s "kept")] [("other", Val.s "new")] ["notes"] ["Nom"]
      "other" (Val.s "new") (by decide) (by decide) (by decide) (by decide)).2
      (by decide) (by decide)⟩

/-! ## Claim C10 -/

/-- C10: the decoder is total on malformed input: a text that begins
with the block delimiter but has no closing delimiter (splitting on the
delimiter yields fewer than three parts) decodes to empty metadata with
the full unmodified text as body, exactly like delimiter-less text. -/
theorem claim_C10 (t : String) :
    (startsW t "---" = false → read_frontmatter t = ([], t)) ∧
    (startsW t "---" = true → (pySplit2 "---" t).length < 3 →
      read_frontmatter t = ([], t)) := by
  constructor
  · intro h
    unfold read_frontmatter
    rw [h]
    rfl
  · intro h hl
    unfold read_frontmatter
    rw [h]
    simp only [Bool.not_true, Bool.false_eq_true, if_false]
    split
    · rename_i a yb body heq
      rw [heq] at hl
      simp at hl
    · rfl

theorem claim_C10_witness :
    read_frontmatter "---abc" = ([], "---abc") ∧
    read_frontmatter "plain text" = ([], "plain text") :=
  ⟨(claim_C10 "---abc").2 (by decide) (by decide),
   (claim_C10 "plain text").1 (by decide)⟩

/-! ## Safety predicates for round-trip-safe metadata -/

/-- The three-hyphen block delimiter, as characters. -/
def tri : List Char := ['-', '-', '-']

/-- A character allowed inside round-trip-safe strings: not a double
quote and not a line break. -/
def okChar (c : Char) : Bool := !(c = '"') && !(isLb c)

/-- No occurrence of the block delimiter `---`. -/
def noTriple (s : String) : Bool := !(hasSub tri s.data)

/-- A round-trip-safe string value: no double quote, no line break, no
embedded `---`, and no single quote at either end. -/
def safeStr (s : String) : Bool :=
  s.data.all okChar && noTriple s && !(startsW s sq1) && !(endsW s sq1)

/-- A character allowed in a round-trip-safe metadata key: a `SAFE_RE`
character (`[A-Za-z0-9_-]`) or a non-ASCII, non-whitespace character
(such as the accented letters of the fixed field names). -/
def keyOkChar (c : Char) : Bool :=
  c.isAlphanum || c = '_' || c = '-' || (127 < c.toNat && !(pyWs c))

/-- A round-trip-safe metadata key: non-empty, made of key characters,
and holding no embedded `---`. -/
def safeKey (k : String) : Bool :=
  (!k.data.isEmpty && k.data.all keyOkChar) && noTriple k

/-- A round-trip-safe value: a safe scalar string or a list of safe
strings. -/
def safeVal : Val → Bool
  | .s x => safeStr x
  | .l xs => xs.all safeStr
  | .b _ => false

/-- Round-trip-safe metadata: every key and value is safe. -/
def safeMeta (m : Fm) : Bool := m.all (fun e => safeKey e.1 && safeVal e.2)

/-! ## Generic list and string lemmas -/

theorem joinWithNl_cons (a : String) (rest : List String) (h : rest ≠ []) :
    joinWithNl (a :: rest) = a ++ "\n" ++ joinWithNl rest := by
  cases rest with
  | nil => exact absurd rfl h
  | cons b tl => rfl

theorem dropWhile_eq_self_of_head (p : Char → Bool) (cs : List Char)
    (h : ∀ c, cs.head? = some c → p c = false) : List.dropWhile p cs = cs := by
  cases cs with
  | nil => rfl
  | cons c tl =>
    have hc : p c = false := h c rfl
    simp [List.dropWhile_cons, hc]

theorem rstrip_eq_self (p : Char → Bool) (cs : List Char)
    (h : ∀ c, cs.getLast? = some c → p c = false) :
    (cs.reverse.dropWhile p).reverse = cs := by
  rw [dropWhile_eq_self_of_head p cs.reverse (by
    intro c hc
    rw [List.head?_reverse] at hc
    exact h c hc)]
  exact cs.reverse_reverse

theorem stripCore_eq_self (p : Char → Bool) (cs : List Char)
    (h1 : ∀ c, cs.head? = some c → p c = false)
    (h2 : ∀ c, cs.getLast? = some c → p c = false) : stripCore p cs = cs := by
  unfold stripCore
  rw [dropWhile_eq_self_of_head p cs h1]
  exact rstrip_eq_self p cs h2

theorem stripCore_cons_sep (p : Char → Bool) (b : Char) (cs : List Char)
    (hb : p b = true)
    (h1 : ∀ c, cs.head? = some c → p c = false)
    (h2 : ∀ c, cs.getLast? = some c → p c = false) : stripCore p (b :: cs) = cs := by
  unfold stripCore
  rw [List.dropWhile_cons, hb]
  simp only [if_true]
  rw [dropWhile_eq_self_of_head p cs h1]
  exact rstrip_eq_self p cs h2

theorem breakAtChar_no_occur (ch : Char) (xs rest : List Char)
    (h : ∀ c ∈ xs, c ≠ ch) : breakAtChar ch (xs ++ ch :: rest) = (xs, some rest) := by
  induction xs with
  | nil => simp [breakAtChar]
  | cons x tl ih =>
    have hx : x ≠ ch := h x (List.mem_cons_self x tl)
    have htl : ∀ c ∈ tl, c ≠ ch := fun c hc => h c (List.mem_cons_of_mem x hc)
    simp only [List.cons_append, breakAtChar, if_neg hx, List.append_eq, ih htl]

theorem dictInsert_not_has {α : Type} (m : List (String × α)) (k : String) (v : α)
    (h : dictHas m k = false) : dictInsert m k v = m ++ [(k, v)] := by
  induction m with
  | nil => rfl
  | cons e tl ih =>
    simp only [dictHas, Bool.or_eq_false_iff] at h
    have he : ¬ e.1 = k := by
      intro hh
      rw [hh] at h
      simp at h
    simp only [dictInsert, if_neg he, List.cons_append]
    rw [ih h.2]

theorem flatMap_esc_id (cs : List Char) (h : ∀ c ∈ cs, (c = '"') = False) :
    cs.flatMap (fun c => if c = '"' then ['\\', '"'] else [c]) = cs := by
  induction cs with
  | nil => rfl
  | cons c tl ih =>
    have hc : ¬ c = '"' := by
      intro hh
      exact (h c (List.mem_cons_self c tl)) ▸ hh
    simp only [List.flatMap_cons, if_neg hc]
    rw [ih (fun c hc => h c (List.mem_cons_of_mem _ hc))]
    rfl

/-! ## Lemmas on the block delimiter and text splitting -/

theorem tri_prefix_split (c : Char) (M1 y : List Char)
    (h : tri.isPrefixOf (c :: (M1 ++ y)) = true) :
    tri.isPrefixOf (c :: M1) = true ∨
      ((c :: M1).getLast? = some '-' ∧ y.head? = some '-') := by
  match M1 with
  | [] =>
    simp only [List.nil_append] at h
    simp only [tri, List.isPrefixOf] at h
    obtain ⟨hc, hy⟩ := Bool.and_eq_true_iff.mp h
    right
    cases y with
    | nil => simp [List.isPrefixOf] at hy
    | cons y0 ys =>
      simp only [List.isPrefixOf] at hy
      obtain ⟨hy0, _⟩ := Bool.and_eq_true_iff.mp hy
      exact ⟨by simp [List.getLast?]; exact (beq_iff_eq.mp hc).symm,
        by simp; exact (beq_iff_eq.mp hy0).symm⟩
  | [c2] =>
    simp only [List.cons_append, List.nil_append] at h
    simp only [tri, List.isPrefixOf] at h
    obtain ⟨hc, h2⟩ := Bool.and_eq_true_iff.mp h
    obtain ⟨hc2, hy⟩ := Bool.and_eq_true_iff.mp h2
    right
    cases y with
    | nil => simp [List.isPrefixOf] at hy
    | cons y0 ys =>
      simp only [List.isPrefixOf] at hy
      obtain ⟨hy0, _⟩ := Bool.and_eq_true_iff.mp hy
      refine ⟨?_, by simp; exact (beq_iff_eq.mp hy0).symm⟩
      show (c :: [c2]).getLast? = some '-'
      simp [List.getLast?]
      exact (beq_iff_eq.mp hc2).symm
  | c2 :: c3 :: M3 =>
    simp only [List.cons_append] at h
    simp only [tri, List.isPrefixOf] at h
    obtain ⟨hc, h2⟩ := Bool.and_eq_true_iff.mp h
    obtain ⟨hc2, h3⟩ := Bool.and_eq_true_iff.mp h2
    obtain ⟨hc3, _⟩ := Bool.and_eq_true_iff.mp h3
    left
    simp only [tri, List.isPrefixOf]
    rw [hc, hc2, hc3]
    simp [List.isPrefixOf]

theorem tri_prefix_hasSub (cs : List Char) (h : tri.isPrefixOf cs = true) :
    hasSub tri cs = true := by
  cases cs with
  | nil => simp [tri, List.isPrefixOf] at h
  | cons c tl => simp [hasSub, h]

theorem hasSub_tri_append (x y : List Char) (hx : hasSub tri x = false)
    (hy : hasSub tri y = false)
    (hb : x.getLast? ≠ some '-' ∨ y.head? ≠ some '-') :
    hasSub tri (x ++ y) = false := by
  induction x with
  | nil => simpa using hy
  | cons c x1 ih =>
    simp only [hasSub, Bool.or_eq_false_iff] at hx
    simp only [List.cons_append, hasSub, Bool.or_eq_false_iff]
    constructor
    · by_contra hcon
      rw [Bool.not_eq_false] at hcon
      rcases tri_prefix_split c x1 y hcon with h' | h'
      · rw [hx.1] at h'
        exact absurd h' (by simp)
      · rcases hb with hb | hb
        · exact hb h'.1
        · exact hb h'.2
    · apply ih hx.2
      · cases x1 with
        | nil => left; simp
        | cons a b =>
          rcases hb with hb | hb
          · left
            rw [List.getLast?_cons_cons] at hb
            exact hb
          · right; exact hb

theorem subOnce_prefix_start (cs : List Char) (h : tri.isPrefixOf cs = true) :
    subOnce tri cs = some ([], cs.drop 3) := by
  cases cs with
  | nil => simp [tri, List.isPrefixOf] at h
  | cons c tl =>
    simp only [subOnce, if_pos h]
    rfl

theorem subOnce_mid (M R : List Char) (h1 : hasSub tri M = false)
    (h2 : M.getLast? ≠ some '-') :
    subOnce tri (M ++ (tri ++ R)) = some (M, R) := by
  induction M with
  | nil =>
    simp only [List.nil_append]
    rw [subOnce_prefix_start (tri ++ R)
      (List.isPrefixOf_iff_prefix.mpr (List.prefix_append tri R))]
    simp [tri]
  | cons c M1 ih =>
    have hpre : tri.isPrefixOf (c :: (M1 ++ (tri ++ R))) = false := by
      by_contra hcon
      rw [Bool.not_eq_false] at hcon
      rcases tri_prefix_split c M1 (tri ++ R) hcon with h' | h'
      · rw [tri_prefix_hasSub _ h'] at h1
        exact absurd h1 (by simp)
      · exact h2 h'.1
    simp only [hasSub, Bool.or_eq_false_iff] at h1
    have hM1l : M1.getLast? ≠ some '-' := by
      cases M1 with
      | nil => simp
      | cons a b =>
        rw [List.getLast?_cons_cons] at h2
        exact h2
    rw [List.cons_append]
    simp only [subOnce, hpre]
    rw [ih h1.2 hM1l]
    simp

/-! ## Splitlines lemmas -/

theorem strMk_data (a : String) : (⟨a.data⟩ : String) = a := by
  cases a
  rfl

theorem splitlinesAux_nl (rest acc : List Char) :
    splitlinesAux ('\n' :: rest) acc = ⟨acc.reverse⟩ :: splitlinesAux rest [] := by
  cases rest with
  | nil => simp [splitlinesAux, show isLb '\n' = true from by decide]
  | cons c2 r2 => simp [splitlinesAux, show isLb '\n' = true from by decide]

theorem splitlinesAux_content (l cs acc : List Char) (hl : ∀ c ∈ l, isLb c = false) :
    splitlinesAux (l ++ cs) acc = splitlinesAux cs (l.reverse ++ acc) := by
  induction l generalizing acc with
  | nil => simp
  | cons c l1 ih =>
    have hc : isLb c = false := hl c (List.mem_cons_self c l1)
    have hcr : c ≠ '\r' := by
      intro hh
      rw [hh] at hc
      exact absurd hc (by decide)
    have hl1 : ∀ x ∈ l1, isLb x = false := fun x hx => hl x (List.mem_cons_of_mem c hx)
    rw [List.cons_append]
    have hstep : splitlinesAux (c :: (l1 ++ cs)) acc = splitlinesAux (l1 ++ cs) (c :: acc) := by
      cases hsh : (l1 ++ cs) with
      | nil => simp [splitlinesAux, hc]
      | cons c2 r2 => simp [splitlinesAux, hc, hcr]
    rw [hstep, ih (c :: acc) hl1]
    simp

theorem splitlines_join (lines : List String) (hne : lines ≠ [])
    (hbf : ∀ l ∈ lines, ∀ c ∈ l.data, isLb c = false) :
    splitlinesAux ((joinWithNl lines).data ++ ['\n']) [] = lines := by
  induction lines with
  | nil => exact absurd rfl hne
  | cons a tl ih =>
    cases tl with
    | nil =>
      show splitlinesAux ((joinWithNl [a]).data ++ ['\n']) [] = [a]
      have : joinWithNl [a] = a := rfl
      rw [this]
      rw [splitlinesAux_content a.data ['\n'] []
        (fun c hc => hbf a (List.mem_cons_self a []) c hc)]
      rw [splitlinesAux_nl]
      simp [splitlinesAux, strMk_data]
    | cons b tl2 =>
      rw [joinWithNl_cons a (b :: tl2) (by simp)]
      have hd : ((a ++ "\n" ++ joinWithNl (b :: tl2)).data ++ ['\n']) =
          a.data ++ ('\n' :: ((joinWithNl (b :: tl2)).data ++ ['\n'])) := by
        rw [String.data_append, String.data_append]
        simp [String.data]
      rw [hd]
      rw [splitlinesAux_content a.data _ []
        (fun c hc => hbf a (List.mem_cons_self a _) c hc)]
      rw [splitlinesAux_nl]
      rw [ih (by simp) (fun l hl c hc => hbf l (List.mem_cons_of_mem a hl) c hc)]
      simp [strMk_data]

/-! ## Character-class facts -/

theorem alnum_ne (c x : Char) (h : c.isAlphanum = true) (hx : x.isAlphanum = false) :
    c ≠ x := by
  intro hh
  rw [hh] at h
  rw [h] at hx
  exact absurd hx (by simp)

theorem mem_pyWsChars_of_ws {c : Char} (h : pyWs c = true) : c ∈ pyWsChars := by
  unfold pyWs at h
  simpa using h

theorem mem_isLbChars_of_lb {c : Char} (h : isLb c = true) : c ∈ isLbChars := by
  unfold isLb at h
  simpa using h

theorem pyWsChars_not_alnum : ∀ c ∈ pyWsChars, c.isAlphanum = false := by decide

theorem pyWsChars_not_digit : ∀ c ∈ pyWsChars, c.isDigit = false := by decide

theorem isLbChars_ws : ∀ c ∈ isLbChars, pyWs c = true := by decide

/-- Every `splitlines` break character is strip whitespace. -/
theorem isLb_false_of_pyWs {c : Char} (h : pyWs c = false) : isLb c = false := by
  cases hlb : isLb c
  · rfl
  · rw [isLbChars_ws c (mem_isLbChars_of_lb hlb)] at h
    exact absurd h (by simp)

/-- The character facts needed about `SAFE_RE` characters. -/
theorem safe_char_facts (c : Char) (h : (c.isAlphanum || c = '_' || c = '-') = true) :
    isLb c = false ∧ pyWs c = false ∧ c ≠ '"' ∧ c ≠ ':' ∧ c ≠ '[' ∧
      c ≠ Char.ofNat 39 := by
  simp only [Bool.or_eq_true] at h
  rcases h with (h | h) | h
  · have hws : pyWs c = false := by
      cases hw : pyWs c
      · rfl
      · exfalso
        rw [pyWsChars_not_alnum c (mem_pyWsChars_of_ws hw)] at h
        exact absurd h (by simp)
    refine ⟨isLb_false_of_pyWs hws, hws, ?_, ?_, ?_, ?_⟩
    · exact alnum_ne c _ h (by decide)
    · exact alnum_ne c _ h (by decide)
    · exact alnum_ne c _ h (by decide)
    · exact alnum_ne c _ h (by decide)
  · rw [decide_eq_true_eq] at h
    subst h
    refine ⟨by decide, by decide, by decide, by decide, by decide, by decide⟩
  · rw [decide_eq_true_eq] at h
    subst h
    refine ⟨by decide, by decide, by decide, by decide, by decide, by decide⟩

/-! ## Safe-string decompositions -/

theorem mem_of_getLast? {l : List Char} {a : Char} (h : l.getLast? = some a) : a ∈ l := by
  induction l with
  | nil => simp at h
  | cons b t ih =>
    cases t with
    | nil =>
      simp [List.getLast?] at h
      simp [h]
    | cons c u =>
      rw [List.getLast?_cons_cons] at h
      exact List.mem_cons_of_mem b (ih h)

theorem mem_of_head? {l : List Char} {a : Char} (h : l.head? = some a) : a ∈ l := by
  cases l with
  | nil => simp at h
  | cons b t =>
    simp at h
    simp [h]

/-- The character facts needed about safe-key characters. -/
theorem key_char_facts_all (c : Char) (h : keyOkChar c = true) :
    isLb c = false ∧ pyWs c = false ∧ c ≠ '"' ∧ c ≠ ':' ∧ c ≠ '[' ∧
      c ≠ Char.ofNat 39 := by
  unfold keyOkChar at h
  simp only [Bool.or_eq_true] at h
  rcases h with h | h
  · exact safe_char_facts c (by simp only [Bool.or_eq_true]; exact h)
  · rw [Bool.and_eq_true] at h
    have hbound : 127 < c.toNat := by
      have h1 := h.1
      rwa [decide_eq_true_eq] at h1
    have hws : pyWs c = false := by
      have h2 := h.2
      rwa [Bool.not_eq_true'] at h2
    refine ⟨isLb_false_of_pyWs hws, hws, ?_, ?_, ?_, ?_⟩
    · intro h1; rw [h1] at hbound; exact absurd hbound (by decide)
    · intro h1; rw [h1] at hbound; exact absurd hbound (by decide)
    · intro h1; rw [h1] at hbound; exact absurd hbound (by decide)
    · intro h1; rw [h1] at hbound; exact absurd hbound (by decide)

theorem safeStr_props (x : String) (hx : safeStr x = true) :
    (∀ c ∈ x.data, c ≠ '"' ∧ isLb c = false) ∧ hasSub tri x.data = false ∧
      startsW x sq1 = false ∧ endsW x sq1 = false := by
  unfold safeStr at hx
  simp only [Bool.and_eq_true] at hx
  obtain ⟨⟨⟨h1, h2⟩, h3⟩, h4⟩ := hx
  refine ⟨?_, ?_, ?_, ?_⟩
  · intro c hc
    have := List.all_eq_true.mp h1 c hc
    unfold okChar at this
    simp only [Bool.and_eq_true, Bool.not_eq_true'] at this
    exact ⟨by simpa using this.1, this.2⟩
  · unfold noTriple at h2
    simpa using h2
  · simpa using h3
  · simpa using h4

theorem safeKey_props (k : String) (hk : safeKey k = true) :
    k.data ≠ [] ∧ (∀ c ∈ k.data, keyOkChar c = true) ∧
      hasSub tri k.data = false := by
  unfold safeKey at hk
  simp only [Bool.and_eq_true] at hk
  obtain ⟨h1, h2⟩ := hk
  refine ⟨by simpa using h1.1, ?_, by unfold noTriple at h2; simpa using h2⟩
  intro c hc
  exact List.all_eq_true.mp h1.2 c hc

theorem quote_scalar_form (x : String) (hx : safeStr x = true) :
    quote_scalar (.s x) = "\"" ++ x ++ "\"" ∨
      (quote_scalar (.s x) = x ∧ safeReB x = true) := by
  by_cases hxe : x = ""
  · left
    subst hxe
    decide
  · simp only [quote_scalar, if_neg hxe]
    unfold quoteStr
    split
    · left; rfl
    · split
      · right
        exact ⟨rfl, by assumption⟩
      · left
        have hnq : ∀ c ∈ x.data, (c = '"') = False := by
          intro c hc
          simp only [eq_iff_iff, iff_false]
          exact ((safeStr_props x hx).1 c hc).1
        rw [flatMap_esc_id x.data hnq, strMk_data]

/-! ## Helper facts for parse-step lemmas -/

theorem head?_append_left {l1 l2 : List Char} (h : l1 ≠ []) :
    (l1 ++ l2).head? = l1.head? := by
  cases l1 with
  | nil => exact absurd rfl h
  | cons a t => rfl

theorem data_kv_line (k q : String) :
    (k ++ ": " ++ q).data = k.data ++ (':' :: (' ' :: q.data)) := by
  rw [String.data_append, String.data_append, List.append_assoc]
  rfl

theorem pyWs_false_ne_space {c : Char} (h : pyWs c = false) : c ≠ ' ' := by
  intro hh
  subst hh
  exact absurd h (by decide)

/-- Character-level facts about a safe key. -/
theorem key_char_facts (k : String) (hk : safeKey k = true) :
    k.data ≠ [] ∧
    (∀ c, k.data.head? = some c → pyWs c = false) ∧
    (∀ c, k.data.getLast? = some c → pyWs c = false) ∧
    (∀ c ∈ k.data, c ≠ ':') := by
  obtain ⟨h0, hc, _⟩ := safeKey_props k hk
  refine ⟨h0, ?_, ?_, ?_⟩
  · intro c h
    exact (key_char_facts_all c (hc c (mem_of_head? h))).2.1
  · intro c h
    exact (key_char_facts_all c (hc c (mem_of_getLast? h))).2.1
  · intro c h
    exact (key_char_facts_all c (hc c h)).2.2.2.1

/-- Edge facts about the quoted form of a safe scalar: the emitted
token is non-empty, has no whitespace at either end, does not start
with `[`, and its quote structure is decided. -/
theorem quoted_form_facts (x : String) :
    (("\"" ++ x ++ "\"").data = '"' :: (x.data ++ ['"'])) ∧
    ("\"" ++ x ++ "\"").data.head? = some '"' ∧
    ("\"" ++ x ++ "\"").data.getLast? = some '"' := by
  have hd : ("\"" ++ x ++ "\"").data = '"' :: (x.data ++ ['"']) := by
    rw [String.data_append, String.data_append]
    rfl
  refine ⟨hd, by rw [hd]; rfl, ?_⟩
  rw [hd, show ('"' :: (x.data ++ ['"'])) = ('"' :: x.data) ++ ['"'] from rfl]
  rw [List.getLast?_append_of_ne_nil _ (by simp)]
  rfl

theorem getLast?_kv (kd : List Char) (q : String) (hq : q.data ≠ []) :
    (kd ++ (':' :: (' ' :: q.data))).getLast? = q.data.getLast? := by
  rw [List.getLast?_append_of_ne_nil _ (by simp)]
  rw [List.getLast?_cons_cons]
  cases hd : q.data with
  | nil => exact absurd hd hq
  | cons a t => rw [List.getLast?_cons_cons]

theorem strMk_nil : (⟨[]⟩ : String) = "" := rfl

theorem ne_empty_of_data {s : String} (h : s.data ≠ []) : ¬ s = "" := by
  intro hh
  rw [hh] at h
  exact h rfl

/-- Executing one `key: value` line of the parse loop on a safe key and
a whitespace-free non-empty value token. -/
theorem parseGo_kv_step (fuel : Nat) (k vs : String) (rest : List String) (d : Fm)
    (hk : safeKey k = true) (hne : vs.data ≠ [])
    (hvh : ∀ c, vs.data.head? = some c → pyWs c = false)
    (hvl : ∀ c, vs.data.getLast? = some c → pyWs c = false) :
    parseGo (fuel + 1) ((k ++ ": " ++ vs) :: rest) d =
      (if vs = "" then
        (if (takeItems rest).1 ≠ [] then
          parseGo fuel (takeItems rest).2 (dictInsert d k (.l (takeItems rest).1))
        else parseGo fuel rest (dictInsert d k (.s "")))
      else if startsW vs "[" && endsW vs "]" then
        (if pyStrip (slice1m1 vs) = "" then parseGo fuel rest (dictInsert d k (.l []))
         else parseGo fuel rest
           (dictInsert d k
             (.l ((pySplitChar ',' (pyStrip (slice1m1 vs))).map stripChain))))
      else
        parseGo fuel rest (dictInsert d k (.s
          (if (startsW vs "\"" && endsW vs "\"") || (startsW vs sq1 && endsW vs sq1) then
            slice1m1 vs else vs)))) := by
  obtain ⟨hk0, hkh, hkl, hkc⟩ := key_char_facts k hk
  have hline : (k ++ ": " ++ vs).data = k.data ++ (':' :: (' ' :: vs.data)) :=
    data_kv_line k vs
  have hlnn : (k ++ ": " ++ vs).data ≠ [] := by
    rw [hline]
    simp [hk0]
  have hstrip : pyStrip (k ++ ": " ++ vs) = k ++ ": " ++ vs := by
    have h1 : ∀ c, ((k ++ ": " ++ vs).data).head? = some c → pyWs c = false := by
      intro c hc
      rw [hline, head?_append_left hk0] at hc
      exact hkh c hc
    have h2 : ∀ c, ((k ++ ": " ++ vs).data).getLast? = some c → pyWs c = false := by
      intro c hc
      rw [hline, getLast?_kv k.data vs hne] at hc
      exact hvl c hc
    unfold pyStrip
    rw [stripCore_eq_self pyWs _ h1 h2]
  have hc1 : ¬ (pyStrip (k ++ ": " ++ vs) = "") := by
    rw [hstrip]
    exact ne_empty_of_data hlnn
  have hlstrip : pyLstrip (k ++ ": " ++ vs) = k ++ ": " ++ vs := by
    unfold pyLstrip
    rw [hline]
    rw [dropWhile_eq_self_of_head pyWs _ (by
      intro c hc
      rw [head?_append_left hk0] at hc
      exact hkh c hc)]
    rw [← hline, strMk_data]
  have hnostart : startsW (pyLstrip (k ++ ": " ++ vs)) "- " = false := by
    rw [hlstrip]
    unfold startsW
    rw [hline]
    cases hkd : k.data with
    | nil => exact absurd hkd hk0
    | cons kc kt =>
      cases kt with
      | nil =>
        show (['-', ' '] : List Char).isPrefixOf (kc :: ':' :: ' ' :: vs.data) = false
        simp [List.isPrefixOf]
      | cons k2 kt2 =>
        show (['-', ' '] : List Char).isPrefixOf
          (kc :: k2 :: (kt2 ++ (':' :: ' ' :: vs.data))) = false
        have hk2 : k2 ≠ ' ' := by
          apply pyWs_false_ne_space
          apply (key_char_facts_all k2 ?_).2.1
          exact (safeKey_props k hk).2.1 k2
            (by rw [hkd]; exact List.mem_cons_of_mem _ (List.mem_cons_self _ _))
        have hbq : (' ' == k2) = false := by
          simp only [beq_eq_false_iff_ne, ne_eq]
          exact fun hh => hk2 hh.symm
        simp only [List.isPrefixOf, hbq]
        simp
  have hc2 : (strHas ':' (k ++ ": " ++ vs)
      && !startsW (pyLstrip (k ++ ": " ++ vs)) "- ") = true := by
    rw [hnostart]
    unfold strHas
    rw [hline]
    have hmem : (':' : Char) ∈ k.data ++ ':' :: ' ' :: vs.data :=
      List.mem_append_right _ (List.mem_cons_self _ _)
    show (List.elem ':' (k.data ++ ':' :: ' ' :: vs.data) && !false) = true
    rw [List.elem_eq_true_of_mem hmem]
    rfl
  have hbreak : breakAtChar ':' (k ++ ": " ++ vs).data = (k.data, some (' ' :: vs.data)) := by
    rw [hline]
    exact breakAtChar_no_occur ':' k.data (' ' :: vs.data) hkc
  have hkey : pyStrip (⟨k.data⟩ : String) = k := by
    rw [strMk_data]
    unfold pyStrip
    rw [stripCore_eq_self pyWs k.data hkh hkl]
  have hval : pyStrip (⟨' ' :: vs.data⟩ : String) = vs := by
    show (⟨stripCore pyWs (' ' :: vs.data)⟩ : String) = vs
    rw [stripCore_cons_sep pyWs ' ' vs.data (by decide) hvh hvl]
  simp only [parseGo]
  rw [if_neg hc1, if_pos hc2, hbreak]
  dsimp only
  rw [hkey, hval]

/-- Executing one bare `key:` line (block-list header) of the parse
loop on a safe key. -/
theorem parseGo_keyline_step (fuel : Nat) (k : String) (rest : List String) (d : Fm)
    (hk : safeKey k = true) :
    parseGo (fuel + 1) ((k ++ ":") :: rest) d =
      (if (takeItems rest).1 ≠ [] then
        parseGo fuel (takeItems rest).2 (dictInsert d k (.l (takeItems rest).1))
      else parseGo fuel rest (dictInsert d k (.s ""))) := by
  obtain ⟨hk0, hkh, hkl, hkc⟩ := key_char_facts k hk
  have hline : (k ++ ":").data = k.data ++ [':'] := by
    rw [String.data_append]
  have hlast : ((k ++ ":").data).getLast? = some ':' := by
    rw [hline, List.getLast?_append_of_ne_nil _ (by simp)]
    rfl
  have hstrip : pyStrip (k ++ ":") = k ++ ":" := by
    unfold pyStrip
    rw [stripCore_eq_self pyWs _ ?hh ?hl]
    case hh =>
      intro c hc
      rw [hline, head?_append_left hk0] at hc
      exact hkh c hc
    case hl =>
      intro c hc
      rw [hlast] at hc
      injection hc with hc
      rw [← hc]
      decide
  have hc1 : ¬ (pyStrip (k ++ ":") = "") := by
    rw [hstrip]
    apply ne_empty_of_data
    rw [hline]
    simp
  have hlstrip : pyLstrip (k ++ ":") = k ++ ":" := by
    unfold pyLstrip
    rw [dropWhile_eq_self_of_head pyWs _ (by
      intro c hc
      rw [hline, head?_append_left hk0] at hc
      exact hkh c hc)]
  have hnostart : startsW (pyLstrip (k ++ ":")) "- " = false := by
    rw [hlstrip]
    unfold startsW
    rw [hline]
    cases hkd : k.data with
    | nil => exact absurd hkd hk0
    | cons kc kt =>
      cases kt with
      | nil =>
        show (['-', ' '] : List Char).isPrefixOf (kc :: [':']) = false
        simp [List.isPrefixOf]
      | cons k2 kt2 =>
        show (['-', ' '] : List Char).isPrefixOf (kc :: k2 :: (kt2 ++ [':'])) = false
        have hk2 : k2 ≠ ' ' := by
          apply pyWs_false_ne_space
          apply (key_char_facts_all k2 ?_).2.1
          exact (safeKey_props k hk).2.1 k2
            (by rw [hkd]; exact List.mem_cons_of_mem _ (List.mem_cons_self _ _))
        have hbq : (' ' == k2) = false := by
          simp only [beq_eq_false_iff_ne, ne_eq]
          exact fun hh => hk2 hh.symm
        simp only [List.isPrefixOf, hbq]
        simp
  have hc2 : (strHas ':' (k ++ ":") && !startsW (pyLstrip (k ++ ":")) "- ") = true := by
    rw [hnostart]
    unfold strHas
    rw [hline]
    have hmem : (':' : Char) ∈ k.data ++ [':'] :=
      List.mem_append_right _ (List.mem_cons_self _ _)
    show (List.elem ':' (k.data ++ [':']) && !false) = true
    rw [List.elem_eq_true_of_mem hmem]
    rfl
  have hbreak : breakAtChar ':' (k ++ ":").data = (k.data, some []) := by
    rw [hline]
    exact breakAtChar_no_occur ':' k.data [] hkc
  have hkey : pyStrip (⟨k.data⟩ : String) = k := by
    rw [strMk_data]
    unfold pyStrip
    rw [stripCore_eq_self pyWs k.data hkh hkl]
  simp only [parseGo]
  rw [if_neg hc1, if_pos hc2, hbreak]
  dsimp only
  rw [hkey]
  have hemp : pyStrip (⟨[]⟩ : String) = "" := rfl
  rw [if_pos hemp]

/-! ## Item recovery through the strip chain -/

theorem head_ne_of_startsW_false (x : String) (c : Char)
    (h : startsW x ⟨[c]⟩ = false) : ∀ a, x.data.head? = some a → a ≠ c := by
  intro a ha hac
  subst hac
  unfold startsW at h
  cases hd : x.data with
  | nil => rw [hd] at ha; simp at ha
  | cons b t =>
    rw [hd] at ha
    simp at ha
    rw [hd] at h
    subst ha
    simp [List.isPrefixOf] at h

theorem last_ne_of_endsW_false (x : String) (c : Char)
    (h : endsW x ⟨[c]⟩ = false) : ∀ a, x.data.getLast? = some a → a ≠ c := by
  intro a ha hac
  subst hac
  unfold endsW at h
  have hne : x.data ≠ [] := by
    intro hd
    rw [hd] at ha
    simp at ha
  have hsplit : x.data.dropLast ++ [a] = x.data := by
    obtain ⟨hne2, hlast⟩ := List.mem_getLast?_eq_getLast (l := x.data) (x := a)
      (by rw [ha]; rfl)
    rw [hlast]
    exact List.dropLast_append_getLast hne2
  rw [← hsplit] at h
  have hsuf : (⟨[a]⟩ : String).data.isSuffixOf (x.data.dropLast ++ [a]) = true := by
    rw [List.isSuffixOf_iff_suffix]
    exact List.suffix_append _ _
  rw [hsuf] at h
  simp at h

theorem stripCore_wrap (c : Char) (l : List Char) (hl : ∀ a ∈ l, a ≠ c) :
    stripCore (fun a => a = c) (c :: (l ++ [c])) = l := by
  unfold stripCore
  rw [List.dropWhile_cons]
  simp only [decide_True, if_true]
  cases hld : l with
  | nil => simp
  | cons a t =>
    have ha : a ≠ c := hl a (by rw [hld]; exact List.mem_cons_self _ _)
    subst hld
    rw [dropWhile_eq_self_of_head _ (a :: t ++ [c]) (by
      intro b hb
      rw [head?_append_left (by simp)] at hb
      simp at hb
      subst hb
      simpa using ha)]
    rw [show ((a :: t) ++ [c]).reverse = c :: (a :: t).reverse by simp]
    rw [List.dropWhile_cons]
    simp only [decide_True, if_true]
    rw [dropWhile_eq_self_of_head _ ((a :: t).reverse) (by
      intro b hb
      rw [List.head?_reverse] at hb
      have hbc := hl b (mem_of_getLast? hb)
      simpa using hbc)]
    simp

theorem safeReB_props (s : String) (h : safeReB s = true) :
    s.data ≠ [] ∧ ∀ c ∈ s.data, (c.isAlphanum || c = '_' || c = '-') = true := by
  unfold safeReB at h
  simp only [Bool.and_eq_true] at h
  exact ⟨by simpa using h.1, fun c hc => List.all_eq_true.mp h.2 c hc⟩

/-- Edge facts about the serialised scalar token of a safe string:
non-empty, whitespace-free ends, and the first character is not `[`,
not a double quote for the bare form, decided by the form. -/
theorem quote_edges (x : String) (hx : safeStr x = true) :
    (quote_scalar (.s x)).data ≠ [] ∧
    (∀ c, (quote_scalar (.s x)).data.head? = some c → pyWs c = false ∧ c ≠ '[') ∧
    (∀ c, (quote_scalar (.s x)).data.getLast? = some c → pyWs c = false) := by
  rcases quote_scalar_form x hx with hq | ⟨hq, hsafe⟩ <;> rw [hq]
  · obtain ⟨hqd, hqh, hql⟩ := quoted_form_facts x
    refine ⟨by rw [hqd]; simp, ?_, ?_⟩
    · intro c hc
      rw [hqh] at hc
      injection hc with hc
      subst hc
      exact ⟨by decide, by decide⟩
    · intro c hc
      rw [hql] at hc
      injection hc with hc
      subst hc
      decide
  · obtain ⟨h0, hcs⟩ := safeReB_props x hsafe
    refine ⟨h0, ?_, ?_⟩
    · intro c hc
      have hf := safe_char_facts c (hcs c (mem_of_head? hc))
      exact ⟨hf.2.1, hf.2.2.2.2.1⟩
    · intro c hc
      exact (safe_char_facts c (hcs c (mem_of_getLast? hc))).2.1

/-- The strip chain applied to the serialised form of a safe string
recovers the string. -/
theorem stripChain_quote (x : String) (hx : safeStr x = true) :
    stripChain (quote_scalar (.s x)) = x := by
  obtain ⟨hcs, htri, hsq1, hsq2⟩ := safeStr_props x hx
  have hsqh : ∀ a, x.data.head? = some a → a ≠ Char.ofNat 39 :=
    head_ne_of_startsW_false x _ hsq1
  have hsql : ∀ a, x.data.getLast? = some a → a ≠ Char.ofNat 39 :=
    last_ne_of_endsW_false x _ hsq2
  have hsqcore : stripCore (fun a => a = Char.ofNat 39) x.data = x.data := by
    apply stripCore_eq_self
    · intro c hc
      simp only [decide_eq_false_iff_not]
      exact hsqh c hc
    · intro c hc
      simp only [decide_eq_false_iff_not]
      exact hsql c hc
  rcases quote_scalar_form x hx with hq | ⟨hq, hsafe⟩
  · rw [hq]
    obtain ⟨hqd, hqh, hql⟩ := quoted_form_facts x
    unfold stripChain
    have h1 : pyStrip ("\"" ++ x ++ "\"") = "\"" ++ x ++ "\"" := by
      unfold pyStrip
      rw [stripCore_eq_self pyWs _ (by
          intro a ha
          rw [hqh] at ha
          injection ha with ha
          subst ha
          decide)
        (by
          intro a ha
          rw [hql] at ha
          injection ha with ha
          subst ha
          decide)]
    rw [h1]
    have h2 : pyStripChar '"' ("\"" ++ x ++ "\"") = x := by
      unfold pyStripChar
      rw [hqd]
      rw [stripCore_wrap '"' x.data (fun a ha => (hcs a ha).1)]
    rw [h2]
    unfold pyStripChar
    rw [hsqcore]
  · rw [hq]
    obtain ⟨h0, hcsb⟩ := safeReB_props x hsafe
    unfold stripChain
    have h1 : pyStrip x = x := by
      unfold pyStrip
      rw [stripCore_eq_self pyWs _
        (fun c hc => (safe_char_facts c (hcsb c (mem_of_head? hc))).2.1)
        (fun c hc => (safe_char_facts c (hcsb c (mem_of_getLast? hc))).2.1)]
    rw [h1]
    have h2 : pyStripChar '"' x = x := by
      unfold pyStripChar
      rw [stripCore_eq_self _ x.data (by
          intro c hc
          simp only [decide_eq_false_iff_not]
          exact (hcs c (mem_of_head? hc)).1)
        (by
          intro c hc
          simp only [decide_eq_false_iff_not]
          exact (hcs c (mem_of_getLast? hc)).1)]
    rw [h2]
    unfold pyStripChar
    rw [hsqcore]

/-! ## Block-item collection -/

/-- A line at which the block-item scan of `read_frontmatter` stops. -/
def stopLine (ℓ : String) : Prop :=
  startsW ℓ "  - " = false ∧ startsW (pyStrip ℓ) "- " = false

/-- Lists whose first line (if any) stops the block-item scan. -/
def headStop (L : List String) : Prop :=
  ∀ ℓ, L.head? = some ℓ → stopLine ℓ

theorem takeItems_stop (L : List String) (h : headStop L) : takeItems L = ([], L) := by
  cases L with
  | nil => rfl
  | cons ℓ r =>
    obtain ⟨h1, h2⟩ := h ℓ rfl
    simp [takeItems, h1, h2]

theorem takeItems_emit (xs L : List String)
    (hxs : ∀ x ∈ xs, safeStr x = true) (hL : headStop L) :
    takeItems ((xs.map (fun it => "  - " ++ quote_scalar (.s it))) ++ L) = (xs, L) := by
  induction xs with
  | nil =>
    simp only [List.map_nil, List.nil_append]
    exact takeItems_stop L hL
  | cons x xt ih =>
    have hx := hxs x (List.mem_cons_self x xt)
    have hstart : startsW ("  - " ++ quote_scalar (.s x)) "  - " = true := by
      unfold startsW
      rw [String.data_append, List.isPrefixOf_iff_prefix]
      exact List.prefix_append _ _
    have hdrop : strDrop 4 ("  - " ++ quote_scalar (.s x)) = quote_scalar (.s x) := by
      unfold strDrop
      rw [String.data_append]
      rw [show (4 : Nat) = ("  - ").data.length from rfl, List.drop_left]
    simp only [List.map_cons, List.cons_append]
    unfold takeItems
    rw [if_pos hstart]
    dsimp only
    rw [hdrop, stripChain_quote x hx,
      ih (fun y hy => hxs y (List.mem_cons_of_mem _ hy))]

/-! ## Key lines stop the block-item scan -/

theorem keyline_no_item (k : String) (hk : safeKey k = true) (ros : List Char) :
    ("  - ").data.isPrefixOf (k.data ++ ':' :: ros) = false := by
  obtain ⟨hk0, hkh, _, _⟩ := key_char_facts k hk
  cases hkd : k.data with
  | nil => exact absurd hkd hk0
  | cons kc kt =>
    have hkcs : kc ≠ ' ' := pyWs_false_ne_space (hkh kc (by rw [hkd]; rfl))
    have hbq : (' ' == kc) = false := by
      simp only [beq_eq_false_iff_ne, ne_eq]
      exact fun hh => hkcs hh.symm
    show ([' ', ' ', '-', ' '] : List Char).isPrefixOf (kc :: (kt ++ ':' :: ros)) = false
    simp only [List.isPrefixOf, hbq]
    simp

theorem keyline_no_dash (k : String) (hk : safeKey k = true) (ros : List Char) :
    ("- ").data.isPrefixOf (k.data ++ ':' :: ros) = false := by
  obtain ⟨hk0, hkh, _, _⟩ := key_char_facts k hk
  cases hkd : k.data with
  | nil => exact absurd hkd hk0
  | cons kc kt =>
    cases kt with
    | nil =>
      show (['-', ' '] : List Char).isPrefixOf (kc :: ':' :: ros) = false
      simp [List.isPrefixOf]
    | cons k2 kt2 =>
      have hk2 : k2 ≠ ' ' := by
        apply pyWs_false_ne_space
        apply (key_char_facts_all k2 ?_).2.1
        exact (safeKey_props k hk).2.1 k2
          (by rw [hkd]; exact List.mem_cons_of_mem _ (List.mem_cons_self _ _))
      have hbq : (' ' == k2) = false := by
        simp only [beq_eq_false_iff_ne, ne_eq]
        exact fun hh => hk2 hh.symm
      show (['-', ' '] : List Char).isPrefixOf (kc :: k2 :: (kt2 ++ ':' :: ros)) = false
      simp only [List.isPrefixOf, hbq]
      simp

/-- Any line of the shape `key` + `:` + rest-of-line with a safe key and
a whitespace-free line end stops the block-item scan. -/
theorem stopLine_keyline (k : String) (hk : safeKey k = true) (ros : List Char)
    (hlast : ∀ c, (k.data ++ ':' :: ros).getLast? = some c → pyWs c = false) :
    stopLine ⟨k.data ++ ':' :: ros⟩ := by
  obtain ⟨hk0, hkh, hkl, hkc⟩ := key_char_facts k hk
  have hstrip : pyStrip (⟨k.data ++ ':' :: ros⟩ : String) = ⟨k.data ++ ':' :: ros⟩ := by
    unfold pyStrip
    rw [stripCore_eq_self pyWs (k.data ++ ':' :: ros) (by
        intro c hc
        rw [head?_append_left hk0] at hc
        exact hkh c hc) hlast]
  constructor
  · unfold startsW
    exact keyline_no_item k hk ros
  · rw [hstrip]
    unfold startsW
    exact keyline_no_dash k hk ros

/-! ## Entry-level parse steps -/

theorem safeMeta_cons (e : String × Val) (mt : Fm) (h : safeMeta (e :: mt) = true) :
    safeKey e.1 = true ∧ safeVal e.2 = true ∧ safeMeta mt = true := by
  unfold safeMeta at h ⊢
  simp only [List.all_cons, Bool.and_eq_true] at h
  exact ⟨h.1.1, h.1.2, h.2⟩

theorem startsW_single_false (s : String) (c0 : Char) (t : List Char) (c : Char)
    (hd : s.data = c0 :: t) (hne : c0 ≠ c) : startsW s ⟨[c]⟩ = false := by
  unfold startsW
  rw [hd]
  show ([c] : List Char).isPrefixOf (c0 :: t) = false
  have hbq : (c == c0) = false := by
    simp only [beq_eq_false_iff_ne, ne_eq]
    exact fun hh => hne hh.symm
  simp [List.isPrefixOf, hbq]

/-- Parsing the dumped line of a safe scalar entry restores the entry. -/
theorem parseGo_scalar_step (fuel : Nat) (k x : String) (rest : List String) (d : Fm)
    (hk : safeKey k = true) (hx : safeStr x = true) :
    parseGo (fuel + 1) ((k ++ ": " ++ quote_scalar (.s x)) :: rest) d =
      parseGo fuel rest (dictInsert d k (.s x)) := by
  rcases quote_scalar_form x hx with hq | ⟨hq, hsafe⟩
  · obtain ⟨hqd, hqh, hql⟩ := quoted_form_facts x
    rw [hq]
    rw [parseGo_kv_step fuel k _ rest d hk (by rw [hqd]; simp)
      (fun c hc => by rw [hqh] at hc; injection hc with hc; subst hc; decide)
      (fun c hc => by rw [hql] at hc; injection hc with hc; subst hc; decide)]
    rw [if_neg (ne_empty_of_data (by rw [hqd]; simp))]
    have hnb : startsW ("\"" ++ x ++ "\"") "[" = false := by
      exact startsW_single_false _ '"' (x.data ++ ['"']) '[' hqd (by decide)
    rw [hnb]
    rw [if_neg (by simp : ¬ ((false && endsW ("\"" ++ x ++ "\"") "]") = true))]
    have hq1 : startsW ("\"" ++ x ++ "\"") "\"" = true := by
      unfold startsW
      rw [hqd]
      show (['"'] : List Char).isPrefixOf ('"' :: (x.data ++ ['"'])) = true
      simp [List.isPrefixOf]
    have hq2 : endsW ("\"" ++ x ++ "\"") "\"" = true := by
      unfold endsW
      rw [hqd]
      rw [List.isSuffixOf_iff_suffix]
      show (['"'] : List Char) <:+ '"' :: (x.data ++ ['"'])
      rw [show ('"' :: (x.data ++ ['"'])) = ('"' :: x.data) ++ ['"'] from rfl]
      exact List.suffix_append _ _
    rw [hq1, hq2]
    rw [if_pos (by simp : ((true && true || startsW ("\"" ++ x ++ "\"") sq1
      && endsW ("\"" ++ x ++ "\"") sq1) = true))]
    have hslice : slice1m1 ("\"" ++ x ++ "\"") = x := by
      unfold slice1m1
      rw [hqd]
      rw [show (('"' :: (x.data ++ ['"'])).drop 1) = x.data ++ ['"'] from rfl]
      rw [List.dropLast_concat]
    rw [hslice]
  · obtain ⟨h0, hcsb⟩ := safeReB_props x hsafe
    obtain ⟨x0, xt, hxd⟩ : ∃ c t, x.data = c :: t := by
      cases hxd : x.data with
      | nil => exact absurd hxd h0
      | cons c t => exact ⟨c, t, rfl⟩
    have hx0 := safe_char_facts x0 (hcsb x0 (by rw [hxd]; exact List.mem_cons_self _ _))
    rw [hq]
    rw [parseGo_kv_step fuel k x rest d hk h0
      (fun c hc => (safe_char_facts c (hcsb c (mem_of_head? hc))).2.1)
      (fun c hc => (safe_char_facts c (hcsb c (mem_of_getLast? hc))).2.1)]
    rw [if_neg (ne_empty_of_data h0)]
    rw [startsW_single_false x x0 xt '[' hxd hx0.2.2.2.2.1]
    rw [if_neg (by simp : ¬ ((false && endsW x "]") = true))]
    rw [startsW_single_false x x0 xt '"' hxd hx0.2.2.1]
    have hsq : startsW x sq1 = false :=
      startsW_single_false x x0 xt (Char.ofNat 39) hxd hx0.2.2.2.2.2
    rw [hsq]
    rw [if_neg (by simp :
      ¬ ((false && endsW x "\"" || false && endsW x sq1) = true))]

/-- Parsing the dumped line of a safe empty-list entry restores the
entry. -/
theorem parseGo_elist_step (fuel : Nat) (k : String) (rest : List String) (d : Fm)
    (hk : safeKey k = true) :
    parseGo (fuel + 1) ((k ++ ": []") :: rest) d =
      parseGo fuel rest (dictInsert d k (.l [])) := by
  rw [show (k ++ ": []") = (k ++ ": " ++ "[]") by
    rw [String.append_assoc]
    rw [show ((": " ++ "[]") : String) = ": []" by decide]]
  rw [parseGo_kv_step fuel k "[]" rest d hk (by decide)
    (by
      intro c hc
      rw [show ("[]" : String).data = ['[', ']'] from rfl] at hc
      injection hc with hc
      subst hc
      decide)
    (by
      intro c hc
      rw [show ("[]" : String).data.getLast? = some ']' from rfl] at hc
      injection hc with hc
      subst hc
      decide)]
  rw [if_neg (by decide : ¬ (("[]" : String) = ""))]
  rw [if_pos (by decide : ((startsW "[]" "[" && endsW "[]" "]") = true))]
  rw [if_pos (by decide : (pyStrip (slice1m1 "[]") = ""))]

/-- Parsing the dumped lines of a safe non-empty list entry restores
the entry. -/
theorem parseGo_blist_step (fuel : Nat) (k : String) (xs : List String)
    (rest : List String) (d : Fm) (hk : safeKey k = true)
    (hxs : ∀ x ∈ xs, safeStr x = true) (hne : xs ≠ []) (hstop : headStop rest) :
    parseGo (fuel + 1)
      ((k ++ ":") :: (xs.map (fun it => "  - " ++ quote_scalar (.s it)) ++ rest)) d =
      parseGo fuel rest (dictInsert d k (.l xs)) := by
  rw [parseGo_keyline_step fuel k _ d hk]
  rw [takeItems_emit xs rest hxs hstop]
  rw [if_pos hne]

/-- The first line emitted for any safe entry stops a block-item scan. -/
theorem headStop_dump (m : Fm) (hm : safeMeta m = true) :
    headStop (m.flatMap dumpEntryLines) := by
  intro ℓ hℓ
  cases m with
  | nil => simp at hℓ
  | cons e mt =>
    obtain ⟨hek, hev, _⟩ := safeMeta_cons e mt hm
    rcases e with ⟨k, v⟩
    rw [List.flatMap_cons] at hℓ
    cases v with
    | s x =>
      have hdl : dumpEntryLines (k, Val.s x) = [k ++ ": " ++ quote_scalar (.s x)] := rfl
      rw [hdl, List.cons_append, List.head?_cons] at hℓ
      injection hℓ with hℓ
      subst hℓ
      have hform : k ++ ": " ++ quote_scalar (.s x) =
          ⟨k.data ++ ':' :: (' ' :: (quote_scalar (.s x)).data)⟩ :=
        (strMk_data _).symm.trans (congrArg String.mk (data_kv_line k _))
      rw [hform]
      apply stopLine_keyline k hek
      intro c hc
      obtain ⟨hqne, _, hql⟩ := quote_edges x hev
      rw [getLast?_kv k.data _ hqne] at hc
      exact hql c hc
    | l xs =>
      cases xs with
      | nil =>
        have hdl : dumpEntryLines (k, Val.l []) = [k ++ ": []"] := rfl
        rw [hdl, List.cons_append, List.head?_cons] at hℓ
        injection hℓ with hℓ
        subst hℓ
        have hform : k ++ ": []" = ⟨k.data ++ ':' :: [' ', '[', ']']⟩ := by
          refine (strMk_data _).symm.trans (congrArg String.mk ?_)
          rw [String.data_append]
        rw [hform]
        apply stopLine_keyline k hek
        intro c hc
        rw [List.getLast?_append_of_ne_nil _ (by simp)] at hc
        rw [show ((':' :: [' ', '[', ']']).getLast? : Option Char) = some ']' from rfl] at hc
        injection hc with hc
        subst hc
        decide
      | cons x1 xt =>
        have hdl : dumpEntryLines (k, Val.l (x1 :: xt)) = (k ++ ":") ::
            (x1 :: xt).map (fun it => "  - " ++ quote_scalar (.s it)) := rfl
        rw [hdl, List.cons_append, List.head?_cons] at hℓ
        injection hℓ with hℓ
        subst hℓ
        have hform : k ++ ":" = ⟨k.data ++ ':' :: []⟩ := by
          refine (strMk_data _).symm.trans (congrArg String.mk ?_)
          rw [String.data_append]
        rw [hform]
        apply stopLine_keyline k hek
        intro c hc
        rw [List.getLast?_append_of_ne_nil _ (by simp)] at hc
        rw [show (([':'] : List Char).getLast? : Option Char) = some ':' from rfl] at hc
        injection hc with hc
        subst hc
        decide
    | b bb => simp [safeVal] at hev

theorem dictHas_append_one {α : Type} (d : List (String × α)) (kv : String × α)
    (k : String) :
    dictHas (d ++ [kv]) k = (dictHas d k || decide (kv.1 = k)) := by
  induction d with
  | nil => simp [dictHas]
  | cons e tl ih => simp [dictHas, ih, Bool.or_assoc]

/-- Parsing the dumped lines of safe metadata with distinct keys,
starting from a dictionary holding none of those keys, appends the
metadata. -/
theorem parse_dump (m : Fm) (hm : safeMeta m = true)
    (hnd : (m.map Prod.fst).Nodup) (d : Fm)
    (hd : ∀ e ∈ m, dictHas d e.1 = false) (fuel : Nat)
    (hfuel : (m.flatMap dumpEntryLines).length ≤ fuel) :
    parseGo fuel (m.flatMap dumpEntryLines) d = d ++ m := by
  induction m generalizing d fuel with
  | nil =>
    cases fuel with
    | zero => simp [parseGo]
    | succ f => simp [parseGo]
  | cons e mt ih =>
    obtain ⟨hek, hev, hmt⟩ := safeMeta_cons e mt hm
    rcases e with ⟨k, v⟩
    have hknotin : k ∉ mt.map Prod.fst := (List.nodup_cons.mp hnd).1
    have hndt : (mt.map Prod.fst).Nodup := (List.nodup_cons.mp hnd).2
    have hknew : dictHas d k = false := hd (k, v) (List.mem_cons_self _ _)
    have hd2 : ∀ v2 : Val, ∀ e2 ∈ mt, dictHas (d ++ [(k, v2)]) e2.1 = false := by
      intro v2 e2 he2
      rw [dictHas_append_one]
      rw [hd e2 (List.mem_cons_of_mem _ he2)]
      have : ¬ (k = e2.1) := by
        intro hh
        exact hknotin (hh ▸ List.mem_map_of_mem Prod.fst he2)
      simp [this]
    have happ : ∀ v2 : Val, (d ++ [(k, v2)]) ++ mt = d ++ ((k, v2) :: mt) := by
      intro v2
      rw [List.append_assoc]
      rfl
    cases v with
    | s x =>
      rw [List.flatMap_cons]
      rw [show dumpEntryLines (k, Val.s x) = [k ++ ": " ++ quote_scalar (.s x)] from rfl]
      rw [List.cons_append, List.nil_append]
      rw [List.flatMap_cons,
        show dumpEntryLines (k, Val.s x) = [k ++ ": " ++ quote_scalar (.s x)] from rfl,
        List.cons_append, List.nil_append] at hfuel
      cases fuel with
      | zero => simp at hfuel
      | succ f =>
        rw [parseGo_scalar_step f k x _ d hek hev]
        rw [dictInsert_not_has d k _ hknew]
        rw [ih hmt hndt (d ++ [(k, Val.s x)]) (hd2 (Val.s x)) f
          (by simpa using Nat.le_of_succ_le_succ hfuel)]
        exact happ (Val.s x)
    | l xs =>
      cases xs with
      | nil =>
        rw [List.flatMap_cons]
        rw [show dumpEntryLines (k, Val.l []) = [k ++ ": []"] from rfl]
        rw [List.cons_append, List.nil_append]
        rw [List.flatMap_cons,
          show dumpEntryLines (k, Val.l []) = [k ++ ": []"] from rfl,
          List.cons_append, List.nil_append] at hfuel
        cases fuel with
        | zero => simp at hfuel
        | succ f =>
          rw [parseGo_elist_step f k _ d hek]
          rw [dictInsert_not_has d k _ hknew]
          rw [ih hmt hndt (d ++ [(k, Val.l [])]) (hd2 (Val.l [])) f
            (by simpa using Nat.le_of_succ_le_succ hfuel)]
          exact happ (Val.l [])
      | cons x1 xt =>
        have hxs : ∀ x ∈ (x1 :: xt), safeStr x = true := by
          intro x hx2
          have : safeVal (Val.l (x1 :: xt)) = true := hev
          unfold safeVal at this
          exact List.all_eq_true.mp this x hx2
        rw [List.flatMap_cons]
        rw [show dumpEntryLines (k, Val.l (x1 :: xt)) = (k ++ ":") ::
          (x1 :: xt).map (fun it => "  - " ++ quote_scalar (.s it)) from rfl]
        rw [List.cons_append]
        rw [List.flatMap_cons,
          show dumpEntryLines (k, Val.l (x1 :: xt)) = (k ++ ":") ::
            (x1 :: xt).map (fun it => "  - " ++ quote_scalar (.s it)) from rfl,
          List.cons_append] at hfuel
        cases fuel with
        | zero => simp at hfuel
        | succ f =>
          rw [parseGo_blist_step f k (x1 :: xt) _ d hek hxs (by simp)
            (headStop_dump mt hmt)]
          rw [dictInsert_not_has d k _ hknew]
          rw [ih hmt hndt (d ++ [(k, Val.l (x1 :: xt))]) (hd2 _) f ?hfl]
          · exact happ _
          case hfl =>
            simp only [List.length_cons, List.length_append, List.length_map] at hfuel ⊢
            omega
    | b bb => simp [safeVal] at hev

/-! ## Facts about the dumped lines -/

theorem hasSub_cons_ne (c : Char) (cs : List Char) (hc : c ≠ '-')
    (h : hasSub tri cs = false) : hasSub tri (c :: cs) = false := by
  simp only [hasSub, Bool.or_eq_false_iff]
  refine ⟨?_, h⟩
  show tri.isPrefixOf (c :: cs) = false
  have hbq : ('-' == c) = false := by
    simp only [beq_eq_false_iff_ne, ne_eq]
    exact fun hh => hc hh.symm
  simp [tri, List.isPrefixOf, hbq]

theorem q_noTriple (x : String) (hx : safeStr x = true) :
    hasSub tri (quote_scalar (.s x)).data = false := by
  obtain ⟨hcs, htri, _, _⟩ := safeStr_props x hx
  rcases quote_scalar_form x hx with hq | ⟨hq, _⟩
  · rw [hq, (quoted_form_facts x).1]
    apply hasSub_cons_ne _ _ (by decide)
    exact hasSub_tri_append x.data ['"'] htri (by decide) (Or.inr (by decide))
  · rw [hq]
    exact htri

theorem q_breakfree (x : String) (hx : safeStr x = true) :
    ∀ c ∈ (quote_scalar (.s x)).data, isLb c = false := by
  obtain ⟨hcs, _, _, _⟩ := safeStr_props x hx
  rcases quote_scalar_form x hx with hq | ⟨hq, _⟩
  · rw [hq, (quoted_form_facts x).1]
    intro c hc
    rcases List.mem_cons.mp hc with h' | h'
    · subst h'
      decide
    · rcases List.mem_append.mp h' with h'' | h''
      · exact (hcs c h'').2
      · simp at h''
        subst h''
        decide
  · rw [hq]
    intro c hc
    exact (hcs c hc).2

theorem key_breakfree (k : String) (hk : safeKey k = true) :
    ∀ c ∈ k.data, isLb c = false := fun c hc =>
  (key_char_facts_all c ((safeKey_props k hk).2.1 c hc)).1

/-- Every line emitted for safe metadata is line-break-free and holds
no `---`. -/
theorem lines_facts (m : Fm) (hm : safeMeta m = true) :
    ∀ l ∈ m.flatMap dumpEntryLines,
      (∀ c ∈ l.data, isLb c = false) ∧ hasSub tri l.data = false := by
  intro l hl
  rw [List.mem_flatMap] at hl
  obtain ⟨e, hem, hle⟩ := hl
  have hsafee := List.all_eq_true.mp hm e hem
  simp only [Bool.and_eq_true] at hsafee
  obtain ⟨hek, hev⟩ := hsafee
  obtain ⟨hknn, hkchars, hktri⟩ := safeKey_props e.1 hek
  rcases e with ⟨k, v⟩
  cases v with
  | s x =>
    rw [show dumpEntryLines (k, Val.s x) = [k ++ ": " ++ quote_scalar (.s x)] from rfl]
      at hle
    simp only [List.mem_singleton] at hle
    subst hle
    constructor
    · intro c hc
      rw [data_kv_line] at hc
      rcases List.mem_append.mp hc with h' | h'
      · exact key_breakfree k hek c h'
      · rcases List.mem_cons.mp h' with h'' | h''
        · subst h''; decide
        · rcases List.mem_cons.mp h'' with h3 | h3
          · subst h3; decide
          · exact q_breakfree x hev c h3
    · rw [data_kv_line]
      apply hasSub_tri_append k.data _ hktri ?hy (Or.inr (by simp))
      case hy =>
        apply hasSub_cons_ne ':' _ (by decide)
        apply hasSub_cons_ne ' ' _ (by decide)
        exact q_noTriple x hev
  | l xs =>
    cases xs with
    | nil =>
      rw [show dumpEntryLines (k, Val.l []) = [k ++ ": []"] from rfl] at hle
      simp only [List.mem_singleton] at hle
      subst hle
      have hdd : (k ++ ": []").data = k.data ++ [':', ' ', '[', ']'] := by
        rw [String.data_append]
      constructor
      · intro c hc
        rw [hdd] at hc
        rcases List.mem_append.mp hc with h' | h'
        · exact key_breakfree k hek c h'
        · fin_cases h' <;> decide
      · rw [hdd]
        exact hasSub_tri_append k.data _ hktri (by decide) (Or.inr (by decide))
    | cons x1 xt =>
      rw [show dumpEntryLines (k, Val.l (x1 :: xt)) = (k ++ ":") ::
        (x1 :: xt).map (fun it => "  - " ++ quote_scalar (.s it)) from rfl] at hle
      have hxsafe : ∀ x ∈ (x1 :: xt), safeStr x = true := by
        intro x hx2
        exact List.all_eq_true.mp hev x hx2
      rcases List.mem_cons.mp hle with h' | h'
      · subst h'
        have hdd : (k ++ ":").data = k.data ++ [':'] := by
          rw [String.data_append]
        constructor
        · intro c hc
          rw [hdd] at hc
          rcases List.mem_append.mp hc with h'' | h''
          · exact key_breakfree k hek c h''
          · simp at h''
            subst h''
            decide
        · rw [hdd]
          exact hasSub_tri_append k.data _ hktri (by decide) (Or.inr (by decide))
      · rw [List.mem_map] at h'
        obtain ⟨x, hxm, hxl⟩ := h'
        subst hxl
        have hxx := hxsafe x hxm
        have hdd : ("  - " ++ quote_scalar (.s x)).data =
            [' ', ' ', '-', ' '] ++ (quote_scalar (.s x)).data := by
          rw [String.data_append]
        constructor
        · intro c hc
          rw [hdd] at hc
          rcases List.mem_append.mp hc with h'' | h''
          · fin_cases h'' <;> decide
          · exact q_breakfree x hxx c h''
        · rw [hdd]
          exact hasSub_tri_append [' ', ' ', '-', ' '] _ (by decide)
            (q_noTriple x hxx) (Or.inl (by decide))
  | b bb => simp [safeVal] at hev

theorem joinWithNl_noTriple (L : List String)
    (h : ∀ l ∈ L, hasSub tri l.data = false) :
    hasSub tri (joinWithNl L).data = false := by
  induction L with
  | nil => decide
  | cons a tl ih =>
    cases tl with
    | nil => exact h a (List.mem_cons_self _ _)
    | cons b2 tl2 =>
      rw [joinWithNl_cons a _ (by simp)]
      have hd : (a ++ "\n" ++ joinWithNl (b2 :: tl2)).data =
          a.data ++ ('\n' :: (joinWithNl (b2 :: tl2)).data) := by
        rw [String.data_append, String.data_append, List.append_assoc]
        rfl
      rw [hd]
      refine hasSub_tri_append a.data _ (h a (List.mem_cons_self _ _)) ?_ (Or.inr (by simp))
      exact hasSub_cons_ne '\n' _ (by decide)
        (ih (fun l hl => h l (List.mem_cons_of_mem _ hl)))

theorem joinWithNl_append_single (L : List String) (t : String) (h : L ≠ []) :
    joinWithNl (L ++ [t]) = joinWithNl L ++ "\n" ++ t := by
  induction L with
  | nil => exact absurd rfl h
  | cons a tl ih =>
    cases tl with
    | nil => rfl
    | cons b2 tl2 =>
      rw [show ((a :: b2 :: tl2) ++ [t]) = a :: ((b2 :: tl2) ++ [t]) from rfl]
      rw [joinWithNl_cons a _ (by simp)]
      rw [ih (by simp)]
      rw [joinWithNl_cons a (b2 :: tl2) (by simp)]
      simp only [String.append_assoc]

/-! ## The round-trip theorem -/

theorem strMk_nl_cons (b : String) : (⟨'\n' :: b.data⟩ : String) = "\n" ++ b := by
  have hd : ("\n" ++ b).data = '\n' :: b.data := by
    rw [String.data_append]
    rfl
  exact (congrArg String.mk hd.symm).trans (strMk_data _)

theorem dumpEntryLines_ne_nil (e : String × Val) : dumpEntryLines e ≠ [] := by
  rcases e with ⟨k, v⟩
  cases v with
  | s x => simp [dumpEntryLines]
  | b bb => simp [dumpEntryLines]
  | l xs =>
    simp only [dumpEntryLines]
    split <;> simp

/-- Decoding a dumped-and-extended document, given the split and parse
facts about the middle block. -/
theorem read_dump_core (m : Fm) (b : String) (M : List Char)
    (hdata : (dump_frontmatter m ++ b).data = tri ++ (M ++ (tri ++ ('\n' :: b.data))))
    (hMtri : hasSub tri M = false) (hMlast : M.getLast? ≠ some '-')
    (hparse : parseLines (pySplitlines ⟨M⟩) [] = m) :
    read_frontmatter (dump_frontmatter m ++ b) = (m, "\n" ++ b) := by
  have hstarts : startsW (dump_frontmatter m ++ b) "---" = true := by
    unfold startsW
    rw [hdata]
    rw [List.isPrefixOf_iff_prefix]
    show tri <+: tri ++ _
    exact List.prefix_append _ _
  have hsplit : pySplit2 "---" (dump_frontmatter m ++ b) =
      ["", ⟨M⟩, ⟨'\n' :: b.data⟩] := by
    unfold pySplit2
    rw [hdata]
    rw [show ("---" : String).data = tri from rfl]
    rw [subOnce_prefix_start _ (by
      rw [List.isPrefixOf_iff_prefix]
      exact List.prefix_append _ _)]
    rw [show (tri ++ (M ++ (tri ++ ('\n' :: b.data)))).drop 3 =
        M ++ (tri ++ ('\n' :: b.data)) from by
      rw [show (3 : Nat) = tri.length from rfl, List.drop_left]]
    dsimp only
    rw [subOnce_mid M ('\n' :: b.data) hMtri hMlast]
  unfold read_frontmatter
  rw [hstarts]
  rw [if_neg (by decide : ¬ ((!true) = true))]
  rw [hsplit]
  dsimp only
  rw [hparse, strMk_nl_cons]

/-- Round trip with an arbitrary appended tail: decoding
`dump_frontmatter m ++ b` for safe metadata `m` with distinct keys
returns exactly `m`, with body `"\n" ++ b`. -/
theorem roundtrip_body (m : Fm) (b : String) (hm : safeMeta m = true)
    (hnd : (m.map Prod.fst).Nodup) :
    read_frontmatter (dump_frontmatter m ++ b) = (m, "\n" ++ b) := by
  cases m with
  | nil =>
    apply read_dump_core [] b ['\n']
    · rw [show dump_frontmatter [] = "---\n---\n" from by decide]
      rw [String.data_append]
      rfl
    · decide
    · decide
    · decide
  | cons e mt =>
    have hLne : (e :: mt).flatMap dumpEntryLines ≠ [] := by
      rw [List.flatMap_cons]
      intro hh
      exact dumpEntryLines_ne_nil e (List.append_eq_nil.mp hh).1
    have hlf := lines_facts (e :: mt) hm
    have hJtri : hasSub tri (joinWithNl ((e :: mt).flatMap dumpEntryLines)).data = false :=
      joinWithNl_noTriple _ (fun l hl => (hlf l hl).2)
    apply read_dump_core (e :: mt) b
      ('\n' :: ((joinWithNl ((e :: mt).flatMap dumpEntryLines)).data ++ ['\n']))
    · have hstr : dump_frontmatter (e :: mt) ++ b =
          "---" ++ ("\n" ++ (joinWithNl ((e :: mt).flatMap dumpEntryLines) ++
            ("\n" ++ ("---" ++ ("\n" ++ b))))) := by
        unfold dump_frontmatter
        rw [show ["---"] ++ (e :: mt).flatMap dumpEntryLines ++ ["---"] =
          "---" :: ((e :: mt).flatMap dumpEntryLines ++ ["---"]) from rfl]
        rw [joinWithNl_cons _ _ (by simp)]
        rw [joinWithNl_append_single _ "---" hLne]
        simp only [String.append_assoc]
      rw [hstr]
      rw [String.data_append, String.data_append, String.data_append,
        String.data_append, String.data_append, String.data_append]
      rw [show ('\n' :: ((joinWithNl ((e :: mt).flatMap dumpEntryLines)).data ++ ['\n'])) ++
          (tri ++ ('\n' :: b.data)) =
          '\n' :: ((joinWithNl ((e :: mt).flatMap dumpEntryLines)).data ++
            (['\n'] ++ (tri ++ ('\n' :: b.data)))) from by
        rw [List.cons_append, List.append_assoc]]
      rfl
    · apply hasSub_cons_ne '\n' _ (by decide)
      exact hasSub_tri_append _ ['\n'] hJtri (by decide) (Or.inr (by decide))
    · rw [show ('\n' :: ((joinWithNl ((e :: mt).flatMap dumpEntryLines)).data ++ ['\n'])) =
        ('\n' :: (joinWithNl ((e :: mt).flatMap dumpEntryLines)).data) ++ ['\n'] from by
        rw [List.cons_append]]
      rw [List.getLast?_append_of_ne_nil _ (by simp)]
      simp
    · have hsl : pySplitlines
          (⟨'\n' :: ((joinWithNl ((e :: mt).flatMap dumpEntryLines)).data ++ ['\n'])⟩ : String) =
          "" :: (e :: mt).flatMap dumpEntryLines := by
        unfold pySplitlines
        show splitlinesAux ('\n' :: ((joinWithNl ((e :: mt).flatMap dumpEntryLines)).data
          ++ ['\n'])) [] = _
        rw [splitlinesAux_nl]
        rw [splitlines_join _ hLne (fun l hl => (hlf l hl).1)]
        rfl
      rw [hsl]
      unfold parseLines
      rw [show ("" :: (e :: mt).flatMap dumpEntryLines).length =
        ((e :: mt).flatMap dumpEntryLines).length + 1 from rfl]
      rw [show parseGo (((e :: mt).flatMap dumpEntryLines).length + 1)
          ("" :: (e :: mt).flatMap dumpEntryLines) [] =
          parseGo (((e :: mt).flatMap dumpEntryLines).length)
            ((e :: mt).flatMap dumpEntryLines) [] from by
        simp only [parseGo]
        rw [if_pos (show pyStrip "" = "" from rfl)]]
      rw [parse_dump (e :: mt) hm hnd [] (by simp [dictHas]) _ (Nat.le_refl _)]
      rfl

/-! ## Claim C1 -/

/-- C1 counterexample: the round-trip fails as universally stated.  The
scalar string `---` is representable under the Value model, but the
serialised document embeds a third block delimiter, so decoding stops
early and returns empty-string metadata for the key. -/
theorem claim_C1_counterexample :
    (read_frontmatter (dump_frontmatter [("k", Val.s "---")])).1 ≠
      [("k", Val.s "---")] := by decide

/-- C1 (amended): for metadata with distinct keys whose keys match
`SAFE_RE` without an embedded `---` and whose string values contain no
double quote, no line break, no embedded `---` and no single quote at
either end, decoding the encoded text yields the metadata back exactly
(with a single-newline body). -/
theorem claim_C1_amended (m : Fm) (hm : safeMeta m = true)
    (hnd : (m.map Prod.fst).Nodup) :
    read_frontmatter (dump_frontmatter m) = (m, "\n") := by
  have h := roundtrip_body m "" hm hnd
  rw [show dump_frontmatter m ++ "" = dump_frontmatter m from by
    rw [String.append_empty]] at h
  rw [show ("\n" ++ "" : String) = "\n" from by rw [String.append_empty]] at h
  exact h

theorem claim_C1_witness :
    read_frontmatter (dump_frontmatter
      [("Nom", Val.s "Jean Paul"), ("id_mslist", Val.s "0123"),
       ("groupes", Val.l ["a-1", "b 2"]), ("notes", Val.s ""),
       ("tags", Val.l [])]) =
      ([("Nom", Val.s "Jean Paul"), ("id_mslist", Val.s "0123"),
        ("groupes", Val.l ["a-1", "b 2"]), ("notes", Val.s ""),
        ("tags", Val.l [])], "\n") :=
  claim_C1_amended
    [("Nom", Val.s "Jean Paul"), ("id_mslist", Val.s "0123"),
     ("groupes", Val.l ["a-1", "b 2"]), ("notes", Val.s ""),
     ("tags", Val.l [])] (by decide) (by decide)

/-! ## Field-name normalisation and resolution -/

/-- NFKD-based accent folding of one character to its ASCII form.
Modelled from `unicodedata.normalize` + ASCII-ignore of the source:
exact on ASCII and on the common accented Latin letters occurring in
the program; other non-ASCII characters are dropped, matching the
ASCII-ignore of codepoints without an ASCII base in their
decomposition. -/
def asciiFoldChar (c : Char) : List Char :=
  if c.toNat < 128 then [c]
  else
    match (([('é','e'),('è','e'),('ê','e'),('ë','e'),('à','a'),('â','a'),('ä','a'),
      ('á','a'),('ç','c'),('î','i'),('ï','i'),('í','i'),('ô','o'),('ö','o'),
      ('ó','o'),('û','u'),('ü','u'),('ù','u'),('ú','u'),('ñ','n'),('É','E'),
      ('È','E'),('Ê','E'),('Ë','E'),('À','A'),('Â','A'),('Ä','A'),('Ç','C'),
      ('Î','I'),('Ï','I'),('Ô','O'),('Ö','O'),('Û','U'),('Ü','U'),
      ('Ù','U')] : List (Char × Char)).find? (fun p => p.1 = c)) with
    | some p => [p.2]
    | none => []

/-- `_norm_key_for_match` of the source: accent-fold to ASCII,
lowercase, keep only `[a-z0-9]`. -/
def normKeyForMatch (name : String) : String :=
  ⟨((name.data.flatMap asciiFoldChar).map Char.toLower).filter
    (fun c => ('a' ≤ c && c ≤ 'z') || ('0' ≤ c && c ≤ '9'))⟩

/-- `_singularize_norm` of the source. -/
def singularizeNorm (s : String) : String :=
  if endsW s "s" then ⟨s.data.dropLast⟩ else s

/-- Python `s.lower()`, modelled for ASCII letters. -/
def pyLower (s : String) : String := ⟨s.data.map Char.toLower⟩

/-- Python `s.upper()`, modelled for ASCII letters. -/
def pyUpper (s : String) : String := ⟨s.data.map Char.toUpper⟩

/-- The inner alias loop of `get_contact_value`. -/
def gcvLoop (contact : Fm) (nmap : List (String × String)) : List String → String
  | [] => ""
  | a :: rest =>
    match dictGet? nmap (normKeyForMatch a) with
    | some orig =>
      match dictGet? contact orig with
      | some (Val.s v) => if pyStrip v ≠ "" then pyStrip v else gcvLoop contact nmap rest
      | _ => gcvLoop contact nmap rest
    | none => gcvLoop contact nmap rest

/-- `get_contact_value` of the source: first non-empty string value of
the contact under any of the aliases, accent/case-insensitively. -/
def get_contact_value (contact : Fm) (aliases : List String) : String :=
  if aliases = [] then ""
  else
    let nmap := contact.foldl (fun m e => dictInsert m (normKeyForMatch e.1) e.1) []
    gcvLoop contact nmap aliases

/-- One pass of `re.sub(pattern+, r, s)`: replace every run of
characters satisfying `p` by the single character `r`. -/
def subRunsGo (p : Char → Bool) (r : Char) : List Char → Bool → List Char
  | [], _ => []
  | c :: cs, inRun =>
    if p c then
      if inRun then subRunsGo p r cs true else r :: subRunsGo p r cs true
    else c :: subRunsGo p r cs false

/-- The path-forbidden characters of `sanitize_filename`. -/
def isForbiddenFn (c : Char) : Bool :=
  c = '\\' || c = '/' || c = ':' || c = '*' || c = '?' || c = '"' ||
  c = '<' || c = '>' || c = '|'

/-- `sanitize_filename` of the source. -/
def sanitize_filename (title : String) : String :=
  let s1 := pyStrip title
  let s2 := subRunsGo isForbiddenFn ' ' s1.data false
  let s3 := subRunsGo pyWs ' ' s2 false
  let s4 := pyStrip ⟨s3⟩
  if s4 = "" then "contact" else s4

/-! ## Email validity -/

def emailLocalChar (c : Char) : Bool :=
  c.isAlphanum || c = '.' || c = '_' || c = '%' || c = '+' || c = '-'

def emailDomChar (c : Char) : Bool := c.isAlphanum || c = '.' || c = '-'

/-- The decision procedure of `EMAIL_RE`
(`^[A-Za-z0-9._%+-]+@[A-Za-z0-9.-]+\.[A-Za-z]{2,}$`): exactly one `@`,
a non-empty local part over the local class, and a domain whose part
after the last dot is two or more letters with a non-empty domain-class
part before it. -/
def emailRe (s : String) : Bool :=
  match breakAtChar '@' s.data with
  | (loc, some dom) =>
    !loc.isEmpty && loc.all emailLocalChar &&
    (match breakAtChar '.' dom.reverse with
     | (tldRev, some preRev) =>
       let tld := tldRev.reverse
       let pre := preRev.reverse
       !pre.isEmpty && pre.all emailDomChar &&
       decide (2 ≤ tld.length) && tld.all Char.isAlpha
     | (_, none) => false)
  | (_, none) => false

/-- `is_valid_email` of the source. -/
def is_valid_email (s : String) : Bool :=
  if s = "" then false else emailRe (pyStrip s)

example : is_valid_email "jean.dupont@mairie-annonay.fr" = true := by decide
example : is_valid_email "not-an-email" = false := by decide
example : is_valid_email "a@b.c" = false := by decide
example : is_valid_email " a@b.co " = true := by decide

/-! ## List parsing and boolean coercion -/

/-- `split_list` of the source, for string input: unify the separators
to commas, split, strip, drop empties. -/
def split_list (val : String) : List String :=
  let seps : List Char := [';', ',', '|', '•', '·']
  let s : List Char := val.data.map (fun c => if seps.contains c then ',' else c)
  ((pySplitChar ',' ⟨s⟩).map pyStrip).filter (fun p => p ≠ "")

/-- Modelled from the source's use of `json.loads` inside
`parse_maybe_list`, restricted to flat JSON arrays of simple quoted
strings (no escapes, no embedded commas); any other JSON is treated as
unparseable.  The program only round-trips such flat lists. -/
def jsonFlatList (s : String) : Option (List String) :=
  let inner := pyStrip (slice1m1 s)
  if inner = "" then some []
  else
    let parts := (pySplitChar ',' inner).map pyStrip
    let parsed := parts.map (fun q =>
      if startsW q "\"" && endsW q "\"" && decide (2 ≤ q.data.length) &&
          !(slice1m1 q).data.contains '"' && !(slice1m1 q).data.contains '\\' then
        some (slice1m1 q)
      else none)
    if parsed.all (·.isSome) then some (parsed.map (fun o => o.getD "")) else none

/-- `parse_maybe_list` of the source, for string input. -/
def parse_maybe_list (val : String) : Option (List String) :=
  let s := pyStrip val
  if startsW s "[" && endsW s "]" then jsonFlatList s else none

/-- `is_bool_field` of the source. -/
def is_bool_field (name : String) (boolean_fields : List String) : Bool :=
  let nn := normKeyForMatch name
  boolean_fields.any (fun b => normKeyForMatch b = nn) ||
  (startsW nn "is" || startsW nn "has" || hasSub "actif".data nn.data ||
   hasSub "active".data nn.data || hasSub "enabled".data nn.data ||
   hasSub "inscrit".data nn.data)

/-- `coerce_bool_if_needed` of the source, for string input. -/
def coerce_bool_if_needed (name : String) (val : String)
    (boolean_fields : List String) : Val :=
  if !is_bool_field name boolean_fields then .s val
  else
    let s := pyLower (pyStrip val)
    if s = "true" || s = "vrai" || s = "yes" || s = "oui" || s = "1" then .b true
    else if s = "false" || s = "faux" || s = "no" || s = "non" || s = "0" then .b false
    else .s val

/-! ## Phone normalisation -/

/-- `normalize_phone` of the source (French numbers). -/
def normalize_phone (fr_phone : String) : String :=
  if fr_phone = "" then ""
  else
    let s0 : List Char := fr_phone.data.filter (fun c => c.isDigit || c = '+')
    let s1 : List Char := if ("00".data).isPrefixOf s0 then '+' :: s0.drop 2 else s0
    let s2 : List Char :=
      if ("+33".data).isPrefixOf s1 && (s1.length = 12 || s1.length = 13) then
        "+33".data ++ (let t := s1.drop 3; if t.head? = some '0' then t.drop 1 else t)
      else if s1.head? = some '0' && decide (10 ≤ s1.length) then
        "+33".data ++ s1.drop 1
      else s1
    ⟨s2⟩

example : normalize_phone "06 01 02 03 04" = "+33601020304" := by decide
example : normalize_phone "0033601020304" = "+33601020304" := by decide
example : normalize_phone "+330601020304" = "+33601020304" := by decide

/-! ## Identity composition -/

/-- `slugify` of the source (non-unicode mode). -/
def slugify (value : String) : String :=
  let a := value.data.flatMap asciiFoldChar
  let b := a.filter (fun c => c.isAlphanum || c = '_' || pyWs c || c = '-')
  let c := (pyStrip ⟨b⟩).data.map Char.toLower
  ⟨subRunsGo (fun x => x = '-' || pyWs x) '-' c false⟩

/-- `make_id_prefix` of the source (renamed): slugified, uppercased,
`-` to `_`, restricted to `A-Z0-9_`. -/
def mkIdPfx (s : String) : String :=
  if s = "" then ""
  else
    let base := (pyUpper (slugify s)).data.map (fun c => if c = '-' then '_' else c)
    ⟨base.filter (fun c => ('A' ≤ c && c ≤ 'Z') || c.isDigit || c = '_')⟩

/-- Python `int()` digit-run grammar: digits with single interior
underscores. -/
def duAux : List Char → Bool
  | [] => true
  | '_' :: c :: rest2 => c.isDigit && duAux rest2
  | '_' :: [] => false
  | c :: rest => c.isDigit && duAux rest

def digitsUnderscore : List Char → Bool
  | [] => false
  | c :: rest => c.isDigit && duAux rest

def digitsToNat (cs : List Char) : Nat :=
  cs.foldl (fun n c => n * 10 + (c.toNat - 48)) 0

/-- Python `int(s)` (ASCII digits; `None` models `ValueError`). -/
def pyIntParse (s : String) : Option Int :=
  let t := pyStrip s
  match t.data with
  | '+' :: rest =>
    if digitsUnderscore rest then
      some (Int.ofNat (digitsToNat (rest.filter (fun c => !(c = '_'))))) else none
  | '-' :: rest =>
    if digitsUnderscore rest then
      some (-(Int.ofNat (digitsToNat (rest.filter (fun c => !(c = '_')))))) else none
  | cs =>
    if digitsUnderscore cs then
      some (Int.ofNat (digitsToNat (cs.filter (fun c => !(c = '_'))))) else none

/-- Python `f-string` zero padding to a given width. -/
def zeroPad (pad : Nat) (ds : String) : String :=
  ⟨List.replicate (pad - ds.data.length) '0' ++ ds.data⟩

/-- Python `chr(123)n:0{pad}d\x7d` formatting of an integer. -/
def formatIntPad (n : Int) (pad : Nat) : String :=
  if n < 0 then "-" ++ zeroPad (pad - 1) (toString n.natAbs)
  else zeroPad pad (toString n.natAbs)

/-- `format_composed_id` of the source. -/
def format_composed_id (pfxInput : String) (raw_id : String) (pad : Nat) : String :=
  let pfx := mkIdPfx pfxInput
  if raw_id = "" then (if pfx ≠ "" then pfx else "")
  else
    let s := pyStrip raw_id
    match pyIntParse s with
    | some n => if pfx ≠ "" then pfx ++ "-" ++ formatIntPad n pad else formatIntPad n pad
    | none => if pfx ≠ "" then pfx ++ "-" ++ s else s

example : format_composed_id "SCO" "7" 3 = "SCO-007" := by decide
example : format_composed_id "SCO" "abc" 3 = "SCO-abc" := by decide
example : mkIdPfx "Scolaires" = "SCOLAIRES" := by decide

/-! ## Configuration and run parameters -/

/-- The shape of the `extras` configuration value when present: a
string or an explicit list of field names (the source default, an
object, takes neither branch and is modelled by absence). -/
inductive ExtrasVal
  | estr (s : String)
  | elist (names : List String)
deriving DecidableEq, Repr

/-- A per-project override object (only its `aliases` member is read by
the source). -/
structure POv where
  aliases : Option (List (String × List String))
deriving DecidableEq, Repr

/-- A well-shaped mapping configuration, with optional members
modelling key presence in the JSON object. -/
structure Cfg where
  aliases : Option (List (String × List String))
  projects : Option (List (String × POv))
  list_fields : Option (List String)
  transforms : Option (List (String × Bool))
  boolean_fields : Option (List String)
  preserve_keys : Option (List String)
  overwrite_keys : Option (List String)
  required_fields : Option (List String)
  extras : Option ExtrasVal
deriving DecidableEq, Repr

/-- The empty configuration (a config file holding `\x7b\x7d`). -/
def emptyCfg : Cfg := ⟨none, none, none, none, none, none, none, none, none⟩

/-- The run parameters of the source (`idPfx` models `args.id_prefix`). -/
structure Args where
  project : String
  id_key : String
  idPfx : String
  id_pad : Nat
  id_fallback : String
  dry_run : Bool
deriving DecidableEq, Repr

def DEFAULT_PRESERVE_KEYS : List String := ["notes", "custom_tags"]

def DEFAULT_OVERWRITE_KEYS : List String :=
  ["Nom", "Prénom", "Tel_Mobile", "Tel_Fixe", "Mail_Pro", "Mail_Perso",
   "organisation", "groupes", "type", "id_mslist", "source_updated"]

/-- A CSV row as produced by `csv.DictReader`: ordered field-name to
string mapping. -/
abbrev Row := List (String × String)

/-- The document store: an ordered file-name to file-content mapping
(list order models directory enumeration order). -/
abbrev Store := List (String × String)

/-! ## Field resolution and contact building -/

/-- The normalized-header index built by `select_first_present`: for
each row header, its normalized and singularized-normalized forms map
to the original header (later headers overwrite earlier ones). -/
def rowNormMap (row : Row) : List (String × String) :=
  row.foldl (fun m e =>
    dictInsert (dictInsert m (normKeyForMatch e.1) e.1)
      (singularizeNorm (normKeyForMatch e.1)) e.1) []

/-- One normalized-candidate lookup of `select_first_present`. -/
def sfpTry (row : Row) (nmap : List (String × String)) (k : String) :
    Option String :=
  match dictGet? nmap k with
  | some orig =>
    let v := (dictGet? row orig).getD ""
    if pyStrip v ≠ "" then some v else none
  | none => none

def sfpLoop (row : Row) (nmap : List (String × String)) : List String → String
  | [] => ""
  | c :: rest =>
    if dictHas row c && pyStrip ((dictGet? row c).getD "") ≠ "" then
      (dictGet? row c).getD ""
    else
      match sfpTry row nmap (normKeyForMatch c) with
      | some v => v
      | none =>
        match sfpTry row nmap (singularizeNorm (normKeyForMatch c)) with
        | some v => v
        | none => sfpLoop row nmap rest

/-- `select_first_present` of the source. -/
def select_first_present (row : Row) (candidates : List String) : String :=
  if candidates = [] then "" else sfpLoop row (rowNormMap row) candidates

/-- The ten logical contact fields assembled by `build_contact`. -/
def logicalFields : List String :=
  ["id_mslist", "Nom", "Prénom", "Tel_Mobile", "Tel_Fixe", "Mail_Pro",
   "Mail_Perso", "organisation", "groupes", "type"]

/-- The alias candidates for a logical field: project override, else
global aliases, else the bare field name. -/
def fieldCandidates (cfg : Cfg) (project : String) (field_key : String) :
    List String :=
  let project_overrides : POv :=
    match cfg.projects with
    | some ps => (dictGet? ps project).getD ⟨none⟩
    | none => ⟨none⟩
  match project_overrides.aliases with
  | some pa =>
    if dictHas pa field_key then (dictGet? pa field_key).getD []
    else
      match dictGet? (cfg.aliases.getD []) field_key with
      | some l => l
      | none => [field_key]
  | none =>
    match dictGet? (cfg.aliases.getD []) field_key with
    | some l => l
    | none => [field_key]

/-- Whether a field name is a list field, by normalized comparison with
the configured list-field keys (`is_list_field` inside
`build_contact`). -/
def isListField (cfg : Cfg) (name : String) : Bool :=
  (cfg.list_fields.getD []).any
    (fun k => normKeyForMatch k = normKeyForMatch name)

/-- The extras value added for one raw row value (shared tail of the
two extras branches of `build_contact`). -/
def extraVal (cfg : Cfg) (name v : String) : Val :=
  match parse_maybe_list v with
  | some l => .l ((l.map pyStrip).filter (fun x => x ≠ ""))
  | none =>
    if isListField cfg name then .l (split_list v)
    else coerce_bool_if_needed name v (cfg.boolean_fields.getD [])

/-- `build_contact` of the source. -/
def build_contact (row : Row) (cfg : Cfg) (project : String) : Fm :=
  let base : Fm := logicalFields.foldl (fun c logical =>
    let cands := fieldCandidates cfg project logical
    let val : String := if cands = [] then "" else select_first_present row cands
    let v : Val :=
      if (cfg.list_fields.getD []).contains logical then
        match parse_maybe_list val with
        | some l => .l ((l.map pyStrip).filter (fun x => x ≠ ""))
        | none => .l (split_list val)
      else if logical = "type" && val = "" then .s "contact"
      else .s val
    dictInsert c logical v) []
  match cfg.extras with
  | some (.estr s) =>
    if s = "all" then
      let used := logicalFields.flatMap (fieldCandidates cfg project)
      let existing_norm := base.map (fun e => normKeyForMatch e.1)
      row.foldl (fun c e =>
        if used.contains e.1 then c
        else if existing_norm.contains (normKeyForMatch e.1) then c
        else dictInsert c e.1 (extraVal cfg e.1 e.2)) base
    else base
  | some (.elist names) =>
    names.foldl (fun c name =>
      if dictHas row name then
        if (c.map (fun e => normKeyForMatch e.1)).contains (normKeyForMatch name) then c
        else dictInsert c name (extraVal cfg name ((dictGet? row name).getD ""))
      else c) base
  | none => base

/-- Python `str(x or chr(39)+chr(39))` for an optional value: the empty
string when absent or falsy, `str(v)` otherwise. -/
def orEmptyStr (ov : Option Val) : String :=
  match ov with
  | none => ""
  | some v => if valTruthy v then valPyStr v else ""

/-- The required-field truthiness test of `process_contact_row`:
`str(contact.get(k) or ...).strip()`. -/
def reqTruthy (ov : Option Val) : Bool := pyStrip (orEmptyStr ov) ≠ ""

/-- The phone-normalization transform of `build_frontmatter` for one
key: `if new_fm.get(k): new_fm[k] = normalize_phone(new_fm[k])`. -/
def bfPhone (fm : Fm) (key : String) : Fm :=
  match dictGet? fm key with
  | some v =>
    if valTruthy v then dictInsert fm key (.s (normalize_phone (valPyStr v)))
    else fm
  | none => fm

/-- The remaining-keys step of `build_frontmatter`: skip
`src_id_mslist`, skip blank `email`/`telephone`, and add any key not
already present. -/
def bfStep (fm : Fm) (e : String × Val) : Fm :=
  if e.1 = "src_id_mslist" then fm
  else if (e.1 = "email" || e.1 = "telephone") &&
      !(valTruthy e.2 && pyStrip (valPyStr e.2) ≠ "") then fm
  else if dictHas fm e.1 then fm
  else dictInsert fm e.1 e.2

/-- `build_frontmatter` of the source (the `source_updated` timestamp
is passed in as `now`). -/
def build_frontmatter (contact : Fm) (cfg : Cfg) (now : String) : Fm :=
  let g : String → Val → Val := fun k d => (dictGet? contact k).getD d
  let fm0 : Fm :=
    [("Nom", g "Nom" (.s "")), ("Prénom", g "Prénom" (.s "")),
     ("Tel_Mobile", g "Tel_Mobile" (.s "")), ("Tel_Fixe", g "Tel_Fixe" (.s "")),
     ("Mail_Pro", g "Mail_Pro" (.s "")), ("Mail_Perso", g "Mail_Perso" (.s "")),
     ("organisation", g "organisation" (.s "")),
     ("id_mslist", g "id_mslist" (.s "")), ("groupes", g "groupes" (.l [])),
     ("type", g "type" (.s "contact")), ("source_updated", .s now)]
  let fm1 : Fm :=
    if ((dictGet? (cfg.transforms.getD []) "normalize_phone_fr").getD false) then
      bfPhone (bfPhone fm0 "Tel_Mobile") "Tel_Fixe"
    else fm0
  contact.foldl bfStep fm1

/-! ## SHA-1 and sorted-key JSON serialisation -/

/-- UTF-8 encoding of one character. -/
def utf8Char (c : Char) : List Nat :=
  let n := c.toNat
  if n < 128 then [n]
  else if n < 2048 then [192 + n / 64, 128 + n % 64]
  else if n < 65536 then [224 + n / 4096, 128 + (n / 64) % 64, 128 + n % 64]
  else [240 + n / 262144, 128 + (n / 4096) % 64, 128 + (n / 64) % 64, 128 + n % 64]

def utf8Bytes (s : String) : List Nat := s.data.flatMap utf8Char

def w32 (n : Nat) : Nat := n % 4294967296

def rotl (n x : Nat) : Nat := w32 ((x <<< n) ||| (x >>> (32 - n)))

/-- Big-endian 32-bit words from bytes. -/
def bytesToWords : List Nat → List Nat
  | b1 :: b2 :: b3 :: b4 :: rest =>
    (b1 * 16777216 + b2 * 65536 + b3 * 256 + b4) :: bytesToWords rest
  | _ => []

/-- SHA-1 message schedule: extend 16 words to 80. -/
def sha1Extend (ws0 : List Nat) : List Nat :=
  (List.range 64).foldl (fun ws _ =>
    ws ++ [rotl 1 (Nat.xor (Nat.xor (ws.getD (ws.length - 3) 0) (ws.getD (ws.length - 8) 0))
      (Nat.xor (ws.getD (ws.length - 14) 0) (ws.getD (ws.length - 16) 0)))]) ws0

/-- One SHA-1 round. -/
def sha1Round (i : Nat) (w : Nat) (st : Nat × Nat × Nat × Nat × Nat) :
    Nat × Nat × Nat × Nat × Nat :=
  let (a, b, c, d, e) := st
  let fk : Nat × Nat :=
    if i < 20 then ((b &&& c) ||| ((4294967295 - b) &&& d), 1518500249)
    else if i < 40 then (Nat.xor (Nat.xor b c) d, 1859775393)
    else if i < 60 then ((b &&& c) ||| (b &&& d) ||| (c &&& d), 2400959708)
    else (Nat.xor (Nat.xor b c) d, 3395469782)
  let temp := w32 (rotl 5 a + fk.1 + e + fk.2 + w)
  (temp, a, rotl 30 b, c, d)

/-- Compress one 64-byte block. -/
def sha1Block (block : List Nat) (h : Nat × Nat × Nat × Nat × Nat) :
    Nat × Nat × Nat × Nat × Nat :=
  let ws := sha1Extend (bytesToWords block)
  let (h0, h1, h2, h3, h4) := h
  let st := (List.range 80).foldl
    (fun st i => sha1Round i (ws.getD i 0) st) (h0, h1, h2, h3, h4)
  (w32 (h0 + st.1), w32 (h1 + st.2.1), w32 (h2 + st.2.2.1),
   w32 (h3 + st.2.2.2.1), w32 (h4 + st.2.2.2.2))

def sha1Blocks : Nat → List Nat → (Nat × Nat × Nat × Nat × Nat) →
    Nat × Nat × Nat × Nat × Nat
  | 0, _, h => h
  | _ + 1, [], h => h
  | fuel + 1, bytes, h =>
    sha1Blocks fuel (bytes.drop 64) (sha1Block (bytes.take 64) h)

/-- SHA-1 padding: `0x80`, zeros to 56 mod 64, 8-byte big-endian bit
length. -/
def sha1Pad (ms : List Nat) : List Nat :=
  let len := ms.length
  let k := (119 - (len % 64)) % 64
  let bitlen := len * 8
  ms ++ [128] ++ List.replicate k 0 ++
    (List.range 8).map (fun i => (bitlen >>> (8 * (7 - i))) % 256)

def hexDigit (d : Nat) : Char :=
  if d < 10 then Char.ofNat (48 + d) else Char.ofNat (87 + d)

def toHex8 (n : Nat) : String :=
  ⟨(List.range 8).map (fun i => hexDigit ((n >>> (4 * (7 - i))) % 16))⟩

/-- `hashlib.sha1(...).hexdigest()` over a byte message. -/
def sha1Hex (ms : List Nat) : String :=
  let padded := sha1Pad ms
  let h := sha1Blocks (padded.length + 64) padded
    (1732584193, 4023233417, 2562383102, 271733878, 3285377520)
  toHex8 h.1 ++ toHex8 h.2.1 ++ toHex8 h.2.2.1 ++ toHex8 h.2.2.2.1 ++ toHex8 h.2.2.2.2

/-- Python `s[:n]`. -/
def strTake (n : Nat) (s : String) : String := ⟨s.data.take n⟩

/-- The 8-character digest of the hash fallback. -/
def sha1hex8 (basis : String) : String := strTake 8 (sha1Hex (utf8Bytes basis))

/-- Lexicographic codepoint comparison of strings (Python `<`). -/
def charListLt : List Char → List Char → Bool
  | [], [] => false
  | [], _ :: _ => true
  | _ :: _, [] => false
  | a :: as, b :: bs =>
    if a.toNat < b.toNat then true
    else if b.toNat < a.toNat then false
    else charListLt as bs

/-- Insertion step of the key sort of `json.dumps(sort_keys=True)`. -/
def insertSorted (e : String × String) :
    List (String × String) → List (String × String)
  | [] => [e]
  | f :: rest =>
    if charListLt f.1.data e.1.data then f :: insertSorted e rest
    else e :: f :: rest

def sortByKey (l : List (String × String)) : List (String × String) :=
  l.foldr insertSorted []

/-- JSON string quoting (`ensure_ascii=False`). -/
def jsonQuote (s : String) : String :=
  let esc := s.data.flatMap (fun c =>
    if c = '"' then ['\\', '"']
    else if c = '\\' then ['\\', '\\']
    else if c = '\n' then ['\\', 'n']
    else if c = '\r' then ['\\', 'r']
    else if c = '\t' then ['\\', 't']
    else if c.toNat < 32 then
      ['\\', 'u', '0', '0', hexDigit (c.toNat / 16), hexDigit (c.toNat % 16)]
    else [c])
  "\"" ++ ⟨esc⟩ ++ "\""

/-- `json.dumps(row, sort_keys=True, ensure_ascii=False)` for a flat
string-to-string record. -/
def jsonDumpsSorted (row : Row) : String :=
  ⟨[Char.ofNat 123]⟩ ++
    String.intercalate ", "
      ((sortByKey row).map (fun e => jsonQuote e.1 ++ ": " ++ jsonQuote e.2)) ++
  ⟨[Char.ofNat 125]⟩

/-! ## Document store index, matcher, and per-record pipeline -/

/-- `build_existing_indexes` of the source: one pass over the store
building the identity index and the email index (later documents
overwrite earlier entries). -/
def build_existing_indexes (store : Store) :
    List (String × String) × List (String × String) :=
  store.foldl (fun acc doc =>
    let fm := (read_frontmatter doc.2).1
    if fm = [] then acc
    else
      let byId :=
        match dictGet? fm "id_mslist" with
        | some v => if valTruthy v then dictInsert acc.1 (valPyStr v) doc.1 else acc.1
        | none => acc.1
      let emailCands : List String := fm.flatMap (fun e =>
        let kn := normKeyForMatch e.1
        if hasSub "email".data kn.data || hasSub "mail".data kn.data then
          match e.2 with
          | .l items => items.map (fun it => pyLower (pyStrip it))
          | v => [pyLower (pyStrip (valPyStr v))]
        else [])
      let byEmail := emailCands.foldl (fun be e2 =>
        if e2 ≠ "" && is_valid_email e2 then dictInsert be e2 doc.1 else be) acc.2
      (byId, byEmail)) ([], [])

/-- The collision loop for new-document filenames (`while
target.exists(): ... - N.md`), with fuel covering every possible
collision: behaviourally identical to the unbounded source loop, since
among `store.length + 1` candidate names at least one is free. -/
def freshLoop (store : Store) (base : String) : Nat → Nat → String
  | 0, i => base ++ " - " ++ toString i ++ ".md"
  | fuel + 1, i =>
    let cand := base ++ " - " ++ toString i ++ ".md"
    if dictHas store cand then freshLoop store base fuel (i + 1) else cand

/-- The target-resolution step of `process_contact_row`: identity-index
match first, else email-index match, else a fresh filename. -/
def matchTarget (uniqueId emailLc : String)
    (byId byEmail : List (String × String)) (store : Store)
    (filenameBase filename : String) : String :=
  if uniqueId ≠ "" && dictHas byId uniqueId then (dictGet? byId uniqueId).getD ""
  else if emailLc ≠ "" && dictHas byEmail emailLc then (dictGet? byEmail emailLc).getD ""
  else if dictHas store filename then freshLoop store filenameBase (store.length + 1) 2
  else filename

/-- The inner alias loop of `choose_primary_email_lower`. -/
def cpeLoop (contact : Fm) : List String → String
  | [] => ""
  | ek :: rest =>
    match dictGet? contact ek with
    | some v =>
      if valTruthy v && pyStrip (valPyStr v) ≠ "" then
        let cand := pyLower (pyStrip (valPyStr v))
        if is_valid_email cand then cand else cpeLoop contact rest
      else cpeLoop contact rest
    | none => cpeLoop contact rest

/-- `choose_primary_email_lower` of the source. -/
def choose_primary_email_lower (contact : Fm) : String :=
  cpeLoop contact ["email", "Mail_Pro", "Mail_Perso", "mail_pro", "mail_perso"]

/-- The result of one `process_contact_row` call. -/
structure RowResult where
  action : String
  target : Option String
  mdText : Option String
  contact : Fm
  seq : Nat
deriving DecidableEq, Repr

/-- The identity-composition step of `process_contact_row` (the part
guarded by `args.id_prefix`): returns the composed id, the updated
sequence counter, and whether the row is skipped. -/
def composeId (row : Row) (args : Args) (src_ms_id : String) (seq : Nat) :
    Option String × Nat × Bool :=
  if pyIsDigitS src_ms_id then
    (some (format_composed_id args.idPfx src_ms_id args.id_pad), seq, false)
  else if args.id_fallback = "seq" then
    (some (format_composed_id args.idPfx (toString seq) args.id_pad), seq + 1, false)
  else if args.id_fallback = "hash" then
    (some (format_composed_id args.idPfx (sha1hex8 (jsonDumpsSorted row)) args.id_pad),
      seq, false)
  else if args.id_fallback = "raw" then
    (if src_ms_id ≠ "" then
      (some (format_composed_id args.idPfx src_ms_id args.id_pad), seq, false)
    else (none, seq, false))
  else if args.id_fallback = "skip" then (none, seq, true)
  else (none, seq, false)

/-- The title construction of `process_contact_row`. -/
def titleHuman (contact : Fm) : String :=
  let last_name := pyStrip (orEmptyStr (dictGet? contact "Nom"))
  let first_name := pyStrip (orEmptyStr (dictGet? contact "Prénom"))
  let etab := get_contact_value contact
    ["Etablissement", "Établissement", "etablissement", "organisation", "Organisation"]
  let t0 :=
    if last_name ≠ "" then
      pyUpper last_name ++ (if first_name ≠ "" then " " ++ first_name else "")
    else if first_name ≠ "" then first_name
    else
      match dictGet? contact "organisation" with
      | some v =>
        if valTruthy v then valPyStr v
        else
          match dictGet? contact "email" with
          | some v2 => if valTruthy v2 then valPyStr v2 else "contact"
          | none => "contact"
      | none =>
        match dictGet? contact "email" with
        | some v2 => if valTruthy v2 then valPyStr v2 else "contact"
        | none => "contact"
  if etab ≠ "" then t0 ++ " - " ++ etab else t0

/-- The `if args.id_prefix:` composition step of `process_contact_row`
over a row, producing the composed id, the updated counter, and the
skip flag. -/
def composeStep (row : Row) (cfg : Cfg) (args : Args) (seq : Nat) :
    Option String × Nat × Bool :=
  if args.idPfx ≠ "" then
    composeId row args
      (pyStrip (orEmptyStr (dictGet? (build_contact row cfg args.project)
        "id_mslist"))) seq
  else (none, seq, false)

/-- The contact mapping after the optional id composition
(`contact['id_mslist'] = composed`). -/
def contactFinal (row : Row) (cfg : Cfg) (args : Args) (seq : Nat) : Fm :=
  match (composeStep row cfg args seq).1 with
  | some c =>
    dictInsert (build_contact row cfg args.project) "id_mslist" (.s c)
  | none => build_contact row cfg args.project

/-- `process_contact_row` of the source, over the current store state
(`target.exists()` and `target.read_text` are store lookups) and the
explicit per-run sequence counter; `now` is the `source_updated`
timestamp of this run. -/
def process_contact_row (row : Row) (cfg : Cfg) (args : Args)
    (byId byEmail : List (String × String)) (store : Store) (seq : Nat)
    (now : String) : RowResult :=
  let contact := build_contact row cfg args.project
  let required := cfg.required_fields.getD
    ["Nom", "Prénom", "Tel_Mobile", "Tel_Fixe", "Mail_Pro", "Mail_Perso",
     "organisation"]
  if !(required.any (fun k => reqTruthy (dictGet? contact k))) then
    ⟨"SKIPPED", none, none, contact, seq⟩
  else
    let comp := composeStep row cfg args seq
    if comp.2.2 then ⟨"SKIPPED", none, none, contact, comp.2.1⟩
    else
      let contact2 := contactFinal row cfg args seq
      let seq2 := comp.2.1
      let filename_base := sanitize_filename (titleHuman contact2)
      let filename := filename_base ++ ".md"
      let unique_id := pyStrip (orEmptyStr (dictGet? contact2 args.id_key))
      let email_lc := choose_primary_email_lower contact2
      let target := matchTarget unique_id email_lc byId byEmail store
        filename_base filename
      let new_fm := build_frontmatter contact2 cfg now
      match dictGet? store target with
      | some txt =>
        let rf := read_frontmatter txt
        let authoritative := DEFAULT_OVERWRITE_KEYS ++ cfg.overwrite_keys.getD []
        let merged := merge_frontmatter rf.1 new_fm
          (cfg.preserve_keys.getD DEFAULT_PRESERVE_KEYS) authoritative
        let md_text := dump_frontmatter merged ++ (if rf.2 ≠ "" then rf.2 else "\n")
        ⟨"UPDATED", some target, some md_text, contact2, seq2⟩
      | none =>
        ⟨"CREATED", some target, some (dump_frontmatter new_fm ++ "\n"), contact2, seq2⟩

/-- The per-run orchestrator state of `main`. -/
structure RunState where
  store : Store
  created : Nat
  updated : Nat
  skipped : Nat
  seq : Nat
deriving DecidableEq, Repr

/-- The record loop of `main`: indexes are built once from the initial
store, the per-run sequence counter starts at 1, and each non-skipped
record writes its document into the store (unless in preview mode). -/
def runPipeline (rows : List Row) (cfg : Cfg) (args : Args) (store0 : Store)
    (now : String) : RunState :=
  let idx := build_existing_indexes store0
  rows.foldl (fun st row =>
    let r := process_contact_row row cfg args idx.1 idx.2 st.store st.seq now
    if r.action = "SKIPPED" then
      { st with skipped := st.skipped + 1, seq := r.seq }
    else
      let st2 :=
        if r.action = "CREATED" then { st with created := st.created + 1 }
        else { st with updated := st.updated + 1 }
      if args.dry_run then { st2 with seq := r.seq }
      else
        { st2 with
          store := dictInsert st2.store (r.target.getD "") (r.mdText.getD "")
          seq := r.seq })
    ⟨store0, 0, 0, 0, 1⟩

/-- Claim C5: identity-index precedence in matching. A record whose
unique id is indexed is routed to the indexed document for every email
value and email index (in particular when its email differs from any
indexed email); the email index decides only when the identity index
yields no match; and only when neither matches does the routing take
the create-new filename branch. -/
theorem claim_C5 (uniqueId emailLc : String) (byId byEmail : List (String × String))
    (store : Store) (fb fn : String) :
    (uniqueId ≠ "" → dictHas byId uniqueId = true →
      matchTarget uniqueId emailLc byId byEmail store fb fn =
        (dictGet? byId uniqueId).getD "")
    ∧ ((uniqueId = "" ∨ dictHas byId uniqueId = false) →
      emailLc ≠ "" → dictHas byEmail emailLc = true →
      matchTarget uniqueId emailLc byId byEmail store fb fn =
        (dictGet? byEmail emailLc).getD "")
    ∧ ((uniqueId = "" ∨ dictHas byId uniqueId = false) →
      (emailLc = "" ∨ dictHas byEmail emailLc = false) →
      matchTarget uniqueId emailLc byId byEmail store fb fn =
        (if dictHas store fn then freshLoop store fb (store.length + 1) 2 else fn)) := by
  refine ⟨?_, ?_, ?_⟩
  · intro h1 h2
    unfold matchTarget
    rw [if_pos (by simp [h1, h2])]
  · intro h0 h1 h2
    unfold matchTarget
    rw [if_neg (by rcases h0 with h | h <;> simp [h]), if_pos (by simp [h1, h2])]
  · intro h0 h1
    unfold matchTarget
    rw [if_neg (by rcases h0 with h | h <;> simp [h]),
      if_neg (by rcases h1 with h | h <;> simp [h])]

/-- Witness for C5: a concrete record whose id is indexed to `X.md`
while its email is indexed to a different document `Y.md` is routed to
`X.md`. -/
theorem claim_C5_witness :
    "A1" ≠ "" ∧ dictHas [("A1", "X.md")] "A1" = true ∧
      matchTarget "A1" "b@c.fr" [("A1", "X.md")] [("b@c.fr", "Y.md")] [] "Z" "Z.md" =
        "X.md" := by
  refine ⟨by decide, by decide, ?_⟩
  have h := (claim_C5 "A1" "b@c.fr" [("A1", "X.md")] [("b@c.fr", "Y.md")] []
    "Z" "Z.md").1 (by decide) (by decide)
  rw [h]
  rfl

/-! ## Configuration loading and validation -/

/-- A parsed JSON value, the shape `json.load` hands to
`validate_config`. -/
inductive JVal where
  | jstr : String → JVal
  | jnum : Int → JVal
  | jbool : Bool → JVal
  | jnull : JVal
  | jarr : List JVal → JVal
  | jobj : List (String × JVal) → JVal

/-- `isinstance(v, dict)`. -/
def JVal.isObj : JVal → Bool
  | .jobj _ => true
  | _ => false

/-- `isinstance(v, list)`. -/
def JVal.isArr : JVal → Bool
  | .jarr _ => true
  | _ => false

/-- Association lookup in a JSON object. -/
def jLookup (fields : List (String × JVal)) (k : String) : Option JVal :=
  match fields with
  | [] => none
  | e :: tl => if e.1 = k then some e.2 else jLookup tl k

/-- How a run continues after the configuration phase: `fatal code`
models `sys.exit(code)` before any record is processed, `proceed n`
models continuing into record processing after `n` warnings. -/
inductive CfgOutcome where
  | fatal : Nat → CfgOutcome
  | proceed : Nat → CfgOutcome
deriving DecidableEq, Repr

/-- `load_config` of the source over the outcome of `json.load`:
a JSON decode error (`none`) exits with status 2, any parsed value is
returned as-is. -/
def load_config (parsed : Option JVal) : Except Nat JVal :=
  match parsed with
  | none => Except.error 2
  | some v => Except.ok v

/-- `validate_config` of the source: a non-object top level exits with
status 2; a wrong shape for `aliases`, `projects`, `transforms`,
`list_fields` (present but not an object) or for `preserve_keys`,
`overwrite_keys` (present but not a list) only logs a warning and the
run proceeds. -/
def validate_config (cfg : JVal) : CfgOutcome :=
  match cfg with
  | .jobj fields =>
    let w1 := (["aliases", "projects", "transforms", "list_fields"].filter
      (fun k => match jLookup fields k with
        | some v => !v.isObj
        | none => false)).length
    let w2 := (["preserve_keys", "overwrite_keys"].filter
      (fun k => match jLookup fields k with
        | some v => !v.isArr
        | none => false)).length
    CfgOutcome.proceed (w1 + w2)
  | _ => CfgOutcome.fatal 2

/-- Whether a configuration outcome aborts the run. -/
def CfgOutcome.isFatal : CfgOutcome → Bool
  | .fatal _ => true
  | .proceed _ => false

/-- Counterexample to C8: the configuration `{"aliases": []}` has a
wrong shape for its `aliases` section (a list instead of an object),
yet the run does not abort — `validate_config` merely warns once and
proceeds into record processing. -/
theorem claim_C8_counterexample :
    load_config (some (JVal.jobj [("aliases", JVal.jarr [])])) =
      Except.ok (JVal.jobj [("aliases", JVal.jarr [])])
    ∧ validate_config (JVal.jobj [("aliases", JVal.jarr [])]) =
      CfgOutcome.proceed 1 := by
  exact ⟨rfl, rfl⟩

/-- Claim C8 (amended): only malformed JSON and a non-object top level
are fatal (exit status 2, before any record is processed); wrong shapes
for the expected sections are non-fatal — the run proceeds with
warnings. -/
theorem claim_C8_amended (cfg : JVal) :
    load_config none = Except.error 2
    ∧ load_config (some cfg) = Except.ok cfg
    ∧ (validate_config cfg).isFatal = !cfg.isObj
    ∧ (cfg.isObj = false → validate_config cfg = CfgOutcome.fatal 2)
    ∧ (cfg.isObj = true → ∃ w, validate_config cfg = CfgOutcome.proceed w) := by
  refine ⟨rfl, rfl, ?_, ?_, ?_⟩
  · cases cfg <;> rfl
  · intro h; cases cfg <;> first | rfl | exact absurd h (by simp [JVal.isObj])
  · intro h; cases cfg <;> first
      | exact ⟨_, rfl⟩
      | exact absurd h (by simp [JVal.isObj])

/-- Witness for C8 (amended), at a non-object and at an object
configuration. -/
theorem claim_C8_witness :
    ((JVal.jarr []).isObj = false → validate_config (JVal.jarr []) =
      CfgOutcome.fatal 2)
    ∧ ((JVal.jobj []).isObj = true → ∃ w, validate_config (JVal.jobj []) =
      CfgOutcome.proceed w) :=
  ⟨(claim_C8_amended (JVal.jarr [])).2.2.2.1,
   (claim_C8_amended (JVal.jobj [])).2.2.2.2⟩

set_option maxRecDepth 100000 in
/-- Counterexample to C9: an UPDATED document whose existing body is
empty is not rewritten as the merged metadata block followed by that
(empty) body — a lone newline is substituted, so the rewritten text
differs from the claimed one. -/
theorem claim_C9_counterexample :
    let txt := "---\nid_mslist: A1\n---"
    let store : Store := [("X.md", txt)]
    let idx := build_existing_indexes store
    let args : Args := ⟨"", "id_mslist", "", 3, "seq", false⟩
    let r := process_contact_row [("Nom", "X"), ("id_mslist", "A1")] emptyCfg args
      idx.1 idx.2 store 1 "2024-01-01T00:00:00Z"
    let merged := merge_frontmatter (read_frontmatter txt).1
      (build_frontmatter r.contact emptyCfg "2024-01-01T00:00:00Z")
      DEFAULT_PRESERVE_KEYS (DEFAULT_OVERWRITE_KEYS ++ [])
    r.action = "UPDATED" ∧ (read_frontmatter txt).2 = "" ∧
      r.mdText ≠ some (dump_frontmatter merged ++ (read_frontmatter txt).2) := by
  decide

/-- Claim C9 (amended): for every matched (UPDATED) document, the
rewritten text is the re-encoded merged metadata block followed by the
existing document's body when that body is non-empty, and by a single
newline when it is empty. -/
theorem claim_C9_amended (row : Row) (cfg : Cfg) (args : Args)
    (byId byEmail : List (String × String)) (store : Store) (seq : Nat)
    (now : String)
    (h : (process_contact_row row cfg args byId byEmail store seq now).action =
      "UPDATED") :
    ∃ target txt,
      (process_contact_row row cfg args byId byEmail store seq now).target =
        some target
      ∧ dictGet? store target = some txt
      ∧ (process_contact_row row cfg args byId byEmail store seq now).mdText =
        some (dump_frontmatter (merge_frontmatter (read_frontmatter txt).1
            (build_frontmatter
              (process_contact_row row cfg args byId byEmail store seq now).contact
              cfg now)
            (cfg.preserve_keys.getD DEFAULT_PRESERVE_KEYS)
            (DEFAULT_OVERWRITE_KEYS ++ cfg.overwrite_keys.getD []))
          ++ (if (read_frontmatter txt).2 = "" then "\n"
              else (read_frontmatter txt).2)) := by
  simp only [process_contact_row] at h ⊢
  split at h
  next hreq => simp at h
  next hreq =>
    rw [if_neg hreq]
    split at h
    next hskip => simp at h
    next hskip =>
      rw [if_neg hskip]
      split at h
      next txt heq =>
        refine ⟨_, txt, rfl, heq, ?_⟩
        by_cases hb : (read_frontmatter txt).2 = ""
        · rw [if_pos hb]
          simp [hb]
        · rw [if_neg hb]
          simp [hb]
      next heq => simp at h

set_option maxRecDepth 100000 in
/-- Witness for C9 (amended): a concrete matched update against a
document with a non-empty body. -/
theorem claim_C9_witness :
    ∃ target txt,
      (process_contact_row [("Nom", "X"), ("id_mslist", "A1")] emptyCfg
          ⟨"", "id_mslist", "", 3, "seq", false⟩
          (build_existing_indexes [("X.md", "---\nid_mslist: A1\n---\nhello")]).1
          (build_existing_indexes [("X.md", "---\nid_mslist: A1\n---\nhello")]).2
          [("X.md", "---\nid_mslist: A1\n---\nhello")] 1 "T").target = some target
      ∧ dictGet? [("X.md", "---\nid_mslist: A1\n---\nhello")] target = some txt
      ∧ (process_contact_row [("Nom", "X"), ("id_mslist", "A1")] emptyCfg
          ⟨"", "id_mslist", "", 3, "seq", false⟩
          (build_existing_indexes [("X.md", "---\nid_mslist: A1\n---\nhello")]).1
          (build_existing_indexes [("X.md", "---\nid_mslist: A1\n---\nhello")]).2
          [("X.md", "---\nid_mslist: A1\n---\nhello")] 1 "T").mdText =
        some (dump_frontmatter (merge_frontmatter (read_frontmatter txt).1
            (build_frontmatter
              (process_contact_row [("Nom", "X"), ("id_mslist", "A1")] emptyCfg
                ⟨"", "id_mslist", "", 3, "seq", false⟩
                (build_existing_indexes
                  [("X.md", "---\nid_mslist: A1\n---\nhello")]).1
                (build_existing_indexes
                  [("X.md", "---\nid_mslist: A1\n---\nhello")]).2
                [("X.md", "---\nid_mslist: A1\n---\nhello")] 1 "T").contact
              emptyCfg "T")
            (emptyCfg.preserve_keys.getD DEFAULT_PRESERVE_KEYS)
            (DEFAULT_OVERWRITE_KEYS ++ emptyCfg.overwrite_keys.getD []))
          ++ (if (read_frontmatter txt).2 = "" then "\n"
              else (read_frontmatter txt).2)) :=
  claim_C9_amended [("Nom", "X"), ("id_mslist", "A1")] emptyCfg
    ⟨"", "id_mslist", "", 3, "seq", false⟩
    (build_existing_indexes [("X.md", "---\nid_mslist: A1\n---\nhello")]).1
    (build_existing_indexes [("X.md", "---\nid_mslist: A1\n---\nhello")]).2
    [("X.md", "---\nid_mslist: A1\n---\nhello")] 1 "T" (by decide)

/-! ## Order facts for the sorted-key serialization -/

theorem char_eq_of_toNat_eq {x y : Char} (h : x.toNat = y.toNat) : x = y :=
  Char.eq_of_val_eq (UInt32.ext h)

theorem charListLt_asymm (a : List Char) :
    ∀ b, charListLt a b = true → charListLt b a = false := by
  induction a with
  | nil =>
    intro b h
    cases b with
    | nil => simp [charListLt] at h
    | cons y ys => simp [charListLt]
  | cons x xs ih =>
    intro b h
    cases b with
    | nil => simp [charListLt] at h
    | cons y ys =>
      simp only [charListLt] at h ⊢
      by_cases h1 : x.toNat < y.toNat
      · rw [if_neg (by omega), if_pos h1]
      · rw [if_neg h1] at h
        by_cases h2 : y.toNat < x.toNat
        · rw [if_pos h2] at h; exact absurd h (by simp)
        · rw [if_neg h2] at h
          rw [if_neg h2, if_neg h1]
          exact ih ys h

theorem charListLt_trans (a : List Char) :
    ∀ b c, charListLt a b = true → charListLt b c = true →
      charListLt a c = true := by
  induction a with
  | nil =>
    intro b c h1 h2
    cases b with
    | nil => simp [charListLt] at h1
    | cons y ys =>
      cases c with
      | nil => simp [charListLt] at h2
      | cons z zs => simp [charListLt]
  | cons x xs ih =>
    intro b c h1 h2
    cases b with
    | nil => simp [charListLt] at h1
    | cons y ys =>
      cases c with
      | nil => simp [charListLt] at h2
      | cons z zs =>
        simp only [charListLt] at h1 h2 ⊢
        by_cases hxy : x.toNat < y.toNat
        · by_cases hyz : y.toNat < z.toNat
          · rw [if_pos (by omega)]
          · rw [if_neg hyz] at h2
            by_cases hzy : z.toNat < y.toNat
            · rw [if_pos hzy] at h2; exact absurd h2 (by simp)
            · rw [if_pos (by omega)]
        · rw [if_neg hxy] at h1
          by_cases hyx : y.toNat < x.toNat
          · rw [if_pos hyx] at h1; exact absurd h1 (by simp)
          · rw [if_neg hyx] at h1
            by_cases hyz : y.toNat < z.toNat
            · rw [if_pos (by omega)]
            · rw [if_neg hyz] at h2
              by_cases hzy : z.toNat < y.toNat
              · rw [if_pos hzy] at h2; exact absurd h2 (by simp)
              · rw [if_neg hzy] at h2
                rw [if_neg (by omega), if_neg (by omega)]
                exact ih ys zs h1 h2

theorem charListLt_connex (a : List Char) :
    ∀ b, a ≠ b → charListLt a b = true ∨ charListLt b a = true := by
  induction a with
  | nil =>
    intro b h
    cases b with
    | nil => exact absurd rfl h
    | cons y ys => left; simp [charListLt]
  | cons x xs ih =>
    intro b h
    cases b with
    | nil => right; simp [charListLt]
    | cons y ys =>
      by_cases hxy : x.toNat < y.toNat
      · left; simp [charListLt, hxy]
      · by_cases hyx : y.toNat < x.toNat
        · right; simp [charListLt, hyx]
        · have hx : x = y := char_eq_of_toNat_eq (by omega)
          have hys : xs ≠ ys := by
            intro he; exact h (by rw [hx, he])
          rcases ih ys hys with h3 | h3
          · left; simp [charListLt, hxy, hyx, h3]
          · right; simp [charListLt, hxy, hyx, h3]

theorem insertSorted_comm (x y : String × String) (hxy : x.1 ≠ y.1) :
    ∀ s, insertSorted x (insertSorted y s) = insertSorted y (insertSorted x s) := by
  have hd : x.1.data ≠ y.1.data := fun h => hxy (by
    cases hx : x.1 with
    | mk d1 =>
      cases hy : y.1 with
      | mk d2 =>
        rw [hx, hy] at h
        simp at h
        rw [h])
  intro s
  induction s with
  | nil =>
    rcases charListLt_connex x.1.data y.1.data hd with hlt | hlt
    · have hba := charListLt_asymm _ _ hlt
      simp [insertSorted, hlt, hba]
    · have hba := charListLt_asymm _ _ hlt
      simp [insertSorted, hlt, hba]
  | cons f rest ih =>
    by_cases hfy : charListLt f.1.data y.1.data = true
    · by_cases hfx : charListLt f.1.data x.1.data = true
      · simp [insertSorted, hfy, hfx, ih]
      · have hxy2 : charListLt x.1.data y.1.data = true := by
          rcases charListLt_connex x.1.data y.1.data hd with h3 | h3
          · exact h3
          · exact absurd (charListLt_trans _ _ _ hfy h3) hfx
        simp [insertSorted, hfy, hfx, hxy2]
    · by_cases hfx : charListLt f.1.data x.1.data = true
      · have hyx2 : charListLt y.1.data x.1.data = true := by
          rcases charListLt_connex x.1.data y.1.data hd with h3 | h3
          · exact absurd (charListLt_trans _ _ _ hfx h3) hfy
          · exact h3
        simp [insertSorted, hfy, hfx, hyx2]
      · rcases charListLt_connex x.1.data y.1.data hd with hlt | hlt
        · have hba := charListLt_asymm _ _ hlt
          simp [insertSorted, hfy, hfx, hlt, hba]
        · have hba := charListLt_asymm _ _ hlt
          simp [insertSorted, hfy, hfx, hlt, hba]

/-- Insertion sort by key is invariant under permutation of a
duplicate-free input: the serialization order is canonical. -/
theorem sortByKey_perm_invariant {l1 l2 : List (String × String)}
    (hp : l1.Perm l2) : (l1.map Prod.fst).Nodup → sortByKey l1 = sortByKey l2 := by
  induction hp with
  | nil => intro _; rfl
  | cons x tlp ih =>
    intro hnd
    show insertSorted x (sortByKey _) = insertSorted x (sortByKey _)
    rw [ih (by
      simp only [List.map_cons, List.nodup_cons] at hnd
      exact hnd.2)]
  | swap x y l =>
    intro hnd
    show insertSorted y (insertSorted x (sortByKey l)) =
      insertSorted x (insertSorted y (sortByKey l))
    have hne : y.1 ≠ x.1 := by
      simp only [List.map_cons, List.nodup_cons, List.mem_cons] at hnd
      exact fun h => hnd.1 (Or.inl h)
    exact insertSorted_comm y x hne _
  | trans p1 p2 ih1 ih2 =>
    intro hnd
    exact (ih1 hnd).trans (ih2 ((p1.map Prod.fst).nodup_iff.mp hnd))

/-- The hash basis is order-independent over duplicate-free records. -/
theorem jsonDumpsSorted_perm {r1 r2 : Row} (hp : r1.Perm r2)
    (hnd : (r1.map Prod.fst).Nodup) : jsonDumpsSorted r1 = jsonDumpsSorted r2 := by
  unfold jsonDumpsSorted
  rw [sortByKey_perm_invariant hp hnd]

/-- The truncated digest always has exactly 8 characters. -/
theorem sha1hex8_length (s : String) : (sha1hex8 s).data.length = 8 := by
  unfold sha1hex8 strTake sha1Hex
  simp [toHex8, String.data_append]

set_option maxRecDepth 100000 in
/-- Counterexample to C7: for the record with the single field
`Nom = X284`, the 8-character sorted-key digest is `04243474` — all
digits, with a leading zero — and the hash fallback composes
`P-4243474`: the digest is re-parsed as an integer and loses its
leading zero, so the composed identity is not the prefix joined to the
8-character digest. -/
theorem claim_C7_counterexample :
    sha1hex8 (jsonDumpsSorted [("Nom", "X284")]) = "04243474"
    ∧ (composeId [("Nom", "X284")] ⟨"", "id_mslist", "P", 3, "hash", false⟩
        "" 1).1 = some "P-4243474"
    ∧ some "P-4243474" ≠
      some (mkIdPfx "P" ++ "-" ++ sha1hex8 (jsonDumpsSorted [("Nom", "X284")])) := by
  refine ⟨by decide, by decide, by decide⟩

/-- Claim C7 (amended): under the hash fallback (source id non-numeric)
the composed identity is `format_composed_id` applied to the prefix,
the 8-character sorted-key digest of the full record, and the pad
width (so an all-digit digest is re-formatted as an integer rather
than kept literally); the composition leaves the sequence counter
unchanged, yields the same identity for every counter value, and the
digest basis is order-independent for duplicate-free records. -/
theorem claim_C7_amended (row : Row) (args : Args) (src : String) (seq : Nat)
    (hfb : args.id_fallback = "hash") (hdig : pyIsDigitS src = false) :
    composeId row args src seq =
      (some (format_composed_id args.idPfx (sha1hex8 (jsonDumpsSorted row))
        args.id_pad), seq, false)
    ∧ (sha1hex8 (jsonDumpsSorted row)).data.length = 8
    ∧ (∀ seq2, (composeId row args src seq2).1 = (composeId row args src seq).1)
    ∧ (∀ row2, row.Perm row2 → (row.map Prod.fst).Nodup →
        (composeId row2 args src seq).1 = (composeId row args src seq).1) := by
  have hstep : ∀ (r : Row) (s2 : Nat), composeId r args src s2 =
      (some (format_composed_id args.idPfx (sha1hex8 (jsonDumpsSorted r))
        args.id_pad), s2, false) := by
    intro r s2
    unfold composeId
    rw [if_neg (by simp [hdig]), if_neg (by rw [hfb]; decide), if_pos hfb]
  refine ⟨hstep row seq, sha1hex8_length _, ?_, ?_⟩
  · intro s2
    rw [hstep row s2, hstep row seq]
  · intro r2 hp hnd
    rw [hstep r2 seq, hstep row seq, ← jsonDumpsSorted_perm hp hnd]

/-- Witness for C7 (amended) at a concrete two-field record with a
non-numeric source id. -/
theorem claim_C7_witness :
    (⟨"", "id_mslist", "P", 3, "hash", false⟩ : Args).id_fallback = "hash"
    ∧ pyIsDigitS "x" = false
    ∧ (composeId [("b", "2"), ("a", "1")]
        ⟨"", "id_mslist", "P", 3, "hash", false⟩ "x" 5 =
        (some (format_composed_id "P"
          (sha1hex8 (jsonDumpsSorted [("b", "2"), ("a", "1")])) 3), 5, false)
      ∧ (sha1hex8 (jsonDumpsSorted [("b", "2"), ("a", "1")])).data.length = 8
      ∧ (∀ seq2, (composeId [("b", "2"), ("a", "1")]
          ⟨"", "id_mslist", "P", 3, "hash", false⟩ "x" seq2).1 =
          (composeId [("b", "2"), ("a", "1")]
            ⟨"", "id_mslist", "P", 3, "hash", false⟩ "x" 5).1)
      ∧ (∀ row2, List.Perm [("b", "2"), ("a", "1")] row2 →
          (([("b", "2"), ("a", "1")] : Row).map Prod.fst).Nodup →
          (composeId row2 ⟨"", "id_mslist", "P", 3, "hash", false⟩ "x" 5).1 =
          (composeId [("b", "2"), ("a", "1")]
            ⟨"", "id_mslist", "P", 3, "hash", false⟩ "x" 5).1)) :=
  ⟨rfl, by decide,
    claim_C7_amended [("b", "2"), ("a", "1")]
      ⟨"", "id_mslist", "P", 3, "hash", false⟩ "x" 5 rfl (by decide)⟩

/-! ## Digit-string identity composition -/

theorem digit_not_pyWs {c : Char} (h : c.isDigit = true) : pyWs c = false := by
  cases hw : pyWs c
  · rfl
  · exfalso
    rw [pyWsChars_not_digit c (mem_pyWsChars_of_ws hw)] at h
    exact absurd h (by simp)

theorem duAux_digits : ∀ cs : List Char, (∀ c ∈ cs, c.isDigit = true) →
    duAux cs = true := by
  intro cs
  induction cs with
  | nil => intro _; rfl
  | cons c rest ih =>
    intro h
    have hc : c.isDigit = true := h c (List.mem_cons_self c rest)
    have hcu : ¬ c = '_' := by
      intro he; rw [he] at hc; exact absurd hc (by decide)
    rw [duAux.eq_def]
    split
    · rfl
    next c2 rest2 heq =>
      exact absurd (List.cons_eq_cons.mp heq).1 hcu
    next heq =>
      exact absurd (List.cons_eq_cons.mp heq).1 hcu
    next c3 rest3 h1 h2 heq =>
      obtain ⟨he1, he2⟩ := List.cons_eq_cons.mp heq
      subst he1; subst he2
      rw [hc, ih (fun x hx => h x (List.mem_cons_of_mem c hx))]
      rfl

theorem pyStrip_digits (s : String) (h : ∀ c ∈ s.data, c.isDigit = true) :
    pyStrip s = s := by
  unfold pyStrip
  rw [stripCore_eq_self pyWs s.data
    (fun c hc => digit_not_pyWs (h c (mem_of_head? hc)))
    (fun c hc => digit_not_pyWs (h c (mem_of_getLast? hc)))]

theorem digits_filter_underscore (cs : List Char)
    (h : ∀ c ∈ cs, c.isDigit = true) :
    cs.filter (fun c => !(c = '_')) = cs := by
  apply List.filter_eq_self.mpr
  intro c hc
  have hd := h c hc
  by_cases he : c = '_'
  · rw [he] at hd; exact absurd hd (by decide)
  · simp [he]

theorem pyIntParse_digits (s : String) (hne : s.data ≠ [])
    (h : ∀ c ∈ s.data, c.isDigit = true) :
    pyIntParse s = some (Int.ofNat (digitsToNat s.data)) := by
  cases hsd : s.data with
  | nil => exact absurd hsd hne
  | cons c rest =>
    have hc : c.isDigit = true := h c (by rw [hsd]; exact List.mem_cons_self c rest)
    have hrest : ∀ x ∈ rest, x.isDigit = true := fun x hx =>
      h x (by rw [hsd]; exact List.mem_cons_of_mem c hx)
    have hcp : ¬ c = '+' := fun he => by rw [he] at hc; exact absurd hc (by decide)
    have hcm : ¬ c = '-' := fun he => by rw [he] at hc; exact absurd hc (by decide)
    have hdu : digitsUnderscore (c :: rest) = true := by
      show (c.isDigit && duAux rest) = true
      rw [hc, duAux_digits rest hrest]
      rfl
    unfold pyIntParse
    simp only [pyStrip_digits s h, hsd]
    split
    next rest2 heq =>
      exact absurd (List.cons_eq_cons.mp heq).1 hcp
    next rest2 heq =>
      exact absurd (List.cons_eq_cons.mp heq).1 hcm
    next cs2 h1 h2 =>
      rw [hdu, if_pos rfl,
        digits_filter_underscore (c :: rest) (fun x hx => by
          rcases List.mem_cons.mp hx with h3 | h3
          · rw [h3]; exact hc
          · exact hrest x h3)]

/-- On an all-digit raw id with a non-empty sanitized prefix, identity
composition yields the prefix, a dash, and the id value zero-padded to
the pad width. -/
theorem format_composed_digits (raw pfx : String) (pad : Nat)
    (hd : pyIsDigitS raw = true) (hp : mkIdPfx pfx ≠ "") :
    format_composed_id pfx raw pad =
      mkIdPfx pfx ++ "-" ++ zeroPad pad (toString (digitsToNat raw.data)) := by
  have h2 := (Bool.and_eq_true _ _).mp hd
  have hall : ∀ c ∈ raw.data, c.isDigit = true := by
    have h3 := h2.2
    simpa [List.all_eq_true] using h3
  have hdata : raw.data ≠ [] := by
    have h3 := h2.1
    simp only [Bool.not_eq_eq_eq_not, Bool.not_false] at h3
    intro he
    rw [he] at h3
    simp at h3
  have hne : ¬ raw = "" := by
    intro he
    rw [he] at hd
    exact absurd hd (by decide)
  have hfmt : formatIntPad (Int.ofNat (digitsToNat raw.data)) pad =
      zeroPad pad (toString (digitsToNat raw.data)) := by
    unfold formatIntPad
    rw [if_neg (show ¬ Int.ofNat (digitsToNat raw.data) < 0 from
      not_lt.mpr (Int.ofNat_nonneg _))]
    rfl
  unfold format_composed_id
  simp only [pyStrip_digits raw hall]
  rw [if_neg hne, pyIntParse_digits raw hdata hall]
  dsimp only
  rw [if_pos hp, hfmt]

set_option maxRecDepth 100000 in
/-- Claim C6: for every all-digit raw id, composition with a prefix
whose sanitized form is non-empty gives the sanitized uppercase prefix,
a dash, and the id zero-padded to the pad width; and in Scenario A —
empty store, one record with source identity 7, prefix SCO, pad 3 —
the run creates exactly one document whose identity field is SCO-007. -/
theorem claim_C6 :
    (∀ (raw pfx : String) (pad : Nat), pyIsDigitS raw = true →
      mkIdPfx pfx ≠ "" →
      format_composed_id pfx raw pad =
        mkIdPfx pfx ++ "-" ++ zeroPad pad (toString (digitsToNat raw.data)))
    ∧ (let st := runPipeline [[("Nom", "Durand"), ("id_mslist", "7")]] emptyCfg
        ⟨"", "id_mslist", "SCO", 3, "seq", false⟩ [] "2024-01-01T00:00:00Z"
       st.created = 1 ∧ st.store.length = 1 ∧
       st.store.map (fun d => dictGet? (read_frontmatter d.2).1 "id_mslist") =
         [some (Val.s "SCO-007")]) :=
  ⟨fun raw pfx pad hd hp => format_composed_digits raw pfx pad hd hp, by decide⟩

/-- Witness for C6's universal part at raw id 7, prefix SCO, pad 3. -/
theorem claim_C6_witness :
    pyIsDigitS "7" = true ∧ mkIdPfx "SCO" ≠ "" ∧
      format_composed_id "SCO" "7" 3 =
        mkIdPfx "SCO" ++ "-" ++ zeroPad 3 (toString (digitsToNat "7".data)) :=
  ⟨by decide, by decide, claim_C6.1 "7" "SCO" 3 (by decide) (by decide)⟩

/-! ## Further dictionary and merge lemmas -/

theorem dictGet?_append_left {α : Type} (A B : List (String × α)) (k : String)
    (v : α) (h : dictGet? A k = some v) : dictGet? (A ++ B) k = some v := by
  induction A with
  | nil => simp [dictGet?] at h
  | cons e tl ih =>
    simp only [dictGet?] at h ⊢
    by_cases he : e.1 = k
    · rw [if_pos he] at h ⊢; exact h
    · rw [if_neg he] at h ⊢; exact ih h

theorem dictGet?_middle {α : Type} (A B : List (String × α)) (m : String)
    (x : α) (k : String) (hk : k ≠ m) :
    dictGet? (A ++ (m, x) :: B) k = dictGet? (A ++ B) k := by
  induction A with
  | nil =>
    simp only [List.nil_append, dictGet?]
    rw [if_neg (fun h => hk h.symm)]
  | cons e tl ih =>
    simp only [List.cons_append, dictGet?]
    by_cases he : e.1 = k
    · rw [if_pos he, if_pos he]
    · rw [if_neg he, if_neg he]; exact ih

theorem dictHas_congr_keys {α β : Type} (A : List (String × α))
    (B : List (String × β)) (h : A.map Prod.fst = B.map Prod.fst) (k : String) :
    dictHas A k = dictHas B k := by
  induction A generalizing B with
  | nil =>
    cases B with
    | nil => rfl
    | cons f tlB => simp at h
  | cons e tlA ih =>
    cases B with
    | nil => simp at h
    | cons f tlB =>
      simp only [List.map_cons, List.cons_eq_cons] at h
      simp only [dictHas, h.1, ih tlB h.2]

theorem dictInsert_append_of_has {α : Type} (A B : List (String × α))
    (k : String) (v : α) (h : dictHas A k = true) :
    dictInsert (A ++ B) k v = dictInsert A k v ++ B := by
  induction A with
  | nil => simp [dictHas] at h
  | cons e tl ih =>
    simp only [List.cons_append, dictInsert]
    by_cases he : e.1 = k
    · rw [if_pos he, if_pos he]; rfl
    · rw [if_neg he, if_neg he]
      simp only [dictHas, Bool.or_eq_true] at h
      rcases h with h1 | h1
      · exact absurd (by exact of_decide_eq_true h1) he
      · simp only [List.append_eq]
        rw [ih h1]
        rfl

theorem dictInsert_keys_of_has {α : Type} (A : List (String × α))
    (k : String) (v : α) (h : dictHas A k = true) :
    (dictInsert A k v).map Prod.fst = A.map Prod.fst := by
  induction A with
  | nil => simp [dictHas] at h
  | cons e tl ih =>
    simp only [dictInsert]
    by_cases he : e.1 = k
    · rw [if_pos he]
      simp only [List.map_cons]
      rw [he]
    · rw [if_neg he]
      simp only [dictHas, Bool.or_eq_true] at h
      rcases h with h1 | h1
      · exact absurd (by exact of_decide_eq_true h1) he
      · simp only [List.map_cons, ih h1]

theorem dictHas_of_get {α : Type} (A : List (String × α)) (k : String) (v : α)
    (h : dictGet? A k = some v) : dictHas A k = true := by
  induction A with
  | nil => simp [dictGet?] at h
  | cons e tl ih =>
    simp only [dictGet?] at h
    simp only [dictHas, Bool.or_eq_true]
    by_cases he : e.1 = k
    · left; exact decide_eq_true he
    · rw [if_neg he] at h; right; exact ih h

/-- Every merged value at a key comes either from the existing metadata
or from the incoming metadata (incoming keys duplicate-free). -/
theorem mergeFold_cases (existing : Fm) (pk ok : List String) (k : String) :
    ∀ (nd : Fm) (acc : Fm), (nd.map Prod.fst).Nodup →
      dictGet? acc k = dictGet? existing k →
      (dictGet? (nd.foldl (mergeStep existing pk ok) acc) k = dictGet? existing k
       ∨ dictGet? (nd.foldl (mergeStep existing pk ok) acc) k = dictGet? nd k) := by
  intro nd
  induction nd with
  | nil =>
    intro acc _ hacc
    left
    rwa [List.foldl_nil]
  | cons e tl ih =>
    intro acc hnd hacc
    simp only [List.map_cons, List.nodup_cons] at hnd
    simp only [List.foldl_cons]
    by_cases hek : e.1 = k
    · have htlk : ∀ x ∈ tl, x.1 ≠ k := by
        intro x hx he2
        exact hnd.1 (by rw [hek, ← he2]; exact List.mem_map_of_mem Prod.fst hx)
      rw [mergeFold_get_of_no_key existing pk ok tl k _ htlk]
      unfold mergeStep
      by_cases h1 : (pk.contains e.1 && dictHas existing e.1) = true
      · rw [if_pos h1]; left; exact hacc
      · rw [if_neg h1]
        by_cases h2 : (ok.contains e.1 || !dictHas existing e.1
            || is_empty_opt (dictGet? existing e.1)) = true
        · rw [if_pos h2]
          right
          rw [hek, dictGet?_insert_self]
          simp only [dictGet?]
          rw [if_pos hek]
        · rw [if_neg h2]; left; exact hacc
    · have step_eq : dictGet? (mergeStep existing pk ok acc e) k =
          dictGet? acc k := by
        unfold mergeStep
        split
        · rfl
        · split
          · exact dictGet?_insert_ne acc e.2 hek
          · rfl
      rcases ih (mergeStep existing pk ok acc e) hnd.2 (step_eq.trans hacc)
        with h3 | h3
      · left; exact h3
      · right
        rw [h3]
        simp only [dictGet?]
        rw [if_neg hek]

/-- `merge_get_cases` at the top level. -/
theorem merge_get_cases (existing nd : Fm) (pk ok : List String) (k : String)
    (hnd : (nd.map Prod.fst).Nodup) :
    dictGet? (merge_frontmatter existing nd pk ok) k = dictGet? existing k
    ∨ dictGet? (merge_frontmatter existing nd pk ok) k = dictGet? nd k :=
  mergeFold_cases existing pk ok k nd existing hnd rfl

/-! ## Structural decomposition of build_frontmatter -/

theorem dictGet_isSome_of_has {α : Type} (A : List (String × α)) (k : String)
    (h : dictHas A k = true) : ∃ v, dictGet? A k = some v := by
  induction A with
  | nil => simp [dictHas] at h
  | cons e tl ih =>
    simp only [dictHas, Bool.or_eq_true] at h
    simp only [dictGet?]
    by_cases he : e.1 = k
    · exact ⟨e.2, by rw [if_pos he]⟩
    · rw [if_neg he]
      rcases h with h1 | h1
      · exact absurd (by exact of_decide_eq_true h1) he
      · exact ih h1

/-- The phone transform on a metadata list ending in the
`source_updated` entry acts only on the prefix, uniformly in the
timestamp. -/
theorem bfPhone_shape (P : Fm) (key : String)
    (hhas : dictHas P key = true) :
    ∃ P2 : Fm,
      (∀ n, bfPhone (P ++ [("source_updated", Val.s n)]) key =
        P2 ++ [("source_updated", Val.s n)])
      ∧ P2.map Prod.fst = P.map Prod.fst
      ∧ (∀ k2, k2 ≠ key → dictGet? P2 k2 = dictGet? P k2) := by
  obtain ⟨v, hv⟩ := dictGet_isSome_of_has P key hhas
  by_cases htru : valTruthy v = true
  · refine ⟨dictInsert P key (.s (normalize_phone (valPyStr v))), ?_, ?_, ?_⟩
    · intro n
      unfold bfPhone
      rw [dictGet?_append_left P _ key v hv]
      dsimp only
      rw [if_pos htru]
      exact dictInsert_append_of_has P _ key _ hhas
    · exact dictInsert_keys_of_has P key _ hhas
    · intro k2 hk2
      exact dictGet?_insert_ne P _ (fun h => hk2 h.symm)
  · refine ⟨P, ?_, rfl, fun k2 _ => rfl⟩
    intro n
    unfold bfPhone
    rw [dictGet?_append_left P _ key v hv]
    dsimp only
    rw [if_neg htru]

/-- The remaining-keys fold appends a suffix that depends only on the
keys of the accumulator. -/
theorem bfStep_delta (c : Fm) : ∀ acc : Fm, ∃ d : Fm,
    c.foldl bfStep acc = acc ++ d
    ∧ ∀ acc2 : Fm, acc2.map Prod.fst = acc.map Prod.fst →
        c.foldl bfStep acc2 = acc2 ++ d := by
  induction c with
  | nil =>
    intro acc
    exact ⟨[], by simp, fun acc2 _ => by simp⟩
  | cons e tl ih =>
    intro acc
    simp only [List.foldl_cons]
    by_cases h1 : e.1 = "src_id_mslist"
    · obtain ⟨d, hd1, hd2⟩ := ih acc
      have hs : ∀ a : Fm, bfStep a e = a := by
        intro a; unfold bfStep; rw [if_pos h1]
      refine ⟨d, by rw [hs acc]; exact hd1, fun acc2 hk => by
        rw [hs acc2]; exact hd2 acc2 hk⟩
    · by_cases h2 : ((e.1 = "email" || e.1 = "telephone") &&
          !(valTruthy e.2 && pyStrip (valPyStr e.2) ≠ "")) = true
      · obtain ⟨d, hd1, hd2⟩ := ih acc
        have hs : ∀ a : Fm, bfStep a e = a := by
          intro a; unfold bfStep; rw [if_neg h1, if_pos h2]
        refine ⟨d, by rw [hs acc]; exact hd1, fun acc2 hk => by
          rw [hs acc2]; exact hd2 acc2 hk⟩
      · by_cases h3 : dictHas acc e.1 = true
        · obtain ⟨d, hd1, hd2⟩ := ih acc
          have hs : bfStep acc e = acc := by
            unfold bfStep; rw [if_neg h1, if_neg h2, if_pos h3]
          refine ⟨d, by rw [hs]; exact hd1, fun acc2 hk => by
            have hs2 : bfStep acc2 e = acc2 := by
              unfold bfStep
              rw [if_neg h1, if_neg h2,
                if_pos (by rw [dictHas_congr_keys acc2 acc hk]; exact h3)]
            rw [hs2]; exact hd2 acc2 hk⟩
        · obtain ⟨d, hd1, hd2⟩ := ih (acc ++ [e])
          have hs : bfStep acc e = acc ++ [e] := by
            unfold bfStep
            rw [if_neg h1, if_neg h2, if_neg h3,
              dictInsert_not_has acc e.1 e.2 (by
                cases hd : dictHas acc e.1
                · rfl
                · exact absurd hd h3)]
          refine ⟨e :: d, ?_, ?_⟩
          · rw [hs, hd1, List.append_assoc]
            rfl
          · intro acc2 hk
            have hs2 : bfStep acc2 e = acc2 ++ [e] := by
              unfold bfStep
              have h32 : dictHas acc2 e.1 = false := by
                rw [dictHas_congr_keys acc2 acc hk]
                cases hd : dictHas acc e.1
                · rfl
                · exact absurd hd h3
              rw [if_neg h1, if_neg h2, if_neg (by rw [h32]; simp),
                dictInsert_not_has acc2 e.1 e.2 h32]
            rw [hs2, hd2 (acc2 ++ [e]) (by
              simp only [List.map_append, hk]), List.append_assoc]
            rfl

/-- `build_frontmatter` splits as a prefix, the `source_updated` entry,
and a suffix, with prefix and suffix independent of the timestamp; the
prefix carries the ten fixed keys and its `id_mslist` value is the
contact's. -/
theorem build_frontmatter_shape (c : Fm) (cfg : Cfg) :
    ∃ A B : Fm,
      (∀ n, build_frontmatter c cfg n = A ++ ("source_updated", Val.s n) :: B)
      ∧ A.map Prod.fst = ["Nom", "Prénom", "Tel_Mobile", "Tel_Fixe",
          "Mail_Pro", "Mail_Perso", "organisation", "id_mslist", "groupes",
          "type"]
      ∧ dictGet? A "id_mslist" =
          some ((dictGet? c "id_mslist").getD (Val.s "")) := by
  by_cases htr :
      ((dictGet? (cfg.transforms.getD []) "normalize_phone_fr").getD false) = true
  · have hhasTM : dictHas
        ([("Nom", (dictGet? c "Nom").getD (Val.s "")),
          ("Prénom", (dictGet? c "Prénom").getD (Val.s "")),
          ("Tel_Mobile", (dictGet? c "Tel_Mobile").getD (Val.s "")),
          ("Tel_Fixe", (dictGet? c "Tel_Fixe").getD (Val.s "")),
          ("Mail_Pro", (dictGet? c "Mail_Pro").getD (Val.s "")),
          ("Mail_Perso", (dictGet? c "Mail_Perso").getD (Val.s "")),
          ("organisation", (dictGet? c "organisation").getD (Val.s "")),
          ("id_mslist", (dictGet? c "id_mslist").getD (Val.s "")),
          ("groupes", (dictGet? c "groupes").getD (Val.l [])),
          ("type", (dictGet? c "type").getD (Val.s "contact"))] : Fm)
        "Tel_Mobile" = true := by simp [dictHas]
    obtain ⟨P1, hP1eq, hP1keys, hP1get⟩ := bfPhone_shape _ "Tel_Mobile" hhasTM
    have hhasTF : dictHas P1 "Tel_Fixe" = true := by
      rw [dictHas_congr_keys P1 _ hP1keys]
      · rfl
    obtain ⟨P2, hP2eq, hP2keys, hP2get⟩ := bfPhone_shape P1 "Tel_Fixe" hhasTF
    obtain ⟨d, hd1, hd2⟩ :=
      bfStep_delta c (P2 ++ [("source_updated", Val.s "")])
    refine ⟨P2, d, ?_, ?_, ?_⟩
    · intro n
      simp only [build_frontmatter]
      rw [if_pos htr]
      rw [show ([("Nom", (dictGet? c "Nom").getD (Val.s "")),
          ("Prénom", (dictGet? c "Prénom").getD (Val.s "")),
          ("Tel_Mobile", (dictGet? c "Tel_Mobile").getD (Val.s "")),
          ("Tel_Fixe", (dictGet? c "Tel_Fixe").getD (Val.s "")),
          ("Mail_Pro", (dictGet? c "Mail_Pro").getD (Val.s "")),
          ("Mail_Perso", (dictGet? c "Mail_Perso").getD (Val.s "")),
          ("organisation", (dictGet? c "organisation").getD (Val.s "")),
          ("id_mslist", (dictGet? c "id_mslist").getD (Val.s "")),
          ("groupes", (dictGet? c "groupes").getD (Val.l [])),
          ("type", (dictGet? c "type").getD (Val.s "contact")),
          ("source_updated", Val.s n)] : Fm) =
        [("Nom", (dictGet? c "Nom").getD (Val.s "")),
          ("Prénom", (dictGet? c "Prénom").getD (Val.s "")),
          ("Tel_Mobile", (dictGet? c "Tel_Mobile").getD (Val.s "")),
          ("Tel_Fixe", (dictGet? c "Tel_Fixe").getD (Val.s "")),
          ("Mail_Pro", (dictGet? c "Mail_Pro").getD (Val.s "")),
          ("Mail_Perso", (dictGet? c "Mail_Perso").getD (Val.s "")),
          ("organisation", (dictGet? c "organisation").getD (Val.s "")),
          ("id_mslist", (dictGet? c "id_mslist").getD (Val.s "")),
          ("groupes", (dictGet? c "groupes").getD (Val.l [])),
          ("type", (dictGet? c "type").getD (Val.s "contact"))] ++
          [("source_updated", Val.s n)] from rfl]
      rw [hP1eq n, hP2eq n, hd2 (P2 ++ [("source_updated", Val.s n)]) (by
        simp only [List.map_append]; rfl), List.append_assoc]
      rfl
    · rw [hP2keys, hP1keys]
      rfl
    · rw [hP2get "id_mslist" (by decide), hP1get "id_mslist" (by decide)]
      simp [dictGet?]
  · obtain ⟨d, hd1, hd2⟩ := bfStep_delta c
      ([("Nom", (dictGet? c "Nom").getD (Val.s "")),
        ("Prénom", (dictGet? c "Prénom").getD (Val.s "")),
        ("Tel_Mobile", (dictGet? c "Tel_Mobile").getD (Val.s "")),
        ("Tel_Fixe", (dictGet? c "Tel_Fixe").getD (Val.s "")),
        ("Mail_Pro", (dictGet? c "Mail_Pro").getD (Val.s "")),
        ("Mail_Perso", (dictGet? c "Mail_Perso").getD (Val.s "")),
        ("organisation", (dictGet? c "organisation").getD (Val.s "")),
        ("id_mslist", (dictGet? c "id_mslist").getD (Val.s "")),
        ("groupes", (dictGet? c "groupes").getD (Val.l [])),
        ("type", (dictGet? c "type").getD (Val.s "contact"))] ++
        [("source_updated", Val.s "")])
    refine ⟨[("Nom", (dictGet? c "Nom").getD (Val.s "")),
      ("Prénom", (dictGet? c "Prénom").getD (Val.s "")),
      ("Tel_Mobile", (dictGet? c "Tel_Mobile").getD (Val.s "")),
      ("Tel_Fixe", (dictGet? c "Tel_Fixe").getD (Val.s "")),
      ("Mail_Pro", (dictGet? c "Mail_Pro").getD (Val.s "")),
      ("Mail_Perso", (dictGet? c "Mail_Perso").getD (Val.s "")),
      ("organisation", (dictGet? c "organisation").getD (Val.s "")),
      ("id_mslist", (dictGet? c "id_mslist").getD (Val.s "")),
      ("groupes", (dictGet? c "groupes").getD (Val.l [])),
      ("type", (dictGet? c "type").getD (Val.s "contact"))], d, ?_, ?_, ?_⟩
    · intro n
      simp only [build_frontmatter]
      rw [if_neg htr]
      rw [show ([("Nom", (dictGet? c "Nom").getD (Val.s "")),
          ("Prénom", (dictGet? c "Prénom").getD (Val.s "")),
          ("Tel_Mobile", (dictGet? c "Tel_Mobile").getD (Val.s "")),
          ("Tel_Fixe", (dictGet? c "Tel_Fixe").getD (Val.s "")),
          ("Mail_Pro", (dictGet? c "Mail_Pro").getD (Val.s "")),
          ("Mail_Perso", (dictGet? c "Mail_Perso").getD (Val.s "")),
          ("organisation", (dictGet? c "organisation").getD (Val.s "")),
          ("id_mslist", (dictGet? c "id_mslist").getD (Val.s "")),
          ("groupes", (dictGet? c "groupes").getD (Val.l [])),
          ("type", (dictGet? c "type").getD (Val.s "contact")),
          ("source_updated", Val.s n)] : Fm) =
        [("Nom", (dictGet? c "Nom").getD (Val.s "")),
          ("Prénom", (dictGet? c "Prénom").getD (Val.s "")),
          ("Tel_Mobile", (dictGet? c "Tel_Mobile").getD (Val.s "")),
          ("Tel_Fixe", (dictGet? c "Tel_Fixe").getD (Val.s "")),
          ("Mail_Pro", (dictGet? c "Mail_Pro").getD (Val.s "")),
          ("Mail_Perso", (dictGet? c "Mail_Perso").getD (Val.s "")),
          ("organisation", (dictGet? c "organisation").getD (Val.s "")),
          ("id_mslist", (dictGet? c "id_mslist").getD (Val.s "")),
          ("groupes", (dictGet? c "groupes").getD (Val.l [])),
          ("type", (dictGet? c "type").getD (Val.s "contact"))] ++
          [("source_updated", Val.s n)] from rfl]
      rw [hd2 _ (by simp only [List.map_append]; rfl), List.append_assoc]
      rfl
    · rfl
    · simp [dictGet?]

/-- Off the timestamp key, `build_frontmatter` is independent of the
timestamp. -/
theorem build_frontmatter_get_ne_su (c : Fm) (cfg : Cfg) (n1 n2 : String)
    (k : String) (hk : k ≠ "source_updated") :
    dictGet? (build_frontmatter c cfg n1) k =
      dictGet? (build_frontmatter c cfg n2) k := by
  obtain ⟨A, B, heq, _, _⟩ := build_frontmatter_shape c cfg
  rw [heq n1, heq n2, dictGet?_middle A B _ _ k hk, dictGet?_middle A B _ _ k hk]

/-- The identity field of the built metadata is the contact's. -/
theorem build_frontmatter_get_id (c : Fm) (cfg : Cfg) (n : String) :
    dictGet? (build_frontmatter c cfg n) "id_mslist" =
      some ((dictGet? c "id_mslist").getD (Val.s "")) := by
  obtain ⟨A, B, heq, _, hid⟩ := build_frontmatter_shape c cfg
  rw [heq n]
  exact dictGet?_append_left A _ _ _ hid

/-- The key list of the built metadata is independent of the
timestamp. -/
theorem build_frontmatter_keys_eq (c : Fm) (cfg : Cfg) (n1 n2 : String) :
    (build_frontmatter c cfg n1).map Prod.fst =
      (build_frontmatter c cfg n2).map Prod.fst := by
  obtain ⟨A, B, heq, _, _⟩ := build_frontmatter_shape c cfg
  rw [heq n1, heq n2]
  simp [List.map_append]

theorem nl_append_ne (b : String) : ("\n" ++ b) ≠ "" := by
  intro h
  have h2 := congrArg String.data h
  rw [String.data_append] at h2
  simp at h2

set_option maxRecDepth 100000 in
/-- Counterexample to C2: a record with a required field present but no
indexable identity and no email matches nothing on re-runs; every run
creates a fresh document, so the document count grows from the second
to the third run. -/
theorem claim_C2_counterexample :
    let args : Args := ⟨"", "id_mslist", "", 3, "seq", false⟩
    let rows : List Row := [[("Nom", "X")]]
    let st1 := runPipeline rows emptyCfg args [] "T1"
    let st2 := runPipeline rows emptyCfg args st1.store "T2"
    let st3 := runPipeline rows emptyCfg args st2.store "T3"
    st1.store.length = 1 ∧ st2.store.length = 2 ∧ st3.store.length = 3 := by
  decide

/-- Evaluation of `process_contact_row` for a non-skipped record whose
final contact carries a truthy, strip-invariant identity value: the
result is decided by the store lookup at the matched target. -/
theorem pcr_c2 (row : Row) (cfg : Cfg) (args : Args)
    (byId byEmail : List (String × String)) (store : Store) (now : String)
    (v0 : Val)
    (hkey : args.id_key = "id_mslist")
    (hreq : ((cfg.required_fields.getD ["Nom", "Prénom", "Tel_Mobile",
        "Tel_Fixe", "Mail_Pro", "Mail_Perso", "organisation"]).any
      (fun k => reqTruthy (dictGet? (build_contact row cfg args.project) k)))
      = true)
    (hskip : (composeStep row cfg args 1).2.2 = false)
    (hv : dictGet? (contactFinal row cfg args 1) "id_mslist" = some v0)
    (htru : valTruthy v0 = true)
    (hstr : pyStrip (valPyStr v0) = valPyStr v0) :
    process_contact_row row cfg args byId byEmail store 1 now =
      match dictGet? store (matchTarget (valPyStr v0)
          (choose_primary_email_lower (contactFinal row cfg args 1)) byId byEmail
          store (sanitize_filename (titleHuman (contactFinal row cfg args 1)))
          (sanitize_filename (titleHuman (contactFinal row cfg args 1)) ++ ".md"))
        with
      | some txt =>
        ⟨"UPDATED",
          some (matchTarget (valPyStr v0)
            (choose_primary_email_lower (contactFinal row cfg args 1)) byId
            byEmail store
            (sanitize_filename (titleHuman (contactFinal row cfg args 1)))
            (sanitize_filename (titleHuman (contactFinal row cfg args 1))
              ++ ".md")),
          some (dump_frontmatter (merge_frontmatter (read_frontmatter txt).1
              (build_frontmatter (contactFinal row cfg args 1) cfg now)
              (cfg.preserve_keys.getD DEFAULT_PRESERVE_KEYS)
              (DEFAULT_OVERWRITE_KEYS ++ cfg.overwrite_keys.getD [])) ++
            (if (read_frontmatter txt).2 ≠ "" then (read_frontmatter txt).2
             else "\n")),
          contactFinal row cfg args 1, (composeStep row cfg args 1).2.1⟩
      | none =>
        ⟨"CREATED",
          some (matchTarget (valPyStr v0)
            (choose_primary_email_lower (contactFinal row cfg args 1)) byId
            byEmail store
            (sanitize_filename (titleHuman (contactFinal row cfg args 1)))
            (sanitize_filename (titleHuman (contactFinal row cfg args 1))
              ++ ".md")),
          some (dump_frontmatter
            (build_frontmatter (contactFinal row cfg args 1) cfg now) ++ "\n"),
          contactFinal row cfg args 1, (composeStep row cfg args 1).2.1⟩ := by
  simp only [process_contact_row]
  rw [if_neg (by rw [hreq]; simp), if_neg (by rw [hskip]; simp)]
  rw [hkey, hv]
  simp only [orEmptyStr]
  rw [if_pos htru, hstr]

/-- Claim C2 (amended): for a single record whose final contact carries
a truthy, strip-invariant identity (matched via the default id key),
with round-trip-safe built and merged metadata: the first run on an
empty store creates one document; the second run updates that same
document in place (the store keeps one document); the third run leaves
the document count unchanged; and the merge of the second run changes
no key of the document except `source_updated`. -/
theorem claim_C2_amended (row : Row) (cfg : Cfg) (args : Args)
    (now1 now2 : String) (now3 : String) (v0 : Val)
    (hdry : args.dry_run = false)
    (hkey : args.id_key = "id_mslist")
    (hreq : ((cfg.required_fields.getD ["Nom", "Prénom", "Tel_Mobile",
        "Tel_Fixe", "Mail_Pro", "Mail_Perso", "organisation"]).any
      (fun k => reqTruthy (dictGet? (build_contact row cfg args.project) k)))
      = true)
    (hskip : (composeStep row cfg args 1).2.2 = false)
    (hv : dictGet? (contactFinal row cfg args 1) "id_mslist" = some v0)
    (htru : valTruthy v0 = true)
    (hstr : pyStrip (valPyStr v0) = valPyStr v0)
    (hvne : valPyStr v0 ≠ "")
    (hsafe1 : safeMeta (build_frontmatter (contactFinal row cfg args 1) cfg
      now1) = true)
    (hnd1 : ((build_frontmatter (contactFinal row cfg args 1) cfg
      now1).map Prod.fst).Nodup)
    (hsafe2 : safeMeta (merge_frontmatter
      (build_frontmatter (contactFinal row cfg args 1) cfg now1)
      (build_frontmatter (contactFinal row cfg args 1) cfg now2)
      (cfg.preserve_keys.getD DEFAULT_PRESERVE_KEYS)
      (DEFAULT_OVERWRITE_KEYS ++ cfg.overwrite_keys.getD [])) = true)
    (hnd2 : ((merge_frontmatter
      (build_frontmatter (contactFinal row cfg args 1) cfg now1)
      (build_frontmatter (contactFinal row cfg args 1) cfg now2)
      (cfg.preserve_keys.getD DEFAULT_PRESERVE_KEYS)
      (DEFAULT_OVERWRITE_KEYS ++ cfg.overwrite_keys.getD [])).map
        Prod.fst).Nodup) :
    (runPipeline [row] cfg args [] now1).store =
      [(sanitize_filename (titleHuman (contactFinal row cfg args 1)) ++ ".md",
        dump_frontmatter (build_frontmatter (contactFinal row cfg args 1) cfg
          now1) ++ "\n")]
    ∧ (runPipeline [row] cfg args
        (runPipeline [row] cfg args [] now1).store now2).store =
      [(sanitize_filename (titleHuman (contactFinal row cfg args 1)) ++ ".md",
        dump_frontmatter (merge_frontmatter
          (build_frontmatter (contactFinal row cfg args 1) cfg now1)
          (build_frontmatter (contactFinal row cfg args 1) cfg now2)
          (cfg.preserve_keys.getD DEFAULT_PRESERVE_KEYS)
          (DEFAULT_OVERWRITE_KEYS ++ cfg.overwrite_keys.getD [])) ++ "\n\n")]
    ∧ (runPipeline [row] cfg args (runPipeline [row] cfg args
        (runPipeline [row] cfg args [] now1).store now2).store now3).store.length
      = (runPipeline [row] cfg args
        (runPipeline [row] cfg args [] now1).store now2).store.length
    ∧ (∀ k, k ≠ "source_updated" →
        dictGet? (merge_frontmatter
          (build_frontmatter (contactFinal row cfg args 1) cfg now1)
          (build_frontmatter (contactFinal row cfg args 1) cfg now2)
          (cfg.preserve_keys.getD DEFAULT_PRESERVE_KEYS)
          (DEFAULT_OVERWRITE_KEYS ++ cfg.overwrite_keys.getD [])) k =
        dictGet? (build_frontmatter (contactFinal row cfg args 1) cfg now1) k)
    := by
  have hoff : ∀ k, k ≠ "source_updated" →
      dictGet? (merge_frontmatter
        (build_frontmatter (contactFinal row cfg args 1) cfg now1)
        (build_frontmatter (contactFinal row cfg args 1) cfg now2)
        (cfg.preserve_keys.getD DEFAULT_PRESERVE_KEYS)
        (DEFAULT_OVERWRITE_KEYS ++ cfg.overwrite_keys.getD [])) k =
      dictGet? (build_frontmatter (contactFinal row cfg args 1) cfg now1) k := by
    intro k hk
    rcases merge_get_cases
        (build_frontmatter (contactFinal row cfg args 1) cfg now1)
        (build_frontmatter (contactFinal row cfg args 1) cfg now2)
        (cfg.preserve_keys.getD DEFAULT_PRESERVE_KEYS)
        (DEFAULT_OVERWRITE_KEYS ++ cfg.overwrite_keys.getD []) k
        (by rw [build_frontmatter_keys_eq _ cfg now2 now1]; exact hnd1)
      with h | h
    · exact h
    · rw [h]
      exact build_frontmatter_get_ne_su _ cfg now2 now1 k hk
  have hid1 : dictGet? (build_frontmatter (contactFinal row cfg args 1) cfg
      now1) "id_mslist" = some v0 := by
    rw [build_frontmatter_get_id, hv]
    rfl
  have hid2 : dictGet? (merge_frontmatter
      (build_frontmatter (contactFinal row cfg args 1) cfg now1)
      (build_frontmatter (contactFinal row cfg args 1) cfg now2)
      (cfg.preserve_keys.getD DEFAULT_PRESERVE_KEYS)
      (DEFAULT_OVERWRITE_KEYS ++ cfg.overwrite_keys.getD []))
      "id_mslist" = some v0 := by
    rw [hoff "id_mslist" (by decide)]
    exact hid1
  have hfm1ne : ¬ (build_frontmatter (contactFinal row cfg args 1) cfg
      now1) = [] := by
    intro he
    rw [he] at hid1
    exact absurd hid1 (by simp [dictGet?])
  have hmergedne : ¬ (merge_frontmatter
      (build_frontmatter (contactFinal row cfg args 1) cfg now1)
      (build_frontmatter (contactFinal row cfg args 1) cfg now2)
      (cfg.preserve_keys.getD DEFAULT_PRESERVE_KEYS)
      (DEFAULT_OVERWRITE_KEYS ++ cfg.overwrite_keys.getD [])) = [] := by
    intro he
    rw [he] at hid2
    exact absurd hid2 (by simp [dictGet?])
  have hgetself : ∀ (a b : String), dictGet? [(a, b)] a = some b := by
    intro a b
    simp [dictGet?]
  have hinsself : ∀ (a b c : String), dictInsert [(a, b)] a c = [(a, c)] := by
    intro a b c
    simp [dictInsert]
  have hrun1 : runPipeline [row] cfg args [] now1 =
      ⟨[(sanitize_filename (titleHuman (contactFinal row cfg args 1)) ++ ".md",
        dump_frontmatter (build_frontmatter (contactFinal row cfg args 1) cfg
          now1) ++ "\n")], 1, 0, 0, (composeStep row cfg args 1).2.1⟩ := by
    simp only [runPipeline, List.foldl_cons, List.foldl_nil]
    rw [pcr_c2 row cfg args _ _ _ now1 v0 hkey hreq hskip hv htru hstr]
    rw [show matchTarget (valPyStr v0)
        (choose_primary_email_lower (contactFinal row cfg args 1))
        (build_existing_indexes ([] : Store)).1
        (build_existing_indexes ([] : Store)).2 ([] : Store)
        (sanitize_filename (titleHuman (contactFinal row cfg args 1)))
        (sanitize_filename (titleHuman (contactFinal row cfg args 1)) ++ ".md")
        = sanitize_filename (titleHuman (contactFinal row cfg args 1)) ++ ".md"
      from by simp [matchTarget, dictHas, build_existing_indexes]]
    simp only [dictGet?]
    rw [hdry]
    simp [dictInsert]
  have hread1 : read_frontmatter (dump_frontmatter
      (build_frontmatter (contactFinal row cfg args 1) cfg now1) ++ "\n") =
      (build_frontmatter (contactFinal row cfg args 1) cfg now1,
        "\n" ++ "\n") :=
    roundtrip_body _ "\n" hsafe1 hnd1
  have hidx2a : (build_existing_indexes
      [(sanitize_filename (titleHuman (contactFinal row cfg args 1)) ++ ".md",
        dump_frontmatter (build_frontmatter (contactFinal row cfg args 1) cfg
          now1) ++ "\n")]).1 = [(valPyStr v0,
      sanitize_filename (titleHuman (contactFinal row cfg args 1)) ++ ".md")]
      := by
    simp only [build_existing_indexes, List.foldl_cons, List.foldl_nil]
    rw [hread1]
    dsimp only
    rw [if_neg hfm1ne, hid1]
    dsimp only
    rw [if_pos htru]
    rfl
  have hmt2 : ∀ (e : String) (be : List (String × String)),
      matchTarget (valPyStr v0) e
        [(valPyStr v0,
          sanitize_filename (titleHuman (contactFinal row cfg args 1)) ++ ".md")]
        be
        [(sanitize_filename (titleHuman (contactFinal row cfg args 1)) ++ ".md",
          dump_frontmatter (build_frontmatter (contactFinal row cfg args 1) cfg
            now1) ++ "\n")]
        (sanitize_filename (titleHuman (contactFinal row cfg args 1)))
        (sanitize_filename (titleHuman (contactFinal row cfg args 1)) ++ ".md")
        = sanitize_filename (titleHuman (contactFinal row cfg args 1)) ++ ".md"
      := by
    intro e be
    unfold matchTarget
    rw [if_pos (by simp [dictHas, hvne])]
    simp [dictGet?]
  have hrun2 : runPipeline [row] cfg args
      [(sanitize_filename (titleHuman (contactFinal row cfg args 1)) ++ ".md",
        dump_frontmatter (build_frontmatter (contactFinal row cfg args 1) cfg
          now1) ++ "\n")] now2 =
      ⟨[(sanitize_filename (titleHuman (contactFinal row cfg args 1)) ++ ".md",
        dump_frontmatter (merge_frontmatter
          (build_frontmatter (contactFinal row cfg args 1) cfg now1)
          (build_frontmatter (contactFinal row cfg args 1) cfg now2)
          (cfg.preserve_keys.getD DEFAULT_PRESERVE_KEYS)
          (DEFAULT_OVERWRITE_KEYS ++ cfg.overwrite_keys.getD [])) ++ "\n\n")],
        0, 1, 0, (composeStep row cfg args 1).2.1⟩ := by
    simp only [runPipeline, List.foldl_cons, List.foldl_nil]
    rw [pcr_c2 row cfg args _ _ _ now2 v0 hkey hreq hskip hv htru hstr]
    rw [hidx2a]
    rw [hmt2 (choose_primary_email_lower (contactFinal row cfg args 1)) _]
    rw [hgetself]
    dsimp only
    rw [hread1]
    dsimp only
    rw [if_pos (show ("\n" ++ "\n" : String) ≠ "" from nl_append_ne "\n")]
    rw [hdry]
    simp [hinsself]
  have hread2 : read_frontmatter (dump_frontmatter (merge_frontmatter
      (build_frontmatter (contactFinal row cfg args 1) cfg now1)
      (build_frontmatter (contactFinal row cfg args 1) cfg now2)
      (cfg.preserve_keys.getD DEFAULT_PRESERVE_KEYS)
      (DEFAULT_OVERWRITE_KEYS ++ cfg.overwrite_keys.getD [])) ++ "\n\n") =
      (merge_frontmatter
        (build_frontmatter (contactFinal row cfg args 1) cfg now1)
        (build_frontmatter (contactFinal row cfg args 1) cfg now2)
        (cfg.preserve_keys.getD DEFAULT_PRESERVE_KEYS)
        (DEFAULT_OVERWRITE_KEYS ++ cfg.overwrite_keys.getD []),
        "\n" ++ "\n\n") :=
    roundtrip_body _ "\n\n" hsafe2 hnd2
  have hidx3a : (build_existing_indexes
      [(sanitize_filename (titleHuman (contactFinal row cfg args 1)) ++ ".md",
        dump_frontmatter (merge_frontmatter
          (build_frontmatter (contactFinal row cfg args 1) cfg now1)
          (build_frontmatter (contactFinal row cfg args 1) cfg now2)
          (cfg.preserve_keys.getD DEFAULT_PRESERVE_KEYS)
          (DEFAULT_OVERWRITE_KEYS ++ cfg.overwrite_keys.getD [])) ++
        "\n\n")]).1 = [(valPyStr v0,
      sanitize_filename (titleHuman (contactFinal row cfg args 1)) ++ ".md")]
      := by
    simp only [build_existing_indexes, List.foldl_cons, List.foldl_nil]
    rw [hread2]
    dsimp only
    rw [if_neg hmergedne, hid2]
    dsimp only
    rw [if_pos htru]
    rfl
  have hmt3 : ∀ (e : String) (be : List (String × String)),
      matchTarget (valPyStr v0) e
        [(valPyStr v0,
          sanitize_filename (titleHuman (contactFinal row cfg args 1)) ++ ".md")]
        be
        [(sanitize_filename (titleHuman (contactFinal row cfg args 1)) ++ ".md",
          dump_frontmatter (merge_frontmatter
            (build_frontmatter (contactFinal row cfg args 1) cfg now1)
            (build_frontmatter (contactFinal row cfg args 1) cfg now2)
            (cfg.preserve_keys.getD DEFAULT_PRESERVE_KEYS)
            (DEFAULT_OVERWRITE_KEYS ++ cfg.overwrite_keys.getD [])) ++
          "\n\n")]
        (sanitize_filename (titleHuman (contactFinal row cfg args 1)))
        (sanitize_filename (titleHuman (contactFinal row cfg args 1)) ++ ".md")
        = sanitize_filename (titleHuman (contactFinal row cfg args 1)) ++ ".md"
      := by
    intro e be
    unfold matchTarget
    rw [if_pos (by simp [dictHas, hvne])]
    simp [dictGet?]
  have hrun3 : runPipeline [row] cfg args
      [(sanitize_filename (titleHuman (contactFinal row cfg args 1)) ++ ".md",
        dump_frontmatter (merge_frontmatter
          (build_frontmatter (contactFinal row cfg args 1) cfg now1)
          (build_frontmatter (contactFinal row cfg args 1) cfg now2)
          (cfg.preserve_keys.getD DEFAULT_PRESERVE_KEYS)
          (DEFAULT_OVERWRITE_KEYS ++ cfg.overwrite_keys.getD [])) ++ "\n\n")]
      now3 =
      ⟨[(sanitize_filename (titleHuman (contactFinal row cfg args 1)) ++ ".md",
        dump_frontmatter (merge_frontmatter
          (merge_frontmatter
            (build_frontmatter (contactFinal row cfg args 1) cfg now1)
            (build_frontmatter (contactFinal row cfg args 1) cfg now2)
            (cfg.preserve_keys.getD DEFAULT_PRESERVE_KEYS)
            (DEFAULT_OVERWRITE_KEYS ++ cfg.overwrite_keys.getD []))
          (build_frontmatter (contactFinal row cfg args 1) cfg now3)
          (cfg.preserve_keys.getD DEFAULT_PRESERVE_KEYS)
          (DEFAULT_OVERWRITE_KEYS ++ cfg.overwrite_keys.getD [])) ++
        "\n\n\n")],
        0, 1, 0, (composeStep row cfg args 1).2.1⟩ := by
    simp only [runPipeline, List.foldl_cons, List.foldl_nil]
    rw [pcr_c2 row cfg args _ _ _ now3 v0 hkey hreq hskip hv htru hstr]
    rw [hidx3a]
    rw [hmt3 (choose_primary_email_lower (contactFinal row cfg args 1)) _]
    rw [hgetself]
    dsimp only
    rw [hread2]
    dsimp only
    rw [if_pos (show ("\n" ++ "\n\n" : String) ≠ "" from nl_append_ne "\n\n")]
    rw [hdry]
    simp [hinsself]
  refine ⟨by rw [hrun1], ?_, ?_, hoff⟩
  · rw [hrun1]
    dsimp only
    rw [hrun2]
  · rw [hrun1]
    dsimp only
    rw [hrun2]
    dsimp only
    rw [hrun3]
    rfl

set_option maxRecDepth 100000 in
/-- Witness for C2 (amended): a concrete record with identity `A1`,
run three times from an empty store. -/
theorem claim_C2_witness :
    (runPipeline [[("Nom", "X"), ("id_mslist", "A1")]] emptyCfg
      ⟨"", "id_mslist", "", 3, "seq", false⟩ [] "T1").store =
      [(sanitize_filename (titleHuman (contactFinal
          [("Nom", "X"), ("id_mslist", "A1")] emptyCfg
          ⟨"", "id_mslist", "", 3, "seq", false⟩ 1)) ++ ".md",
        dump_frontmatter (build_frontmatter (contactFinal
          [("Nom", "X"), ("id_mslist", "A1")] emptyCfg
          ⟨"", "id_mslist", "", 3, "seq", false⟩ 1) emptyCfg "T1") ++ "\n")]
    ∧ (runPipeline [[("Nom", "X"), ("id_mslist", "A1")]] emptyCfg
        ⟨"", "id_mslist", "", 3, "seq", false⟩
        (runPipeline [[("Nom", "X"), ("id_mslist", "A1")]] emptyCfg
          ⟨"", "id_mslist", "", 3, "seq", false⟩ [] "T1").store "T2").store =
      [(sanitize_filename (titleHuman (contactFinal
          [("Nom", "X"), ("id_mslist", "A1")] emptyCfg
          ⟨"", "id_mslist", "", 3, "seq", false⟩ 1)) ++ ".md",
        dump_frontmatter (merge_frontmatter
          (build_frontmatter (contactFinal
            [("Nom", "X"), ("id_mslist", "A1")] emptyCfg
            ⟨"", "id_mslist", "", 3, "seq", false⟩ 1) emptyCfg "T1")
          (build_frontmatter (contactFinal
            [("Nom", "X"), ("id_mslist", "A1")] emptyCfg
            ⟨"", "id_mslist", "", 3, "seq", false⟩ 1) emptyCfg "T2")
          (emptyCfg.preserve_keys.getD DEFAULT_PRESERVE_KEYS)
          (DEFAULT_OVERWRITE_KEYS ++ emptyCfg.overwrite_keys.getD []))
          ++ "\n\n")]
    ∧ (runPipeline [[("Nom", "X"), ("id_mslist", "A1")]] emptyCfg
        ⟨"", "id_mslist", "", 3, "seq", false⟩
        (runPipeline [[("Nom", "X"), ("id_mslist", "A1")]] emptyCfg
          ⟨"", "id_mslist", "", 3, "seq", false⟩
          (runPipeline [[("Nom", "X"), ("id_mslist", "A1")]] emptyCfg
            ⟨"", "id_mslist", "", 3, "seq", false⟩ [] "T1").store "T2").store
        "T3").store.length =
      (runPipeline [[("Nom", "X"), ("id_mslist", "A1")]] emptyCfg
        ⟨"", "id_mslist", "", 3, "seq", false⟩
        (runPipeline [[("Nom", "X"), ("id_mslist", "A1")]] emptyCfg
          ⟨"", "id_mslist", "", 3, "seq", false⟩ []
          "T1").store "T2").store.length
    ∧ (∀ k, k ≠ "source_updated" →
        dictGet? (merge_frontmatter
          (build_frontmatter (contactFinal
            [("Nom", "X"), ("id_mslist", "A1")] emptyCfg
            ⟨"", "id_mslist", "", 3, "seq", false⟩ 1) emptyCfg "T1")
          (build_frontmatter (contactFinal
            [("Nom", "X"), ("id_mslist", "A1")] emptyCfg
            ⟨"", "id_mslist", "", 3, "seq", false⟩ 1) emptyCfg "T2")
          (emptyCfg.preserve_keys.getD DEFAULT_PRESERVE_KEYS)
          (DEFAULT_OVERWRITE_KEYS ++ emptyCfg.overwrite_keys.getD [])) k =
        dictGet? (build_frontmatter (contactFinal
          [("Nom", "X"), ("id_mslist", "A1")] emptyCfg
          ⟨"", "id_mslist", "", 3, "seq", false⟩ 1) emptyCfg "T1") k) :=
  claim_C2_amended [("Nom", "X"), ("id_mslist", "A1")] emptyCfg
    ⟨"", "id_mslist", "", 3, "seq", false⟩ "T1" "T2" "T3" (Val.s "A1")
    rfl rfl (by decide) (by decide) (by decide) (by decide) (by decide)
    (by decide) (by decide) (by decide) (by decide) (by decide)
